import Mathlib

/-!
# MSM 8x60 overclock driver (`8x60_oc.c`): shallow embedding

The driver is one C file.  Its parts are embedded here:

* `scpll_init`, the PLL calibration sequence, over an abstract register
  backend (`RegBackend`) whose reads may change the device state;
* `overclock_init`, which calibrates, scans kernel memory byte by byte for
  constants and for the `clkctl_acpu_speed` table, and patches what it finds;
* `overclock_init_mem`, the memory effect of `overclock_init` with the
  cpufreq objects addressed in the scanned memory.

Conventions.  Addresses and 32-bit words are `Nat`; 32-bit unsigned
arithmetic is written with an explicit `% 2 ^ 32`.  Memory is a total map
from addresses to bytes, words are little-endian (ARM), and a record field
is read or written through the four bytes at its offset.  Every `printk`,
`readl` and `writel` call of the source appends one `Event` to a log.
`dsb`, `udelay` and `cpu_relax` have no effect on the modelled state.
The addresses the driver computes stay below `2 ^ 32` (the scans end at
`0xc1000000`, the register blocks lie at `0xFA018200 .. 0xFA0184FF`), so
address arithmetic is not reduced modulo `2 ^ 32`.  Loops carry a bound on
their iterations as first argument; the scans are given exactly the number of
iterations their loop condition allows, the polling loops of `scpll_init`
return `none` when the bound is reached.
-/

namespace Oc8x60

/-! ## Constants of the source -/

/-- Base of the SCPLL register region, `MSM_SCPLL_BASE`. -/
def MSM_SCPLL_BASE : Nat := 0xFA018000

/-- Lower PLL calibration limit, `L_VAL_SCPLL_CAL_MIN`. -/
def L_VAL_SCPLL_CAL_MIN : Nat := 0x08
/-- Upper PLL calibration limit, `L_VAL_SCPLL_CAL_MAX`. -/
def L_VAL_SCPLL_CAL_MAX : Nat := 0x25

/-- The constant `MAX_AXI`, in kHz. -/
def MAX_AXI : Nat := 310500

/-- SCPLL mode `SCPLL_POWER_DOWN`. -/
def SCPLL_POWER_DOWN : Nat := 0
/-- SCPLL mode `SCPLL_STANDBY`. -/
def SCPLL_STANDBY : Nat := 2
/-- SCPLL mode `SCPLL_FULL_CAL`. -/
def SCPLL_FULL_CAL : Nat := 4

/-- Debug mode `SCPLL_DEBUG_NONE`. -/
def SCPLL_DEBUG_NONE : Nat := 0
/-- Debug mode `SCPLL_DEBUG_FULL`. -/
def SCPLL_DEBUG_FULL : Nat := 3

/-- Register offset `SCPLL_DEBUG_OFFSET`. -/
def SCPLL_DEBUG_OFFSET : Nat := 0x0
/-- Register offset `SCPLL_CTL_OFFSET`. -/
def SCPLL_CTL_OFFSET : Nat := 0x4
/-- Register offset `SCPLL_CAL_OFFSET`. -/
def SCPLL_CAL_OFFSET : Nat := 0x8
/-- Register offset `SCPLL_STATUS_OFFSET`. -/
def SCPLL_STATUS_OFFSET : Nat := 0x10
/-- Register offset `SCPLL_LUT_A_HW_MAX`:
`(0x38 + ((L_VAL_SCPLL_CAL_MAX / 4) * 4))`. -/
def SCPLL_LUT_A_HW_MAX : Nat := 0x38 + ((L_VAL_SCPLL_CAL_MAX / 4) * 4)

/-- The PLL instances, `enum scplls`. -/
inductive scplls where
  | CPU0
  | CPU1
  | L2
  deriving DecidableEq, Repr

/-- Register block of each instance, the array `sc_pll_base`. -/
def sc_pll_base : scplls → Nat
  | .CPU0 => MSM_SCPLL_BASE + 0x200
  | .CPU1 => MSM_SCPLL_BASE + 0x300
  | .L2 => MSM_SCPLL_BASE + 0x400

/-! ## Event log -/

/-- The `printk` call sites of the source, with their arguments. -/
inductive Msg where
  | clearLut (sc_pll : scplls)
  | standbyMode (sc_pll : scplls)
  | calibrate (sc_pll : scplls)
  | calibrateStart (sc_pll : scplls)
  | waitStart (sc_pll : scplls)
  | waitComplete (sc_pll : scplls)
  | disable (sc_pll : scplls)
  | version
  | author
  | recalCpu0
  | recalCpu1
  | scanningVoltages
  | epicPwn (scan : Nat)
  | scanningTable
  | injecting
  | injected
  | registering
  | notifying
  deriving DecidableEq, Repr

/-- One observable action: a register write `writel(val, addr)`, a register
read `readl(addr)` with the value it returned, or a `printk`. -/
inductive Event where
  | writel (val addr : Nat)
  | readl (addr val : Nat)
  | printk (m : Msg)
  deriving DecidableEq, Repr

/-! ## Memory -/

/-- A byte (`char`). -/
abbrev Byte := Fin 256

/-- Kernel memory: the byte stored at each address. -/
abbrev Mem := Nat → Byte

/-- Little-endian 32-bit load from the four bytes at `a`. -/
def read32 (mem : Mem) (a : Nat) : Nat :=
  (mem a).val + 256 * (mem (a + 1)).val + 65536 * (mem (a + 2)).val
    + 16777216 * (mem (a + 3)).val

/-- Little-endian 32-bit store of `v` (truncated to 32 bits) at `a`. -/
def write32 (mem : Mem) (a v : Nat) : Mem := fun x =>
  if x = a then Fin.ofNat v
  else if x = a + 1 then Fin.ofNat (v / 256)
  else if x = a + 2 then Fin.ofNat (v / 65536)
  else if x = a + 3 then Fin.ofNat (v / 16777216)
  else mem x

/-- The call `memcpy(dst, src, 4)` for a 4-byte array `src`. -/
def memcpy4 (mem : Mem) (dst : Nat) (src : Nat → Byte) : Mem := fun x =>
  if x = dst then src 0
  else if x = dst + 1 then src 1
  else if x = dst + 2 then src 2
  else if x = dst + 3 then src 3
  else mem x

/-- The array `hex_1250mv`: bytes `d0 12 13 00`. -/
def hex_1250mv (i : Nat) : Byte := [0xd0, 0x12, 0x13, 0x00].getD i 0

/-- The array `hex_1450mv`: bytes `10 20 16 00`. -/
def hex_1450mv (i : Nat) : Byte := [0x10, 0x20, 0x16, 0x00].getD i 0

/-- The array `hex_1188mhz`: bytes `00 71 cf 46`. -/
def hex_1188mhz (i : Nat) : Byte := [0x00, 0x71, 0xcf, 0x46].getD i 0

/-- The array `hex_hugemhz`: bytes `00 5e d0 b2`. -/
def hex_hugemhz (i : Nat) : Byte := [0x00, 0x5e, 0xd0, 0xb2].getD i 0

/-! ## Byte-pattern scans -/

/-- End of every scan: the bound in `while(scan < 0xc1000000)`. -/
def SCAN_END : Nat := 0xc1000000

/-- Start value of `scan` for the two byte-pattern scans. -/
def SCAN_START : Nat := 0xc0000000

/-- Start value of `scan` for the table scan. -/
def TABLE_SCAN_START : Nat := 0xc071b000

/-- The inner loop `for(i = 1; i <= 3; i++) { if(*(scan+i) != pat[i]) break; }`
started with `i`; the result is the value of `i` after the loop.  The first
argument bounds the number of iterations (three are ever needed). -/
def cmpLoop (pat : Nat → Byte) (mem : Mem) (scan : Nat) : Nat → Nat → Nat
  | 0, i => i
  | fuel + 1, i =>
    if i ≤ 3 then
      if mem (scan + i) ≠ pat i then i
      else cmpLoop pat mem scan fuel (i + 1)
    else i

/-- The acceptance test of a byte-pattern scan at address `scan`: the outer
`if(*voltage == pat[0])`, the comparison loop, and the test `if(i >= 3)`. -/
def accepts (pat : Nat → Byte) (mem : Mem) (scan : Nat) : Bool :=
  if mem scan = pat 0 then decide (cmpLoop pat mem scan 4 1 ≥ 3) else false

/-- The voltage scan loop (source lines 277-297), entered with the current
value of `scan`; there is no `break`, so the loop runs to the end of the range.
The first argument bounds the iterations. -/
def voltageScanLoop : Nat → Nat → Mem → Mem × List Event
  | 0, _, mem => (mem, [])
  | fuel + 1, scan, mem =>
    if scan < SCAN_END then
      let scan := scan + 1
      if accepts hex_1250mv mem scan then
        let r := voltageScanLoop fuel scan (memcpy4 mem scan hex_1450mv)
        (r.1, Event.printk (Msg.epicPwn scan) :: r.2)
      else voltageScanLoop fuel scan mem
    else (mem, [])

/-- The voltage scan of `overclock_init`: `scan` starts at `0xc0000000`. -/
def voltageScan (mem : Mem) : Mem × List Event :=
  voltageScanLoop (SCAN_END - SCAN_START) SCAN_START mem

/-- The 1188 MHz scan loop (source lines 358-379), entered with the current
value of `scan`; it leaves the loop at the first accepted address. -/
def freqScanLoop : Nat → Nat → Mem → Mem × List Event
  | 0, _, mem => (mem, [])
  | fuel + 1, scan, mem =>
    if scan < SCAN_END then
      let scan := scan + 1
      if accepts hex_1188mhz mem scan then
        (memcpy4 mem scan hex_hugemhz, [Event.printk (Msg.epicPwn scan)])
      else freqScanLoop fuel scan mem
    else (mem, [])

/-- The 1188 MHz scan of `overclock_init`: `scan` starts at `0xc0000000`. -/
def freqScan (mem : Mem) : Mem × List Event :=
  freqScanLoop (SCAN_END - SCAN_START) SCAN_START mem

/-! ## The `clkctl_acpu_speed` table

On the 32-bit ARM target every member of `struct clkctl_acpu_speed` is four
bytes wide (`unsigned int`, `int`, a pointer), so the members lie at offsets
`use_for_scaling` 0 and 4, `acpuclk_khz` 8, `pll` 12, `acpuclk_src_sel` 16,
`acpuclk_src_div` 20, `core_src_sel` 24, `l_val` 28, `l2_level` 32,
`vdd_sc` 36, `avsdscr_setting` 40, and a record is 44 bytes. -/

/-- Size of one record, `sizeof(struct clkctl_acpu_speed)`. -/
def SIZEOF_ACPU_SPEED : Nat := 44

/-- Address of the member at byte offset `off` of `table[i]`. -/
def fieldAddr (table i off : Nat) : Nat := table + SIZEOF_ACPU_SPEED * i + off

/-- Offset of `acpuclk_khz`. -/
def OFF_ACPUCLK_KHZ : Nat := 8
/-- Offset of `l_val`. -/
def OFF_L_VAL : Nat := 28
/-- Offset of `vdd_sc`. -/
def OFF_VDD_SC : Nat := 36

/-- The value of `table[i].acpuclk_khz`. -/
def acpuclk_khz (mem : Mem) (table i : Nat) : Nat :=
  read32 mem (fieldAddr table i OFF_ACPUCLK_KHZ)

/-- The value of `table[i].l_val`. -/
def l_val (mem : Mem) (table i : Nat) : Nat :=
  read32 mem (fieldAddr table i OFF_L_VAL)

/-- The value of `table[i].vdd_sc`. -/
def vdd_sc (mem : Mem) (table i : Nat) : Nat :=
  read32 mem (fieldAddr table i OFF_VDD_SC)

/-- The test of the table scan: `table[0].acpuclk_khz == 192000 &&
table[1].acpuclk_khz == MAX_AXI && table[2].acpuclk_khz == 384000`. -/
def signature (mem : Mem) (table : Nat) : Bool :=
  acpuclk_khz mem table 0 == 192000 && acpuclk_khz mem table 1 == MAX_AXI
    && acpuclk_khz mem table 2 == 384000

/-- The table scan loop (source lines 302-317), entered with the current
values of `scan` and of the local `table`; the result is the value of `table`
after the loop and the messages printed. -/
def tableScanLoop (mem : Mem) : Nat → Nat → Nat → Nat × List Event
  | 0, _, table => (table, [])
  | fuel + 1, scan, table =>
    if scan < SCAN_END then
      let scan := scan + 1
      let table := scan
      if signature mem table then (table, [Event.printk (Msg.epicPwn scan)])
      else tableScanLoop mem fuel scan table
    else (table, [])

/-- The table scan of `overclock_init`: `scan = 0xc071b000`, and `table` holds
whatever the uninitialised local held (`table0`). -/
def tableScan (mem : Mem) (table0 : Nat) : Nat × List Event :=
  tableScanLoop mem (SCAN_END - TABLE_SCAN_START) TABLE_SCAN_START table0

/-- The expression `scpll_l_val*2*27*1000` in 32-bit unsigned arithmetic. -/
def oc_khz (scpll_l_val : Nat) : Nat :=
  (((scpll_l_val * 2) % 2 ^ 32 * 27) % 2 ^ 32 * 1000) % 2 ^ 32

/-- The guarded table patch (source lines 324-332). -/
def tablePatch (scpll_l_val vdd_uv table : Nat) (mem : Mem) : Mem :=
  if acpuclk_khz mem table 17 = 1188000 then
    let mem := write32 mem (fieldAddr table 17 OFF_ACPUCLK_KHZ) (oc_khz scpll_l_val)
    let mem := write32 mem (fieldAddr table 17 OFF_L_VAL) scpll_l_val
    let mem := write32 mem (fieldAddr table 17 OFF_VDD_SC) vdd_uv
    let mem := write32 mem (fieldAddr table 16 OFF_ACPUCLK_KHZ) 1188000
    let mem := write32 mem (fieldAddr table 16 OFF_L_VAL) 0x16
    write32 mem (fieldAddr table 16 OFF_VDD_SC) 1187500
  else mem

/-- The six stores of the patch, without the guard. -/
def patchStores (scpll_l_val vdd_uv table : Nat) (mem : Mem) : Mem :=
  write32 (write32 (write32 (write32 (write32 (write32 mem
    (fieldAddr table 17 OFF_ACPUCLK_KHZ) (oc_khz scpll_l_val))
    (fieldAddr table 17 OFF_L_VAL) scpll_l_val)
    (fieldAddr table 17 OFF_VDD_SC) vdd_uv)
    (fieldAddr table 16 OFF_ACPUCLK_KHZ) 1188000)
    (fieldAddr table 16 OFF_L_VAL) 0x16)
    (fieldAddr table 16 OFF_VDD_SC) 1187500

/-- A memory transformer that overwrites a fixed set of addresses (those with
`S x = true`) with fixed bytes `c x` and leaves every other byte alone. -/
def Overwrite (f : Mem → Mem) : Prop :=
  ∃ (S : Nat → Bool) (c : Nat → Byte), ∀ m x, f m x = if S x then c x else m x

/-! ## cpufreq objects

`struct cpufreq_frequency_table` and `struct cpufreq_policy` belong to the
cpufreq subsystem.  A frequency table is modelled by the `frequency` member of
each slot, a policy by the four members the driver assigns; both are kept
apart from the scanned memory `Mem`. -/

/-- The members of `struct cpufreq_policy` assigned by the driver. -/
structure Policy where
  cpuinfo_min_freq : Nat
  cpuinfo_max_freq : Nat
  min : Nat
  max : Nat
  deriving DecidableEq, Repr

/-- The two stores into one cpufreq frequency table (source lines 338-341):
`freq_table[16].frequency = scpll_l_val*2*27*1000` and
`freq_table[15].frequency = 1188000`. -/
def registerTable (scpll_l_val : Nat) (freq_table : Nat → Nat) : Nat → Nat :=
  Function.update (Function.update freq_table 16 (oc_khz scpll_l_val)) 15 1188000

/-- The four stores into `policy_cpu0` (source lines 348-351). -/
def notifyPolicy (scpll_l_val : Nat) (_policy : Policy) : Policy :=
  { cpuinfo_min_freq := 192000
    cpuinfo_max_freq := oc_khz scpll_l_val
    min := 384000
    max := 1188000 }

/-! ## Register access and `scpll_init` -/

/-- A register backend over device states `σ`: `readl dev addr` yields the
value read and the next device state, `writel dev val addr` the state after
the write. -/
structure RegBackend (σ : Type) where
  readl : σ → Nat → Nat × σ
  writel : σ → Nat → Nat → σ

/-- Device state together with the log of events so far (oldest first). -/
structure Hw (σ : Type) where
  dev : σ
  log : List Event

/-- The call `printk(m)`. -/
def Hw.printk {σ : Type} (h : Hw σ) (m : Msg) : Hw σ :=
  { h with log := h.log ++ [Event.printk m] }

/-- The call `writel(val, addr)`. -/
def Hw.writel {σ : Type} (io : RegBackend σ) (h : Hw σ) (val addr : Nat) : Hw σ :=
  { dev := io.writel h.dev val addr, log := h.log ++ [Event.writel val addr] }

/-- The function `scpll_disable`. -/
def scpll_disable {σ : Type} (io : RegBackend σ) (sc_pll : scplls) (h : Hw σ) : Hw σ :=
  h.writel io SCPLL_POWER_DOWN (sc_pll_base sc_pll + SCPLL_CTL_OFFSET)

/-- The loop `while (readl(addr) == 0) cpu_relax();`.  The first argument
bounds the number of reads; `none` means the bound was reached. -/
def waitCalStart {σ : Type} (io : RegBackend σ) (addr : Nat) : Nat → Hw σ → Option (Hw σ)
  | 0, _ => none
  | fuel + 1, h =>
    let r := io.readl h.dev addr
    let h : Hw σ := { dev := r.2, log := h.log ++ [Event.readl addr r.1] }
    if r.1 = 0 then waitCalStart io addr fuel h else some h

/-- The loop `while (readl(addr) & 0x2) cpu_relax();`, bounded likewise. -/
def waitCalDone {σ : Type} (io : RegBackend σ) (addr : Nat) : Nat → Hw σ → Option (Hw σ)
  | 0, _ => none
  | fuel + 1, h =>
    let r := io.readl h.dev addr
    let h : Hw σ := { dev := r.2, log := h.log ++ [Event.readl addr r.1] }
    if r.1 &&& 0x2 ≠ 0 then waitCalDone io addr fuel h else some h

/-- The function `scpll_init`; `fuel` bounds the reads of each polling loop. -/
def scpll_init {σ : Type} (io : RegBackend σ) (fuel : Nat) (sc_pll : scplls) (h : Hw σ) :
    Option (Hw σ) :=
  let h := h.printk (Msg.clearLut sc_pll)
  let h := h.writel io SCPLL_DEBUG_FULL (sc_pll_base sc_pll + SCPLL_DEBUG_OFFSET)
  let h := h.writel io 0x0 (sc_pll_base sc_pll + SCPLL_LUT_A_HW_MAX)
  let h := h.writel io SCPLL_DEBUG_NONE (sc_pll_base sc_pll + SCPLL_DEBUG_OFFSET)
  let h := h.printk (Msg.standbyMode sc_pll)
  let h := h.writel io SCPLL_STANDBY (sc_pll_base sc_pll + SCPLL_CTL_OFFSET)
  let h := h.printk (Msg.calibrate sc_pll)
  let regval := (L_VAL_SCPLL_CAL_MAX <<< 24) ||| (L_VAL_SCPLL_CAL_MIN <<< 16)
  let h := h.writel io regval (sc_pll_base sc_pll + SCPLL_CAL_OFFSET)
  let h := h.printk (Msg.calibrateStart sc_pll)
  let h := h.writel io SCPLL_FULL_CAL (sc_pll_base sc_pll + SCPLL_CTL_OFFSET)
  let h := h.printk (Msg.waitStart sc_pll)
  match waitCalStart io (sc_pll_base sc_pll + SCPLL_LUT_A_HW_MAX) fuel h with
  | none => none
  | some h =>
    let h := h.printk (Msg.waitComplete sc_pll)
    match waitCalDone io (sc_pll_base sc_pll + SCPLL_STATUS_OFFSET) fuel h with
    | none => none
    | some h =>
      let h := h.printk (Msg.disable sc_pll)
      some (scpll_disable io sc_pll h)

/-! ## `overclock_init` -/

/-- Everything `overclock_init` reads or changes: the register backend and the
log, kernel memory, the local `table`, the cpufreq frequency tables of both
CPUs and the policy of CPU 0.  The cpufreq objects are components of their
own here, apart from `mem`: a store to one of them changes no byte of `mem`
and no scan or patch of `mem` changes them.  Properties that relate the
cpufreq objects to the bytes of `mem` at the end of a run are stated over
`overclock_init_mem` below, where the objects are addressed in the one
memory. -/
structure State (σ : Type) where
  hw : Hw σ
  mem : Mem
  table : Nat
  freq_table_cpu0 : Nat → Nat
  freq_table_cpu1 : Nat → Nat
  policy_cpu0 : Policy

/-- Append printed messages to the log. -/
def Hw.emit {σ : Type} (h : Hw σ) (es : List Event) : Hw σ :=
  { h with log := h.log ++ es }

/-- The function `overclock_init` with module parameters `scpll_l_val` and
`vdd_uv`; `fuel` bounds the reads of each polling loop of `scpll_init`.  The
result of `sysfs_create_file` is stored in `ret` and never used. -/
def overclock_init {σ : Type} (io : RegBackend σ) (fuel scpll_l_val vdd_uv : Nat)
    (s : State σ) : Option (State σ) :=
  let h := s.hw.printk Msg.version
  let h := h.printk Msg.author
  let h := h.printk Msg.recalCpu0
  match scpll_init io fuel scplls.CPU0 h with
  | none => none
  | some h =>
    let h := h.printk Msg.recalCpu1
    match scpll_init io fuel scplls.CPU1 h with
    | none => none
    | some h =>
      let h := h.printk Msg.scanningVoltages
      let v := voltageScan s.mem
      let h := h.emit v.2
      let h := h.printk Msg.scanningTable
      let t := tableScan v.1 s.table
      let h := h.emit t.2
      let h := h.printk Msg.injecting
      let mem := tablePatch scpll_l_val vdd_uv t.1 v.1
      let h := h.printk Msg.injected
      let h := h.printk Msg.registering
      let ft0 := registerTable scpll_l_val s.freq_table_cpu0
      let ft1 := registerTable scpll_l_val s.freq_table_cpu1
      let h := h.printk Msg.notifying
      let policy := notifyPolicy scpll_l_val s.policy_cpu0
      let f := freqScan mem
      let h := h.emit f.2
      some { hw := h, mem := f.1, table := t.1, freq_table_cpu0 := ft0,
             freq_table_cpu1 := ft1, policy_cpu0 := policy }

/-! ## Predicates and log projections used in the statements -/

/-- The 4-byte pattern `pat` occurs in `mem` at address `a`. -/
def occursAt (pat : Nat → Byte) (mem : Mem) (a : Nat) : Prop :=
  mem a = pat 0 ∧ mem (a + 1) = pat 1 ∧ mem (a + 2) = pat 2 ∧ mem (a + 3) = pat 3

instance (pat : Nat → Byte) (mem : Mem) (a : Nat) : Decidable (occursAt pat mem a) := by
  unfold occursAt
  infer_instance

/-- The first three bytes of `pat` occur in `mem` at address `a`. -/
def headAt (pat : Nat → Byte) (mem : Mem) (a : Nat) : Prop :=
  mem a = pat 0 ∧ mem (a + 1) = pat 1 ∧ mem (a + 2) = pat 2

instance (pat : Nat → Byte) (mem : Mem) (a : Nat) : Decidable (headAt pat mem a) := by
  unfold headAt
  infer_instance

/-- Within the addresses `lo < s ≤ SCAN_END`, wherever the first three bytes of
`hex_1250mv` occur the fourth byte follows too. -/
def NoShortMatch (mem : Mem) (lo : Nat) : Prop :=
  ∀ s, lo < s → s ≤ SCAN_END → headAt hex_1250mv mem s → occursAt hex_1250mv mem s

/-- The address `a` starts three consecutive records whose `acpuclk_khz`
members are 192000, 310500 and 384000. -/
def isTableStart (mem : Mem) (a : Nat) : Prop :=
  acpuclk_khz mem a 0 = 192000 ∧ acpuclk_khz mem a 1 = 310500 ∧ acpuclk_khz mem a 2 = 384000

instance (mem : Mem) (a : Nat) : Decidable (isTableStart mem a) := by
  unfold isTableStart
  infer_instance

/-- Whether an event is a register write. -/
def Event.isWritel : Event → Bool
  | .writel _ _ => true
  | _ => false

/-- Whether an event is a register access (read or write). -/
def Event.isReg : Event → Bool
  | .printk _ => false
  | _ => true

/-- The register writes of a log, in order. -/
def writes (log : List Event) : List Event := log.filter Event.isWritel

/-- The register accesses of a log, in order. -/
def regEvents (log : List Event) : List Event := log.filter Event.isReg

/-- The instance announced by the first `printk` of `scpll_init`, which that
function prints once per call and nothing else prints. -/
def Event.scpllInitCall : Event → Option scplls
  | .printk (.clearLut p) => some p
  | _ => none

/-- The calls of `scpll_init` recorded in a log, in order. -/
def scpllInitCalls (log : List Event) : List scplls := log.filterMap Event.scpllInitCall

/-- An event that is neither a register access nor the entry message of
`scpll_init`. -/
def Event.quiet : Event → Bool
  | .printk (.clearLut _) => false
  | .printk _ => true
  | _ => false

/-- The seven register writes of the calibration sequence for instance `p`. -/
def calibrationWrites (p : scplls) : List Event :=
  [ Event.writel 3 (sc_pll_base p + 0x0),
    Event.writel 0 (sc_pll_base p + 0x5C),
    Event.writel 0 (sc_pll_base p + 0x0),
    Event.writel 2 (sc_pll_base p + 0x4),
    Event.writel 0x25080000 (sc_pll_base p + 0x8),
    Event.writel 4 (sc_pll_base p + 0x4),
    Event.writel 0 (sc_pll_base p + 0x4) ]

/-- The events of `scpll_init` up to the first polling loop. -/
def calibrationHead (p : scplls) : List Event :=
  [ Event.printk (Msg.clearLut p),
    Event.writel SCPLL_DEBUG_FULL (sc_pll_base p + SCPLL_DEBUG_OFFSET),
    Event.writel 0x0 (sc_pll_base p + SCPLL_LUT_A_HW_MAX),
    Event.writel SCPLL_DEBUG_NONE (sc_pll_base p + SCPLL_DEBUG_OFFSET),
    Event.printk (Msg.standbyMode p),
    Event.writel SCPLL_STANDBY (sc_pll_base p + SCPLL_CTL_OFFSET),
    Event.printk (Msg.calibrate p),
    Event.writel ((L_VAL_SCPLL_CAL_MAX <<< 24) ||| (L_VAL_SCPLL_CAL_MIN <<< 16))
      (sc_pll_base p + SCPLL_CAL_OFFSET),
    Event.printk (Msg.calibrateStart p),
    Event.writel SCPLL_FULL_CAL (sc_pll_base p + SCPLL_CTL_OFFSET),
    Event.printk (Msg.waitStart p) ]

/-- The events `overclock_init` appends after the second calibration. -/
def scanPhaseEvents (scpll_l_val vdd_uv : Nat) (mem : Mem) (table0 : Nat) : List Event :=
  (voltageScan mem).2 ++ Event.printk Msg.scanningTable ::
    ((tableScan (voltageScan mem).1 table0).2 ++
      [Event.printk Msg.injecting, Event.printk Msg.injected,
        Event.printk Msg.registering, Event.printk Msg.notifying] ++
      (freqScan (tablePatch scpll_l_val vdd_uv (tableScan (voltageScan mem).1 table0).1
        (voltageScan mem).1)).2)

/-! ## Concrete inputs -/

/-- Memory that is zero except for `00 71 cf 00` at `0xc0000010` (the bytes
`71 cf` at `0xc0000011`) and the full pattern `00 71 cf 46` at `0xc0000020`. -/
def shortMem : Mem := fun x =>
  if x = 0xc0000011 then 0x71
  else if x = 0xc0000012 then 0xcf
  else if x = 0xc0000021 then 0x71
  else if x = 0xc0000022 then 0xcf
  else if x = 0xc0000023 then 0x46
  else 0

/-- Memory that is zero except for the pattern `d0 12 13 00` at `0xc0000010`
and again at `0xc0000020`. -/
def twoMem : Mem := fun x =>
  if x = 0xc0000010 then 0xd0
  else if x = 0xc0000011 then 0x12
  else if x = 0xc0000012 then 0x13
  else if x = 0xc0000020 then 0xd0
  else if x = 0xc0000021 then 0x12
  else if x = 0xc0000022 then 0x13
  else 0

/-- Memory that is zero except for the three signature fields of a table at
`0xc071b004`: `acpuclk_khz` of records 0, 1, 2 is 192000 (`00 ee 02 00`),
310500 (`e4 bc 04 00`) and 384000 (`00 dc 05 00`).  Record 17 is all zero. -/
def sigMem : Mem := fun x =>
  if x = 0xc071b00d then 0xee
  else if x = 0xc071b00e then 0x02
  else if x = 0xc071b038 then 0xe4
  else if x = 0xc071b039 then 0xbc
  else if x = 0xc071b03a then 0x04
  else if x = 0xc071b065 then 0xdc
  else if x = 0xc071b066 then 0x05
  else 0

/-- The memory `sigMem` with `table[17].acpuclk_khz = 1188000` for the table at
`0xc071b004` (the member lies at `0xc071b2f8`); the other members of record 17
are zero. -/
def bareMem : Mem := write32 sigMem 0xc071b2f8 1188000

/-- The memory `bareMem` with `table[17].l_val = 0x16` (at `0xc071b30c`) and
`table[17].vdd_sc = 1187500` (at `0xc071b314`), as in the stock table. -/
def tableMem : Mem := write32 (write32 bareMem 0xc071b30c 0x16) 0xc071b314 1187500

/-- Memory that is zero except for 1188000 (`a0 20 12 00`) in the
`acpuclk_khz` member of record 17 of a table starting at `0xc1000000`, that
is at address `0xc10002f4`. -/
def endMem : Mem := fun x =>
  if x = 0xc10002f4 then 0xa0
  else if x = 0xc10002f5 then 0x20
  else if x = 0xc10002f6 then 0x12
  else 0

/-- A simulated register backend whose state counts the reads made so far.
Any register reads 0 during the first two reads; from the third read on the
LUT slot (offset `0x5C` of a block) reads 1.  The status register (offset
`0x10`) reads 2 until five reads have been made and 0 afterwards.  Writes are
ignored. -/
def simDev : RegBackend Nat where
  readl := fun n addr =>
    (if addr % 0x100 = 0x5C then (if n < 2 then 0 else 1)
     else if addr % 0x100 = 0x10 then (if n < 5 then 2 else 0)
     else 0, n + 1)
  writel := fun n _ _ => n

/-- The state after `scpll_init(CPU0)` on `simDev`, started with no reads made
and an empty log: three reads of the LUT slot, three of the status register. -/
def simCal : Hw Nat :=
  { dev := 6
    log := calibrationHead scplls.CPU0 ++
      [ Event.readl 0xFA01825C 0, Event.readl 0xFA01825C 0, Event.readl 0xFA01825C 1,
        Event.printk (Msg.waitComplete scplls.CPU0),
        Event.readl 0xFA018210 2, Event.readl 0xFA018210 2, Event.readl 0xFA018210 0,
        Event.printk (Msg.disable scplls.CPU0),
        Event.writel 0 0xFA018204 ] }

/-- An initial state over `simDev`: nothing read yet, empty log, the given
memory, zeroed cpufreq objects. -/
def simState (mem : Mem) : State Nat :=
  { hw := { dev := 0, log := [] }
    mem := mem
    table := 0
    freq_table_cpu0 := fun _ => 0
    freq_table_cpu1 := fun _ => 0
    policy_cpu0 := { cpuinfo_min_freq := 0, cpuinfo_max_freq := 0, min := 0, max := 0 } }

/-- The state after `overclock_init` on `simDev` with the default module
parameters (`scpll_l_val = 0x1C`, `vdd_uv = 1250000`). -/
def simRun (mem : Mem) : State Nat :=
  (overclock_init simDev 10 0x1C 1250000 (simState mem)).getD (simState mem)

/-! ## Further predicates, projections and inputs -/

/-- The state after `overclock_init` on `simDev` with module parameters
`scpll_l_val = l` and `vdd_uv = v`. -/
def simRunWith (l v : Nat) (mem : Mem) : State Nat :=
  (overclock_init simDev 10 l v (simState mem)).getD (simState mem)

/-- Memory that is zero except for the full pattern `00 71 cf 46` at
`0xc0000020`. -/
def hitMem : Mem := fun x =>
  if x = 0xc0000021 then 0x71
  else if x = 0xc0000022 then 0xcf
  else if x = 0xc0000023 then 0x46
  else 0

/-- Memory whose bytes are all `0xff` except for the pattern `00 71 cf 46` at
`0xc0000000`, the first address of the range. -/
def startMem : Mem := fun x =>
  if x = 0xc0000000 then 0x00
  else if x = 0xc0000001 then 0x71
  else if x = 0xc0000002 then 0xcf
  else if x = 0xc0000003 then 0x46
  else 0xff

/-- Memory whose bytes are all `0xff` except for the pattern `00 71 cf 46` at
`0xc1000000`, the end address of the range. -/
def pastEndMem : Mem := fun x =>
  if x = 0xc1000000 then 0x00
  else if x = 0xc1000001 then 0x71
  else if x = 0xc1000002 then 0xcf
  else if x = 0xc1000003 then 0x46
  else 0xff

/-- Memory whose bytes are all `0xff`. -/
def ffMem : Mem := fun _ => 0xff

/-- The values the local `table` takes in the table scan loop, in order: the
loop of `tableScanLoop`, recording each candidate address it tests. -/
def tableCandidates (mem : Mem) : Nat → Nat → List Nat
  | 0, _ => []
  | fuel + 1, scan =>
    if scan < SCAN_END then
      let scan := scan + 1
      let table := scan
      if signature mem table then [table]
      else table :: tableCandidates mem fuel scan
    else []

/-- The device state after `n` consecutive reads of the register at `addr`. -/
def afterReads {σ : Type} (io : RegBackend σ) (addr : Nat) : Nat → σ → σ
  | 0, d => d
  | n + 1, d => afterReads io addr n (io.readl d addr).2

/-- The value returned by read number `n` (counted from 0) in a run of
consecutive reads of the register at `addr` that starts in device state `d`. -/
def readValue {σ : Type} (io : RegBackend σ) (addr n : Nat) (d : σ) : Nat :=
  (io.readl (afterReads io addr n d) addr).1

/-- The events of `n` consecutive reads of the register at `addr`. -/
def pollEvents {σ : Type} (io : RegBackend σ) (addr : Nat) : Nat → σ → List Event
  | 0, _ => []
  | n + 1, d =>
    Event.readl addr (io.readl d addr).1 :: pollEvents io addr n (io.readl d addr).2

/-- The device state after the six register writes `scpll_init` issues before
its first polling loop. -/
def devAfterSetup {σ : Type} (io : RegBackend σ) (p : scplls) (d : σ) : σ :=
  let d := io.writel d SCPLL_DEBUG_FULL (sc_pll_base p + SCPLL_DEBUG_OFFSET)
  let d := io.writel d 0x0 (sc_pll_base p + SCPLL_LUT_A_HW_MAX)
  let d := io.writel d SCPLL_DEBUG_NONE (sc_pll_base p + SCPLL_DEBUG_OFFSET)
  let d := io.writel d SCPLL_STANDBY (sc_pll_base p + SCPLL_CTL_OFFSET)
  let d := io.writel d ((L_VAL_SCPLL_CAL_MAX <<< 24) ||| (L_VAL_SCPLL_CAL_MIN <<< 16))
    (sc_pll_base p + SCPLL_CAL_OFFSET)
  io.writel d SCPLL_FULL_CAL (sc_pll_base p + SCPLL_CTL_OFFSET)

/-- A register file with a little hardware behaviour: a write stores its value
at the address written, and a write of `SCPLL_FULL_CAL` to a control register
(offset `0x4` of a `0x100` block) also makes the LUT slot of the same block
(offset `0x5C`) read 1.  Reads return the stored value and change nothing. -/
def fileDev : RegBackend (Nat → Nat) where
  readl := fun d addr => (d addr, d)
  writel := fun d val addr => fun x =>
    if x = addr then val
    else if val = 4 ∧ addr % 0x100 = 0x4 ∧ x = addr + 0x58 then 1
    else d x

/-- Whether an event is a read of the register at `addr`. -/
def Event.isReadAt (addr : Nat) : Event → Bool
  | .readl a _ => a == addr
  | _ => false

/-- The reads of the register at `addr` in a log, in order. -/
def readsAt (addr : Nat) (log : List Event) : List Event := log.filter (Event.isReadAt addr)

/-- The events of a call `scpll_init(p)` that starts in device state `d`,
reads the LUT slot `N + 1` times and the status register `M + 1` times. -/
def calibrationLog {σ : Type} (io : RegBackend σ) (p : scplls) (N M : Nat) (d : σ) :
    List Event :=
  calibrationHead p ++
    pollEvents io (sc_pll_base p + SCPLL_LUT_A_HW_MAX) (N + 1) (devAfterSetup io p d) ++
    [Event.printk (Msg.waitComplete p)] ++
    pollEvents io (sc_pll_base p + SCPLL_STATUS_OFFSET) (M + 1)
      (afterReads io (sc_pll_base p + SCPLL_LUT_A_HW_MAX) (N + 1) (devAfterSetup io p d)) ++
    [Event.printk (Msg.disable p),
      Event.writel SCPLL_POWER_DOWN (sc_pll_base p + SCPLL_CTL_OFFSET)]

/-- The device state after such a call: the setup writes, the reads of both
polling loops, and the power-down write. -/
def devAfterCalibration {σ : Type} (io : RegBackend σ) (p : scplls) (N M : Nat) (d : σ) : σ :=
  io.writel
    (afterReads io (sc_pll_base p + SCPLL_STATUS_OFFSET) (M + 1)
      (afterReads io (sc_pll_base p + SCPLL_LUT_A_HW_MAX) (N + 1) (devAfterSetup io p d)))
    SCPLL_POWER_DOWN (sc_pll_base p + SCPLL_CTL_OFFSET)

/-- The byte address `x` lies in one of the six members the table patch
stores: `acpuclk_khz`, `l_val`, `vdd_sc` of records 16 and 17. -/
def patchedByte (table x : Nat) : Prop :=
  (fieldAddr table 17 OFF_ACPUCLK_KHZ ≤ x ∧ x < fieldAddr table 17 OFF_ACPUCLK_KHZ + 4) ∨
  (fieldAddr table 17 OFF_L_VAL ≤ x ∧ x < fieldAddr table 17 OFF_L_VAL + 4) ∨
  (fieldAddr table 17 OFF_VDD_SC ≤ x ∧ x < fieldAddr table 17 OFF_VDD_SC + 4) ∨
  (fieldAddr table 16 OFF_ACPUCLK_KHZ ≤ x ∧ x < fieldAddr table 16 OFF_ACPUCLK_KHZ + 4) ∨
  (fieldAddr table 16 OFF_L_VAL ≤ x ∧ x < fieldAddr table 16 OFF_L_VAL + 4) ∨
  (fieldAddr table 16 OFF_VDD_SC ≤ x ∧ x < fieldAddr table 16 OFF_VDD_SC + 4)

instance (table x : Nat) : Decidable (patchedByte table x) := by
  unfold patchedByte
  infer_instance

/-- Memory whose bytes are all `0xff` except for the pattern `d0 12 13 00` at
`0xc0000000`, the first address of the range. -/
def startVMem : Mem := fun x =>
  if x = 0xc0000000 then 0xd0
  else if x = 0xc0000001 then 0x12
  else if x = 0xc0000002 then 0x13
  else if x = 0xc0000003 then 0x00
  else 0xff

/-- Memory whose bytes are all `0xff` except for the pattern `d0 12 13 00` at
`0xc1000000`, the end address of the range. -/
def pastEndVMem : Mem := fun x =>
  if x = 0xc1000000 then 0xd0
  else if x = 0xc1000001 then 0x12
  else if x = 0xc1000002 then 0x13
  else if x = 0xc1000003 then 0x00
  else 0xff

/-- A `fileDev` state with every register zero, and an empty log. -/
def fileInit : Hw (Nat → Nat) := { dev := fun _ => 0, log := [] }

/-- The state after `scpll_init(CPU0)` on `fileDev`, started from `fileInit`. -/
def fileCal : Hw (Nat → Nat) :=
  (scpll_init fileDev 10 scplls.CPU0 fileInit).getD fileInit

/-- The register contents of a `fileDev` state. -/
def fileRegs (d : Nat → Nat) (x : Nat) : Nat := d x

/-- Memory whose bytes are all `0xff` except for the pattern `00 71 cf 46` at
`0xc0ffffff`, the last address below the end of the range: its last three
bytes lie at `0xc1000000 .. 0xc1000002`. -/
def straddleMem : Mem := fun x =>
  if x = 0xc0ffffff then 0x00
  else if x = 0xc1000000 then 0x71
  else if x = 0xc1000001 then 0xcf
  else if x = 0xc1000002 then 0x46
  else 0xff

/-- Memory whose bytes are all `0xff` except for `00` at `0xc0ffffff`; it
agrees with `straddleMem` on every byte below `0xc1000000`. -/
def cutMem : Mem := fun x =>
  if x = 0xc0ffffff then 0x00 else 0xff

/-- Memory that is zero except for the three signature fields of a table at
`0xc071b000`, the address `scan` starts from: `acpuclk_khz` of records 0, 1, 2
(at `0xc071b008`, `0xc071b034`, `0xc071b060`) is 192000 (`00 ee 02 00`),
310500 (`e4 bc 04 00`) and 384000 (`00 dc 05 00`). -/
def firstMem : Mem := fun x =>
  if x = 0xc071b009 then 0xee
  else if x = 0xc071b00a then 0x02
  else if x = 0xc071b034 then 0xe4
  else if x = 0xc071b035 then 0xbc
  else if x = 0xc071b036 then 0x04
  else if x = 0xc071b061 then 0xdc
  else if x = 0xc071b062 then 0x05
  else 0

/-! ## cpufreq objects addressed in the scanned memory

`overclock_init` above keeps the cpufreq frequency tables and the policy as
components of the state of their own, which describes the runs in which they
lie outside every byte the driver patches.  In the program they are kernel
data reached through the pointers returned by `cpufreq_frequency_get_table`
and `cpufreq_cpu_get`, and may lie inside the scanned range.
`overclock_init_mem` is the memory effect of the same statements with these
objects addressed in the one memory, so that the table patch, the stores to
the cpufreq objects and the last scan can overwrite one another.  The calls
`printk` and `sysfs_create_file` are taken to leave this memory alone. -/

/-- Two 4-byte words at `a` and `b` do not overlap. -/
def apart (a b : Nat) : Prop := a + 4 ≤ b ∨ b + 4 ≤ a

instance (a b : Nat) : Decidable (apart a b) := by
  unfold apart
  infer_instance

/-- Addresses of the members of the cpufreq objects that `overclock_init`
stores to.  `struct cpufreq_frequency_table` and `struct cpufreq_policy` are
declared in `linux/cpufreq.h`, outside the repository, and the objects belong
to the cpufreq subsystem, so the addresses of the members are parameters:
`ftN_k` is the address of `freq_table_cpuN[k].frequency`, the other four are
the addresses of `policy_cpu0->cpuinfo.min_freq`,
`policy_cpu0->cpuinfo.max_freq`, `policy_cpu0->min` and `policy_cpu0->max`.
Each member is an `unsigned int`, four bytes wide. -/
structure CpufreqAddrs where
  ft0_16 : Nat
  ft1_16 : Nat
  ft0_15 : Nat
  ft1_15 : Nat
  cpuinfo_min_freq : Nat
  cpuinfo_max_freq : Nat
  min : Nat
  max : Nat

/-- The stores to the cpufreq objects (source lines 338-341 and 348-351), in
program order. -/
def cpufreqStores (scpll_l_val : Nat) (A : CpufreqAddrs) (mem : Mem) : Mem :=
  let mem := write32 mem A.ft0_16 (oc_khz scpll_l_val)
  let mem := write32 mem A.ft1_16 (oc_khz scpll_l_val)
  let mem := write32 mem A.ft0_15 1188000
  let mem := write32 mem A.ft1_15 1188000
  let mem := write32 mem A.cpuinfo_min_freq 192000
  let mem := write32 mem A.cpuinfo_max_freq (oc_khz scpll_l_val)
  let mem := write32 mem A.min 384000
  write32 mem A.max 1188000

/-- The memory effect of `overclock_init` (source lines 275-379) with the
cpufreq objects addressed in the same memory: the voltage scan, the table
scan, the guarded table patch, the stores to the cpufreq objects and the
1188 MHz scan, in program order.  The result is the final value of the local
`table` and the final memory. -/
def overclock_init_mem (scpll_l_val vdd_uv : Nat) (A : CpufreqAddrs) (table0 : Nat)
    (mem : Mem) : Nat × Mem :=
  let m := (voltageScan mem).1
  let table := (tableScan m table0).1
  let m := tablePatch scpll_l_val vdd_uv table m
  let m := cpufreqStores scpll_l_val A m
  (table, (freqScan m).1)

/-- The memory on which the last scan of `overclock_init_mem` runs. -/
def memBeforeLastScan (scpll_l_val vdd_uv : Nat) (A : CpufreqAddrs) (table0 : Nat)
    (mem : Mem) : Mem :=
  cpufreqStores scpll_l_val A
    (tablePatch scpll_l_val vdd_uv (tableScan (voltageScan mem).1 table0).1
      (voltageScan mem).1)

/-- The six words compared by the consistency property: slots 16 and 15 of
both cpufreq tables and the `acpuclk_khz` members of records 16 and 17. -/
def comparedWords (A : CpufreqAddrs) (table : Nat) : List Nat :=
  [A.ft0_16, A.ft1_16, A.ft0_15, A.ft1_15,
    fieldAddr table 16 OFF_ACPUCLK_KHZ, fieldAddr table 17 OFF_ACPUCLK_KHZ]

/-- The layout condition of the consistency property: the four slot words
overlap neither of the two `acpuclk_khz` members; a slot 16 overlaps no slot
15; the two slots 16 coincide or do not overlap, and likewise the two slots
15 (the CPUs may share one table); and none of the four stores to the policy
overlaps any of the six compared words. -/
def CpufreqAddrs.clear (A : CpufreqAddrs) (table : Nat) : Prop :=
  (∀ s ∈ [A.ft0_16, A.ft1_16, A.ft0_15, A.ft1_15],
    ∀ w ∈ [fieldAddr table 16 OFF_ACPUCLK_KHZ, fieldAddr table 17 OFF_ACPUCLK_KHZ],
      apart s w) ∧
  (∀ s ∈ [A.ft0_16, A.ft1_16], ∀ t ∈ [A.ft0_15, A.ft1_15], apart s t) ∧
  (A.ft0_16 = A.ft1_16 ∨ apart A.ft0_16 A.ft1_16) ∧
  (A.ft0_15 = A.ft1_15 ∨ apart A.ft0_15 A.ft1_15) ∧
  (∀ p ∈ [A.cpuinfo_min_freq, A.cpuinfo_max_freq, A.min, A.max],
    ∀ w ∈ comparedWords A table, apart p w)

instance (A : CpufreqAddrs) (table : Nat) : Decidable (A.clear table) := by
  unfold CpufreqAddrs.clear
  infer_instance

/-- Concrete addresses inside the scanned range: 8-byte table slots with the
frequency in the second word, the table of CPU 0 at `0xc0720000` and that of
CPU 1 at `0xc0720100`, and a policy at `0xc0730000`. -/
def simAddrs : CpufreqAddrs :=
  { ft0_16 := 0xc0720084
    ft1_16 := 0xc0720184
    ft0_15 := 0xc072007c
    ft1_15 := 0xc072017c
    cpuinfo_min_freq := 0xc0730014
    cpuinfo_max_freq := 0xc0730010
    min := 0xc0730020
    max := 0xc0730024 }

/-- The memory `tableMem` with the pattern `00 71 cf 46` of `hex_1188mhz`
added at `0xc0000020`. -/
def pairMem : Mem := write32 tableMem 0xc0000020 1188000000

/-- The addresses `simAddrs` with slot 16 of the cpufreq table of CPU 0 moved
to `0xc0000020`, below the table in the range of the byte scans. -/
def lowAddrs : CpufreqAddrs := { simAddrs with ft0_16 := 0xc0000020 }

/-! ## Arithmetic of the overclocked frequency -/

theorem oc_khz_eq_mod (l : Nat) : oc_khz l = l * 54000 % 2 ^ 32 := by
  unfold oc_khz
  omega

theorem oc_khz_no_wrap (l : Nat) (h : l ≤ 79536) : oc_khz l = l * 54000 := by
  rw [oc_khz_eq_mod]
  omega

/-! ## Loads and stores -/

theorem read32_lt (mem : Mem) (a : Nat) : read32 mem a < 2 ^ 32 := by
  unfold read32
  have h0 := (mem a).isLt
  have h1 := (mem (a + 1)).isLt
  have h2 := (mem (a + 2)).isLt
  have h3 := (mem (a + 3)).isLt
  omega

theorem read32_write32_same (mem : Mem) (a v : Nat) :
    read32 (write32 mem a v) a = v % 2 ^ 32 := by
  simp [read32, write32, Fin.ofNat]
  omega

theorem read32_write32_disjoint (mem : Mem) (a b v : Nat)
    (h : a + 4 ≤ b ∨ b + 4 ≤ a) : read32 (write32 mem a v) b = read32 mem b := by
  have e0 : write32 mem a v b = mem b := by
    simp only [write32]
    rw [if_neg (by omega), if_neg (by omega), if_neg (by omega), if_neg (by omega)]
  have e1 : write32 mem a v (b + 1) = mem (b + 1) := by
    simp only [write32]
    rw [if_neg (by omega), if_neg (by omega), if_neg (by omega), if_neg (by omega)]
  have e2 : write32 mem a v (b + 2) = mem (b + 2) := by
    simp only [write32]
    rw [if_neg (by omega), if_neg (by omega), if_neg (by omega), if_neg (by omega)]
  have e3 : write32 mem a v (b + 3) = mem (b + 3) := by
    simp only [write32]
    rw [if_neg (by omega), if_neg (by omega), if_neg (by omega), if_neg (by omega)]
  simp only [read32, e0, e1, e2, e3]

theorem write32_write32_same (mem : Mem) (a v w : Nat) :
    write32 (write32 mem a v) a w = write32 mem a w := by
  funext x
  simp only [write32]
  split_ifs <;> rfl

theorem write32_comm (mem : Mem) (a b v w : Nat) (h : a + 4 ≤ b ∨ b + 4 ≤ a) :
    write32 (write32 mem a v) b w = write32 (write32 mem b w) a v := by
  funext x
  simp only [write32]
  split_ifs <;> first | rfl | omega

/-! ## The table patch -/

theorem tablePatch_of_guard (l v table : Nat) (mem : Mem)
    (h : acpuclk_khz mem table 17 = 1188000) :
    tablePatch l v table mem = patchStores l v table mem := by
  simp [tablePatch, patchStores, h]

theorem tablePatch_of_not_guard (l v table : Nat) (mem : Mem)
    (h : acpuclk_khz mem table 17 ≠ 1188000) :
    tablePatch l v table mem = mem := by
  simp [tablePatch, h]

theorem patchStores_khz17 (l v table : Nat) (mem : Mem) :
    acpuclk_khz (patchStores l v table mem) table 17 = oc_khz l := by
  unfold acpuclk_khz patchStores
  rw [read32_write32_disjoint _ _ _ _ (by simp [fieldAddr, SIZEOF_ACPU_SPEED, OFF_ACPUCLK_KHZ, OFF_L_VAL, OFF_VDD_SC]),
    read32_write32_disjoint _ _ _ _ (by simp [fieldAddr, SIZEOF_ACPU_SPEED, OFF_ACPUCLK_KHZ, OFF_L_VAL, OFF_VDD_SC]),
    read32_write32_disjoint _ _ _ _ (by simp [fieldAddr, SIZEOF_ACPU_SPEED, OFF_ACPUCLK_KHZ, OFF_L_VAL, OFF_VDD_SC]),
    read32_write32_disjoint _ _ _ _ (by simp [fieldAddr, SIZEOF_ACPU_SPEED, OFF_ACPUCLK_KHZ, OFF_L_VAL, OFF_VDD_SC]),
    read32_write32_disjoint _ _ _ _ (by simp [fieldAddr, SIZEOF_ACPU_SPEED, OFF_ACPUCLK_KHZ, OFF_L_VAL, OFF_VDD_SC]),
    read32_write32_same]
  rw [oc_khz_eq_mod]
  omega

theorem patchStores_l_val17 (l v table : Nat) (mem : Mem) :
    l_val (patchStores l v table mem) table 17 = l % 2 ^ 32 := by
  unfold l_val patchStores
  rw [read32_write32_disjoint _ _ _ _ (by simp [fieldAddr, SIZEOF_ACPU_SPEED, OFF_ACPUCLK_KHZ, OFF_L_VAL, OFF_VDD_SC]),
    read32_write32_disjoint _ _ _ _ (by simp [fieldAddr, SIZEOF_ACPU_SPEED, OFF_ACPUCLK_KHZ, OFF_L_VAL, OFF_VDD_SC]),
    read32_write32_disjoint _ _ _ _ (by simp [fieldAddr, SIZEOF_ACPU_SPEED, OFF_ACPUCLK_KHZ, OFF_L_VAL, OFF_VDD_SC]),
    read32_write32_disjoint _ _ _ _ (by simp [fieldAddr, SIZEOF_ACPU_SPEED, OFF_ACPUCLK_KHZ, OFF_L_VAL, OFF_VDD_SC]),
    read32_write32_same]

theorem patchStores_vdd_sc17 (l v table : Nat) (mem : Mem) :
    vdd_sc (patchStores l v table mem) table 17 = v % 2 ^ 32 := by
  unfold vdd_sc patchStores
  rw [read32_write32_disjoint _ _ _ _ (by simp [fieldAddr, SIZEOF_ACPU_SPEED, OFF_ACPUCLK_KHZ, OFF_L_VAL, OFF_VDD_SC]),
    read32_write32_disjoint _ _ _ _ (by simp [fieldAddr, SIZEOF_ACPU_SPEED, OFF_ACPUCLK_KHZ, OFF_L_VAL, OFF_VDD_SC]),
    read32_write32_disjoint _ _ _ _ (by simp [fieldAddr, SIZEOF_ACPU_SPEED, OFF_ACPUCLK_KHZ, OFF_L_VAL, OFF_VDD_SC]),
    read32_write32_same]

theorem patchStores_khz16 (l v table : Nat) (mem : Mem) :
    acpuclk_khz (patchStores l v table mem) table 16 = 1188000 := by
  unfold acpuclk_khz patchStores
  rw [read32_write32_disjoint _ _ _ _ (by simp [fieldAddr, SIZEOF_ACPU_SPEED, OFF_ACPUCLK_KHZ, OFF_L_VAL, OFF_VDD_SC]),
    read32_write32_disjoint _ _ _ _ (by simp [fieldAddr, SIZEOF_ACPU_SPEED, OFF_ACPUCLK_KHZ, OFF_L_VAL, OFF_VDD_SC]),
    read32_write32_same]
  norm_num

theorem patchStores_l_val16 (l v table : Nat) (mem : Mem) :
    l_val (patchStores l v table mem) table 16 = 0x16 := by
  unfold l_val patchStores
  rw [read32_write32_disjoint _ _ _ _ (by simp [fieldAddr, SIZEOF_ACPU_SPEED, OFF_ACPUCLK_KHZ, OFF_L_VAL, OFF_VDD_SC]),
    read32_write32_same]
  norm_num

theorem patchStores_vdd_sc16 (l v table : Nat) (mem : Mem) :
    vdd_sc (patchStores l v table mem) table 16 = 1187500 := by
  unfold vdd_sc patchStores
  rw [read32_write32_same]
  norm_num


theorem Overwrite.comp {f g : Mem → Mem} (hf : Overwrite f) (hg : Overwrite g) :
    Overwrite (fun m => g (f m)) := by
  obtain ⟨Sf, cf, hf⟩ := hf
  obtain ⟨Sg, cg, hg⟩ := hg
  refine ⟨fun x => Sg x || Sf x, fun x => if Sg x then cg x else cf x, ?_⟩
  intro m x
  show g (f m) x = _
  rw [hg (f m) x, hf m x]
  cases hSg : Sg x <;> cases hSf : Sf x <;> simp [hSg, hSf]

theorem Overwrite.idem {f : Mem → Mem} (hf : Overwrite f) (m : Mem) : f (f m) = f m := by
  obtain ⟨S, c, hf⟩ := hf
  funext x
  rw [hf (f m) x, hf m x]
  cases hS : S x <;> simp [hS]

theorem overwrite_write32 (a v : Nat) : Overwrite (fun m => write32 m a v) := by
  refine ⟨fun x => decide (a ≤ x ∧ x < a + 4), fun x =>
    if x = a then Fin.ofNat v
    else if x = a + 1 then Fin.ofNat (v / 256)
    else if x = a + 2 then Fin.ofNat (v / 65536)
    else Fin.ofNat (v / 16777216), ?_⟩
  intro m x
  simp only [write32]
  by_cases h0 : x = a
  · simp [h0]
  by_cases h1 : x = a + 1
  · simp [h1]
  by_cases h2 : x = a + 2
  · simp [h2]
  by_cases h3 : x = a + 3
  · simp [h3]
  · have hn : ¬ (a ≤ x ∧ x < a + 4) := by omega
    simp [h0, h1, h2, h3, hn]

theorem overwrite_patchStores (l v table : Nat) : Overwrite (patchStores l v table) := by
  unfold patchStores
  exact Overwrite.comp (Overwrite.comp (Overwrite.comp (Overwrite.comp (Overwrite.comp
    (overwrite_write32 _ _) (overwrite_write32 _ _)) (overwrite_write32 _ _))
    (overwrite_write32 _ _)) (overwrite_write32 _ _)) (overwrite_write32 _ _)

theorem patchStores_idem (l v table : Nat) (mem : Mem) :
    patchStores l v table (patchStores l v table mem) = patchStores l v table mem :=
  Overwrite.idem (overwrite_patchStores l v table) mem

theorem tablePatch_idem (l v table : Nat) (mem : Mem) :
    tablePatch l v table (tablePatch l v table mem) = tablePatch l v table mem := by
  by_cases h : acpuclk_khz mem table 17 = 1188000
  · rw [tablePatch_of_guard l v table mem h]
    by_cases h2 : acpuclk_khz (patchStores l v table mem) table 17 = 1188000
    · rw [tablePatch_of_guard _ _ _ _ h2, patchStores_idem]
    · rw [tablePatch_of_not_guard _ _ _ _ h2]
  · rw [tablePatch_of_not_guard l v table mem h, tablePatch_of_not_guard l v table mem h]

/-! ## The acceptance test -/

theorem accepts_iff (pat : Nat → Byte) (mem : Mem) (s : Nat) :
    accepts pat mem s = true ↔ headAt pat mem s := by
  unfold accepts headAt
  by_cases h0 : mem s = pat 0
  · by_cases h1 : mem (s + 1) = pat 1
    · by_cases h2 : mem (s + 2) = pat 2
      · by_cases h3 : mem (s + 3) = pat 3 <;> simp [cmpLoop, h0, h1, h2, h3]
      · simp [cmpLoop, h0, h1, h2]
    · simp [cmpLoop, h0, h1]
  · simp [h0]

theorem accepts_eq_false_iff (pat : Nat → Byte) (mem : Mem) (s : Nat) :
    accepts pat mem s = false ↔ ¬ headAt pat mem s := by
  rw [← accepts_iff]
  simp

theorem occursAt.headAt {pat : Nat → Byte} {mem : Mem} {a : Nat}
    (h : occursAt pat mem a) : headAt pat mem a :=
  ⟨h.1, h.2.1, h.2.2.1⟩

/-! ## The 1188 MHz scan -/

theorem freqScanLoop_found (mem : Mem) (a : Nat) (hacc : accepts hex_1188mhz mem a = true)
    (hend : a ≤ SCAN_END) :
    ∀ (fuel scan : Nat), scan < a → a ≤ scan + fuel →
      (∀ b, scan < b → b < a → accepts hex_1188mhz mem b = false) →
      freqScanLoop fuel scan mem
        = (memcpy4 mem a hex_hugemhz, [Event.printk (Msg.epicPwn a)]) := by
  intro fuel
  induction fuel with
  | zero => intro scan h1 h2; omega
  | succ n ih =>
    intro scan h1 h2 hno
    have hlt : scan < SCAN_END := by omega
    by_cases hs : scan + 1 = a
    · simp [freqScanLoop, hlt, hs, hacc]
    · have hrej : accepts hex_1188mhz mem (scan + 1) = false := hno _ (by omega) (by omega)
      simp only [freqScanLoop, hlt, if_true, hrej]
      exact ih (scan + 1) (by omega) (by omega) (fun b hb1 hb2 => hno b (by omega) hb2)

theorem freqScanLoop_none (mem : Mem) :
    ∀ (fuel scan : Nat),
      (∀ b, scan < b → b ≤ SCAN_END → accepts hex_1188mhz mem b = false) →
      freqScanLoop fuel scan mem = (mem, []) := by
  intro fuel
  induction fuel with
  | zero => intro scan _; rfl
  | succ n ih =>
    intro scan hno
    by_cases hlt : scan < SCAN_END
    · have hrej : accepts hex_1188mhz mem (scan + 1) = false := hno _ (by omega) (by omega)
      simp only [freqScanLoop, hlt, if_true, hrej]
      exact ih (scan + 1) (fun b hb1 hb2 => hno b (by omega) hb2)
    · simp [freqScanLoop, hlt]

/-! ## The voltage scan -/

theorem memcpy4_far (mem : Mem) (dst : Nat) (src : Nat → Byte) (x : Nat)
    (h : x < dst ∨ dst + 4 ≤ x) : memcpy4 mem dst src x = mem x := by
  simp only [memcpy4]
  rw [if_neg (by omega), if_neg (by omega), if_neg (by omega), if_neg (by omega)]

theorem memcpy4_at (mem : Mem) (dst : Nat) (src : Nat → Byte) (i : Nat) (h : i < 4) :
    memcpy4 mem dst src (dst + i) = src i := by
  have hi : i = 0 ∨ i = 1 ∨ i = 2 ∨ i = 3 := by omega
  rcases hi with rfl | rfl | rfl | rfl <;> simp [memcpy4]

theorem voltageScanLoop_none (mem : Mem) :
    ∀ (fuel scan : Nat),
      (∀ b, scan < b → b ≤ SCAN_END → accepts hex_1250mv mem b = false) →
      voltageScanLoop fuel scan mem = (mem, []) := by
  intro fuel
  induction fuel with
  | zero => intro scan _; rfl
  | succ n ih =>
    intro scan hno
    by_cases hlt : scan < SCAN_END
    · have hrej : accepts hex_1250mv mem (scan + 1) = false := hno _ (by omega) (by omega)
      simp only [voltageScanLoop, hlt, if_true, hrej]
      exact ih (scan + 1) (fun b hb1 hb2 => hno b (by omega) hb2)
    · simp [voltageScanLoop, hlt]

/-- Two occurrences of `hex_1250mv` cannot overlap: its first byte occurs
nowhere else in it. -/
theorem occursAt_1250_apart (mem : Mem) (a b : Nat) (ha : occursAt hex_1250mv mem a)
    (hb : headAt hex_1250mv mem b) (hab : a < b) : a + 4 ≤ b := by
  by_contra hlt
  have hc : b = a + 1 ∨ b = a + 2 ∨ b = a + 3 := by omega
  obtain ⟨_, h1, h2, h3⟩ := ha
  have hb0 := hb.1
  rcases hc with rfl | rfl | rfl
  · rw [h1] at hb0; revert hb0; decide
  · rw [h2] at hb0; revert hb0; decide
  · rw [h3] at hb0; revert hb0; decide

/-- After `hex_1450mv` is copied to `a`, no match of the first pattern byte
starts inside the copied bytes. -/
theorem headAt_after_copy (mem : Mem) (a b : Nat)
    (hb : headAt hex_1250mv (memcpy4 mem a hex_1450mv) b) (hab : a < b) : a + 4 ≤ b := by
  by_contra hlt
  have hc : b = a + 1 ∨ b = a + 2 ∨ b = a + 3 := by omega
  have hb0 := hb.1
  rcases hc with rfl | rfl | rfl
  · rw [memcpy4_at _ _ _ 1 (by omega)] at hb0; revert hb0; decide
  · rw [memcpy4_at _ _ _ 2 (by omega)] at hb0; revert hb0; decide
  · rw [memcpy4_at _ _ _ 3 (by omega)] at hb0; revert hb0; decide

theorem occursAt_copy_far (mem : Mem) (a b : Nat) (src : Nat → Byte) (pat : Nat → Byte)
    (h : a + 4 ≤ b) : occursAt pat (memcpy4 mem a src) b ↔ occursAt pat mem b := by
  unfold occursAt
  rw [memcpy4_far _ _ _ b (by omega), memcpy4_far _ _ _ (b + 1) (by omega),
    memcpy4_far _ _ _ (b + 2) (by omega), memcpy4_far _ _ _ (b + 3) (by omega)]

theorem headAt_copy_far (mem : Mem) (a b : Nat) (src : Nat → Byte) (pat : Nat → Byte)
    (h : a + 4 ≤ b) : headAt pat (memcpy4 mem a src) b ↔ headAt pat mem b := by
  unfold headAt
  rw [memcpy4_far _ _ _ b (by omega), memcpy4_far _ _ _ (b + 1) (by omega),
    memcpy4_far _ _ _ (b + 2) (by omega)]

/-- What the voltage scan loop computes when no address matches only the first
three pattern bytes: every occurrence of `hex_1250mv` at an address the loop
still visits is replaced by `hex_1450mv`, and no other byte changes. -/
theorem voltageScanLoop_spec :
    ∀ (fuel scan : Nat) (mem : Mem), SCAN_END ≤ scan + fuel → NoShortMatch mem scan →
      (∀ a, scan < a → a ≤ SCAN_END → occursAt hex_1250mv mem a →
        ∀ i, i < 4 → (voltageScanLoop fuel scan mem).1 (a + i) = hex_1450mv i) ∧
      (∀ x, (∀ a, scan < a → a ≤ SCAN_END → occursAt hex_1250mv mem a → x < a ∨ a + 4 ≤ x) →
        (voltageScanLoop fuel scan mem).1 x = mem x) := by
  intro fuel
  induction fuel with
  | zero =>
    intro scan mem hfuel _
    exact ⟨fun a h1 h2 => by omega, fun x _ => rfl⟩
  | succ n ih =>
    intro scan mem hfuel hnp
    by_cases hlt : scan < SCAN_END
    · by_cases hacc : accepts hex_1250mv mem (scan + 1) = true
      · have hocc : occursAt hex_1250mv mem (scan + 1) :=
          hnp _ (by omega) (by omega) ((accepts_iff _ _ _).1 hacc)
        have hres : (voltageScanLoop (n + 1) scan mem).1
            = (voltageScanLoop n (scan + 1) (memcpy4 mem (scan + 1) hex_1450mv)).1 := by
          simp [voltageScanLoop, hlt, hacc]
        have hnp2 : NoShortMatch (memcpy4 mem (scan + 1) hex_1450mv) (scan + 1) := by
          intro s hs1 hs2 hpre
          have hfar := headAt_after_copy mem (scan + 1) s hpre hs1
          rw [headAt_copy_far _ _ _ _ _ hfar] at hpre
          rw [occursAt_copy_far _ _ _ _ _ hfar]
          exact hnp s (by omega) hs2 hpre
        obtain ⟨ih1, ih2⟩ := ih (scan + 1) (memcpy4 mem (scan + 1) hex_1450mv) (by omega) hnp2
        have hlater : ∀ a, scan + 1 < a → a ≤ SCAN_END →
            occursAt hex_1250mv (memcpy4 mem (scan + 1) hex_1450mv) a →
            scan + 5 ≤ a ∧ occursAt hex_1250mv mem a := by
          intro a ha1 _ hoc
          have hfar := headAt_after_copy mem (scan + 1) a hoc.headAt ha1
          exact ⟨by omega, (occursAt_copy_far _ _ _ _ _ hfar).1 hoc⟩
        refine ⟨?_, ?_⟩
        · intro a ha1 ha2 hoc i hi
          rw [hres]
          by_cases hfirst : a = scan + 1
          · subst hfirst
            rw [ih2 (scan + 1 + i) (fun a2 h1 h2 h3 => by
              have := (hlater a2 h1 h2 h3).1
              omega)]
            exact memcpy4_at _ _ _ i hi
          · have hfar := occursAt_1250_apart mem (scan + 1) a hocc hoc.headAt (by omega)
            exact ih1 a (by omega) ha2 ((occursAt_copy_far _ _ _ _ _ hfar).2 hoc) i hi
        · intro x hx
          rw [hres, ih2 x (fun a2 h1 h2 h3 =>
            hx a2 (by omega) h2 (hlater a2 h1 h2 h3).2)]
          exact memcpy4_far _ _ _ _ (hx (scan + 1) (by omega) (by omega) hocc)
      · have hrej : accepts hex_1250mv mem (scan + 1) = false := by
          simpa using hacc
        have hres : voltageScanLoop (n + 1) scan mem = voltageScanLoop n (scan + 1) mem := by
          simp [voltageScanLoop, hlt, hrej]
        have hnp2 : NoShortMatch mem (scan + 1) := fun s hs1 hs2 => hnp s (by omega) hs2
        obtain ⟨ih1, ih2⟩ := ih (scan + 1) mem (by omega) hnp2
        have hnot : ¬ occursAt hex_1250mv mem (scan + 1) := fun hoc =>
          (accepts_eq_false_iff _ _ _).1 hrej hoc.headAt
        refine ⟨?_, ?_⟩
        · intro a ha1 ha2 hoc i hi
          rw [hres]
          have hne : a ≠ scan + 1 := fun h => hnot (h ▸ hoc)
          exact ih1 a (by omega) ha2 hoc i hi
        · intro x hx
          rw [hres]
          exact ih2 x (fun a2 h1 h2 h3 => hx a2 (by omega) h2 h3)
    · have hres : voltageScanLoop (n + 1) scan mem = (mem, []) := by
        simp [voltageScanLoop, hlt]
      exact ⟨fun a h1 h2 => by omega, fun x _ => by rw [hres]⟩

/-! ## The table scan -/

theorem tableScanLoop_found (mem : Mem) (a : Nat) (hsig : signature mem a = true)
    (hend : a ≤ SCAN_END) :
    ∀ (fuel scan table0 : Nat), scan < a → a ≤ scan + fuel →
      (∀ b, scan < b → b < a → signature mem b = false) →
      tableScanLoop mem fuel scan table0 = (a, [Event.printk (Msg.epicPwn a)]) := by
  intro fuel
  induction fuel with
  | zero => intro scan _ h1 h2; omega
  | succ n ih =>
    intro scan table0 h1 h2 hno
    have hlt : scan < SCAN_END := by omega
    by_cases hs : scan + 1 = a
    · simp [tableScanLoop, hlt, hs, hsig]
    · have hrej : signature mem (scan + 1) = false := hno _ (by omega) (by omega)
      simp only [tableScanLoop, hlt, if_true, hrej]
      exact ih (scan + 1) (scan + 1) (by omega) (by omega)
        (fun b hb1 hb2 => hno b (by omega) hb2)

theorem tableScanLoop_none (mem : Mem) :
    ∀ (fuel scan table0 : Nat), scan < SCAN_END → SCAN_END ≤ scan + fuel →
      (∀ b, scan < b → b ≤ SCAN_END → signature mem b = false) →
      tableScanLoop mem fuel scan table0 = (SCAN_END, []) := by
  intro fuel
  induction fuel with
  | zero => intro scan _ h1 h2; omega
  | succ n ih =>
    intro scan table0 hlt hfuel hno
    have hrej : signature mem (scan + 1) = false := hno _ (by omega) (by omega)
    simp only [tableScanLoop, hlt, if_true, hrej]
    by_cases hlast : scan + 1 = SCAN_END
    · cases n with
      | zero => simp [tableScanLoop, hlast]
      | succ k => simp [tableScanLoop, hlast]
    · exact ih (scan + 1) (scan + 1) (by omega) (by omega)
        (fun b hb1 hb2 => hno b (by omega) hb2)

/-! ## The calibration sequence -/

theorem waitCalStart_log {σ : Type} (io : RegBackend σ) (addr : Nat) :
    ∀ (fuel : Nat) (h h' : Hw σ), waitCalStart io addr fuel h = some h' →
      ∃ rs, h'.log = h.log ++ rs ∧ ∀ e ∈ rs, ∃ v, e = Event.readl addr v := by
  intro fuel
  induction fuel with
  | zero => intro h h' hrun; simp [waitCalStart] at hrun
  | succ n ih =>
    intro h h' hrun
    simp only [waitCalStart] at hrun
    split at hrun
    · obtain ⟨rs, hlog, hrs⟩ := ih _ _ hrun
      refine ⟨Event.readl addr (io.readl h.dev addr).1 :: rs, ?_, ?_⟩
      · simpa using hlog
      · intro e he
        rcases List.mem_cons.1 he with rfl | he
        · exact ⟨_, rfl⟩
        · exact hrs e he
    · cases hrun
      exact ⟨[Event.readl addr (io.readl h.dev addr).1], rfl, by simp⟩

theorem waitCalDone_log {σ : Type} (io : RegBackend σ) (addr : Nat) :
    ∀ (fuel : Nat) (h h' : Hw σ), waitCalDone io addr fuel h = some h' →
      ∃ rs, h'.log = h.log ++ rs ∧ ∀ e ∈ rs, ∃ v, e = Event.readl addr v := by
  intro fuel
  induction fuel with
  | zero => intro h h' hrun; simp [waitCalDone] at hrun
  | succ n ih =>
    intro h h' hrun
    simp only [waitCalDone] at hrun
    split at hrun
    · obtain ⟨rs, hlog, hrs⟩ := ih _ _ hrun
      refine ⟨Event.readl addr (io.readl h.dev addr).1 :: rs, ?_, ?_⟩
      · simpa using hlog
      · intro e he
        rcases List.mem_cons.1 he with rfl | he
        · exact ⟨_, rfl⟩
        · exact hrs e he
    · cases hrun
      exact ⟨[Event.readl addr (io.readl h.dev addr).1], rfl, by simp⟩

/-- The whole log of one completed `scpll_init` call. -/
theorem scpll_init_log {σ : Type} (io : RegBackend σ) (fuel : Nat) (p : scplls)
    (h h' : Hw σ) (hrun : scpll_init io fuel p h = some h') :
    ∃ rs1 rs2,
      (∀ e ∈ rs1, ∃ v, e = Event.readl (sc_pll_base p + SCPLL_LUT_A_HW_MAX) v) ∧
      (∀ e ∈ rs2, ∃ v, e = Event.readl (sc_pll_base p + SCPLL_STATUS_OFFSET) v) ∧
      h'.log = h.log ++ calibrationHead p ++ rs1 ++ [Event.printk (Msg.waitComplete p)]
        ++ rs2 ++ [Event.printk (Msg.disable p),
          Event.writel SCPLL_POWER_DOWN (sc_pll_base p + SCPLL_CTL_OFFSET)] := by
  simp only [scpll_init] at hrun
  split at hrun
  · cases hrun
  · rename_i h1 hw1
    split at hrun
    · cases hrun
    · rename_i h2 hw2
      cases hrun
      obtain ⟨rs1, hlog1, hrs1⟩ := waitCalStart_log io _ fuel _ _ hw1
      obtain ⟨rs2, hlog2, hrs2⟩ := waitCalDone_log io _ fuel _ _ hw2
      refine ⟨rs1, rs2, hrs1, hrs2, ?_⟩
      simp only [scpll_disable, Hw.writel, Hw.printk] at hlog1 hlog2 ⊢
      rw [hlog2, hlog1]
      simp [calibrationHead]

theorem writes_reads (rs : List Event) (addr : Nat)
    (h : ∀ e ∈ rs, ∃ v, e = Event.readl addr v) : writes rs = [] := by
  unfold writes
  rw [List.filter_eq_nil_iff]
  intro e he
  obtain ⟨v, rfl⟩ := h e he
  simp [Event.isWritel]

theorem scpllInitCalls_reads (rs : List Event) (addr : Nat)
    (h : ∀ e ∈ rs, ∃ v, e = Event.readl addr v) : scpllInitCalls rs = [] := by
  unfold scpllInitCalls
  rw [List.filterMap_eq_nil_iff]
  intro e he
  obtain ⟨v, rfl⟩ := h e he
  rfl

theorem scpll_init_writes_eq {σ : Type} (io : RegBackend σ) (fuel : Nat) (p : scplls)
    (h h' : Hw σ) (hrun : scpll_init io fuel p h = some h') :
    writes h'.log = writes h.log ++ calibrationWrites p := by
  obtain ⟨rs1, rs2, h1, h2, hlog⟩ := scpll_init_log io fuel p h h' hrun
  have e1 := writes_reads rs1 _ h1
  have e2 := writes_reads rs2 _ h2
  unfold writes at e1 e2 ⊢
  rw [hlog]
  simp only [List.filter_append, e1, e2, List.append_nil, List.append_assoc]
  congr 1

theorem scpll_init_calls_eq {σ : Type} (io : RegBackend σ) (fuel : Nat) (p : scplls)
    (h h' : Hw σ) (hrun : scpll_init io fuel p h = some h') :
    scpllInitCalls h'.log = scpllInitCalls h.log ++ [p] := by
  obtain ⟨rs1, rs2, h1, h2, hlog⟩ := scpll_init_log io fuel p h h' hrun
  have e1 := scpllInitCalls_reads rs1 _ h1
  have e2 := scpllInitCalls_reads rs2 _ h2
  unfold scpllInitCalls at e1 e2 ⊢
  rw [hlog]
  simp only [List.filterMap_append, e1, e2, List.append_nil, List.append_assoc]
  congr 1

/-! ## The iteration bounds are not reached

Each scan is given `SCAN_END - scan` iterations, which is the number of times
its loop condition can hold; a larger bound gives the same result.  A polling
loop that ends within some bound gives the same result with any larger one. -/

theorem voltageScanLoop_fuel :
    ∀ (fuel scan : Nat) (mem : Mem) (k : Nat), SCAN_END ≤ scan + fuel →
      voltageScanLoop (fuel + k) scan mem = voltageScanLoop fuel scan mem := by
  intro fuel
  induction fuel with
  | zero =>
    intro scan mem k h
    have hlt : ¬ scan < SCAN_END := by omega
    cases k with
    | zero => rfl
    | succ k => simp [voltageScanLoop, hlt]
  | succ n ih =>
    intro scan mem k h
    rw [show n + 1 + k = (n + k) + 1 by omega]
    simp only [voltageScanLoop]
    rw [ih (scan + 1) _ k (by omega), ih (scan + 1) _ k (by omega)]

theorem freqScanLoop_fuel :
    ∀ (fuel scan : Nat) (mem : Mem) (k : Nat), SCAN_END ≤ scan + fuel →
      freqScanLoop (fuel + k) scan mem = freqScanLoop fuel scan mem := by
  intro fuel
  induction fuel with
  | zero =>
    intro scan mem k h
    have hlt : ¬ scan < SCAN_END := by omega
    cases k with
    | zero => rfl
    | succ k => simp [freqScanLoop, hlt]
  | succ n ih =>
    intro scan mem k h
    rw [show n + 1 + k = (n + k) + 1 by omega]
    simp only [freqScanLoop]
    rw [ih (scan + 1) _ k (by omega)]

theorem tableScanLoop_fuel (mem : Mem) :
    ∀ (fuel scan table0 : Nat) (k : Nat), SCAN_END ≤ scan + fuel →
      tableScanLoop mem (fuel + k) scan table0 = tableScanLoop mem fuel scan table0 := by
  intro fuel
  induction fuel with
  | zero =>
    intro scan table0 k h
    have hlt : ¬ scan < SCAN_END := by omega
    cases k with
    | zero => rfl
    | succ k => simp [tableScanLoop, hlt]
  | succ n ih =>
    intro scan table0 k h
    rw [show n + 1 + k = (n + k) + 1 by omega]
    simp only [tableScanLoop]
    rw [ih (scan + 1) _ k (by omega)]

theorem waitCalStart_mono {σ : Type} (io : RegBackend σ) (addr : Nat) :
    ∀ (fuel : Nat) (h h' : Hw σ) (k : Nat), waitCalStart io addr fuel h = some h' →
      waitCalStart io addr (fuel + k) h = some h' := by
  intro fuel
  induction fuel with
  | zero => intro h h' k hrun; simp [waitCalStart] at hrun
  | succ n ih =>
    intro h h' k hrun
    rw [show n + 1 + k = (n + k) + 1 by omega]
    simp only [waitCalStart] at hrun ⊢
    split
    · rename_i hz
      rw [if_pos hz] at hrun
      exact ih _ _ k hrun
    · rename_i hz
      rw [if_neg hz] at hrun
      exact hrun

theorem waitCalDone_mono {σ : Type} (io : RegBackend σ) (addr : Nat) :
    ∀ (fuel : Nat) (h h' : Hw σ) (k : Nat), waitCalDone io addr fuel h = some h' →
      waitCalDone io addr (fuel + k) h = some h' := by
  intro fuel
  induction fuel with
  | zero => intro h h' k hrun; simp [waitCalDone] at hrun
  | succ n ih =>
    intro h h' k hrun
    rw [show n + 1 + k = (n + k) + 1 by omega]
    simp only [waitCalDone] at hrun ⊢
    split
    · rename_i hz
      rw [if_pos hz] at hrun
      exact ih _ _ k hrun
    · rename_i hz
      rw [if_neg hz] at hrun
      exact hrun

theorem scpll_init_mono {σ : Type} (io : RegBackend σ) (fuel k : Nat) (p : scplls)
    (h h' : Hw σ) (hrun : scpll_init io fuel p h = some h') :
    scpll_init io (fuel + k) p h = some h' := by
  simp only [scpll_init] at hrun ⊢
  split at hrun
  · cases hrun
  · rename_i h1 hw1
    rw [waitCalStart_mono io _ fuel _ _ k hw1]
    split at hrun
    · cases hrun
    · rename_i h2 hw2
      simp only [waitCalDone_mono io _ fuel _ _ k hw2]
      exact hrun

/-! ## Events of the scans -/

theorem quiet_lists (l : List Event) (h : ∀ e ∈ l, e.quiet = true) :
    regEvents l = [] ∧ writes l = [] ∧ scpllInitCalls l = [] := by
  refine ⟨?_, ?_, ?_⟩
  · unfold regEvents
    rw [List.filter_eq_nil_iff]
    intro e he
    have := h e he
    cases e with
    | writel _ _ => simp [Event.quiet] at this
    | readl _ _ => simp [Event.quiet] at this
    | printk m => simp [Event.isReg]
  · unfold writes
    rw [List.filter_eq_nil_iff]
    intro e he
    have := h e he
    cases e with
    | writel _ _ => simp [Event.quiet] at this
    | readl _ _ => simp [Event.isWritel]
    | printk m => simp [Event.isWritel]
  · unfold scpllInitCalls
    rw [List.filterMap_eq_nil_iff]
    intro e he
    have := h e he
    cases e with
    | writel _ _ => rfl
    | readl _ _ => rfl
    | printk m => cases m <;> first | rfl | simp [Event.quiet] at this

theorem voltageScanLoop_quiet :
    ∀ (fuel scan : Nat) (mem : Mem), ∀ e ∈ (voltageScanLoop fuel scan mem).2, e.quiet = true := by
  intro fuel
  induction fuel with
  | zero => intro scan mem e he; simp [voltageScanLoop] at he
  | succ n ih =>
    intro scan mem e he
    simp only [voltageScanLoop] at he
    split at he
    · split at he
      · rcases List.mem_cons.1 he with rfl | he
        · rfl
        · exact ih _ _ e he
      · exact ih _ _ e he
    · simp at he

theorem freqScanLoop_quiet :
    ∀ (fuel scan : Nat) (mem : Mem), ∀ e ∈ (freqScanLoop fuel scan mem).2, e.quiet = true := by
  intro fuel
  induction fuel with
  | zero => intro scan mem e he; simp [freqScanLoop] at he
  | succ n ih =>
    intro scan mem e he
    simp only [freqScanLoop] at he
    split at he
    · split at he
      · rcases List.mem_cons.1 he with rfl | he
        · rfl
        · simp at he
      · exact ih _ _ e he
    · simp at he

theorem tableScanLoop_quiet (mem : Mem) :
    ∀ (fuel scan table0 : Nat), ∀ e ∈ (tableScanLoop mem fuel scan table0).2,
      e.quiet = true := by
  intro fuel
  induction fuel with
  | zero => intro scan table0 e he; simp [tableScanLoop] at he
  | succ n ih =>
    intro scan table0 e he
    simp only [tableScanLoop] at he
    split at he
    · split at he
      · rcases List.mem_cons.1 he with rfl | he
        · rfl
        · simp at he
      · exact ih _ _ e he
    · simp at he

/-! ## Structure of a run of `overclock_init` -/

/-- What a completed run of `overclock_init` is made of. -/
theorem overclock_init_some {σ : Type} (io : RegBackend σ) (fuel l v : Nat)
    (s s' : State σ) (hrun : overclock_init io fuel l v s = some s') :
    ∃ h0 h1,
      scpll_init io fuel scplls.CPU0
        (((s.hw.printk Msg.version).printk Msg.author).printk Msg.recalCpu0) = some h0 ∧
      scpll_init io fuel scplls.CPU1 (h0.printk Msg.recalCpu1) = some h1 ∧
      s'.hw.dev = h1.dev ∧
      s'.hw.log = h1.log ++ Event.printk Msg.scanningVoltages ::
        scanPhaseEvents l v s.mem s.table ∧
      s'.table = (tableScan (voltageScan s.mem).1 s.table).1 ∧
      s'.mem = (freqScan (tablePatch l v (tableScan (voltageScan s.mem).1 s.table).1
        (voltageScan s.mem).1)).1 ∧
      s'.freq_table_cpu0 = registerTable l s.freq_table_cpu0 ∧
      s'.freq_table_cpu1 = registerTable l s.freq_table_cpu1 ∧
      s'.policy_cpu0 = notifyPolicy l s.policy_cpu0 := by
  simp only [overclock_init] at hrun
  split at hrun
  · cases hrun
  · rename_i h0 hc0
    split at hrun
    · cases hrun
    · rename_i h1 hc1
      cases hrun
      refine ⟨h0, h1, hc0, hc1, rfl, ?_, rfl, rfl, rfl, rfl, rfl⟩
      simp [Hw.emit, Hw.printk, scanPhaseEvents]

/-- A run of `overclock_init` completes exactly when both calibrations do. -/
theorem overclock_init_isSome {σ : Type} (io : RegBackend σ) (fuel l v : Nat) (s : State σ) :
    (overclock_init io fuel l v s).isSome =
      ((scpll_init io fuel scplls.CPU0
          (((s.hw.printk Msg.version).printk Msg.author).printk Msg.recalCpu0)).bind
        (fun h0 => scpll_init io fuel scplls.CPU1 (h0.printk Msg.recalCpu1))).isSome := by
  simp only [overclock_init]
  cases scpll_init io fuel scplls.CPU0
      (((s.hw.printk Msg.version).printk Msg.author).printk Msg.recalCpu0) with
  | none => rfl
  | some h0 =>
    cases hc1 : scpll_init io fuel scplls.CPU1 (h0.printk Msg.recalCpu1) with
    | none => simp [hc1]
    | some h1 => simp [hc1]

theorem eq_some_getD {α : Type} (o : Option α) (d : α) (h : o.isSome = true) :
    o = some (o.getD d) := by
  cases o with
  | none => cases h
  | some a => rfl

theorem scanPhaseEvents_quiet (l v : Nat) (mem : Mem) (table0 : Nat) :
    ∀ e ∈ Event.printk Msg.scanningVoltages :: scanPhaseEvents l v mem table0,
      e.quiet = true := by
  intro e he
  simp only [scanPhaseEvents, List.mem_cons, List.mem_append, List.mem_singleton,
    List.not_mem_nil, or_false] at he
  rcases he with rfl | he | rfl | (he | rfl | rfl | rfl | rfl) | he
  · rfl
  · exact voltageScanLoop_quiet _ _ _ e he
  · rfl
  · exact tableScanLoop_quiet _ _ _ _ e he
  · rfl
  · rfl
  · rfl
  · rfl
  · exact freqScanLoop_quiet _ _ _ e he

/-! ## Facts about the concrete inputs -/

theorem simRun_eq (mem : Mem) :
    overclock_init simDev 10 0x1C 1250000 (simState mem) = some (simRun mem) := by
  apply eq_some_getD
  rw [overclock_init_isSome]
  have hcal : ((scpll_init simDev 10 scplls.CPU0
      ((((Hw.mk 0 []).printk Msg.version).printk Msg.author).printk Msg.recalCpu0)).bind
      (fun h0 => scpll_init simDev 10 scplls.CPU1 (h0.printk Msg.recalCpu1))).isSome
      = true := by decide
  exact hcal

theorem signature_byte (mem : Mem) (b : Nat) (h : signature mem b = true) :
    mem (b + 9) = 0xee := by
  simp only [signature, Bool.and_eq_true, beq_iff_eq] at h
  have h0 := h.1.1
  simp only [acpuclk_khz, fieldAddr, SIZEOF_ACPU_SPEED, OFF_ACPUCLK_KHZ, read32] at h0
  have b0 := (mem (b + 44 * 0 + 8)).isLt
  have b1 := (mem (b + 44 * 0 + 8 + 1)).isLt
  have b2 := (mem (b + 44 * 0 + 8 + 2)).isLt
  have b3 := (mem (b + 44 * 0 + 8 + 3)).isLt
  have hv : (mem (b + 44 * 0 + 8 + 1)).val = 0xee := by omega
  have haddr : b + 44 * 0 + 8 + 1 = b + 9 := by omega
  rw [haddr] at hv
  exact Fin.ext hv

theorem sigMem_signature_unique (b : Nat) (h : signature sigMem b = true) :
    b = 0xc071b004 := by
  have hb := signature_byte sigMem b h
  by_contra hne
  have hz : sigMem (b + 9) ≠ 0xee := by
    simp only [sigMem]
    split_ifs <;> first | omega | decide
  exact hz hb

theorem endMem_no_signature (b : Nat) : signature endMem b = false := by
  cases hs : signature endMem b with
  | false => rfl
  | true =>
    have hb := signature_byte endMem b hs
    have hz : endMem (b + 9) ≠ 0xee := by
      simp only [endMem]
      split_ifs <;> decide
    exact absurd hb hz

theorem twoMem_headAt (s : Nat) (h : headAt hex_1250mv twoMem s) :
    s = 0xc0000010 ∨ s = 0xc0000020 := by
  have h0 := h.1
  by_contra hne
  have hz : twoMem s ≠ hex_1250mv 0 := by
    simp only [twoMem]
    split_ifs <;> first | omega | decide
  exact hz h0

theorem twoMem_noShortMatch : NoShortMatch twoMem SCAN_START := by
  intro s _ _ hpre
  rcases twoMem_headAt s hpre with rfl | rfl <;> decide

theorem endMem_rejects (b : Nat) : accepts hex_1250mv endMem b = false := by
  rw [accepts_eq_false_iff]
  intro h
  have h0 := h.1
  have hz : endMem b ≠ hex_1250mv 0 := by
    simp only [endMem]
    split_ifs <;> decide
  exact hz h0

theorem voltageScan_endMem : voltageScan endMem = (endMem, []) :=
  voltageScanLoop_none endMem _ _ (fun b _ _ => endMem_rejects b)

theorem shortMem_headAt (s : Nat) (h : headAt hex_1188mhz shortMem s) :
    s = 0xc0000010 ∨ s = 0xc0000020 := by
  have h1 := h.2.1
  by_contra hne
  have hz : shortMem (s + 1) ≠ hex_1188mhz 1 := by
    simp only [shortMem]
    split_ifs <;> first | omega | decide
  exact hz h1

theorem signature_iff (mem : Mem) (a : Nat) :
    signature mem a = true ↔ isTableStart mem a := by
  simp [signature, isTableStart, MAX_AXI, and_assoc]

theorem signature_eq_false_iff (mem : Mem) (a : Nat) :
    signature mem a = false ↔ ¬ isTableStart mem a := by
  rw [← signature_iff]
  simp

theorem tableScan_found (mem : Mem) (a table0 : Nat) (hlo : TABLE_SCAN_START < a)
    (hhi : a ≤ SCAN_END) (hsig : signature mem a = true)
    (hfirst : ∀ b, TABLE_SCAN_START < b → b < a → signature mem b = false) :
    tableScan mem table0 = (a, [Event.printk (Msg.epicPwn a)]) :=
  tableScanLoop_found mem a hsig hhi _ _ _ hlo
    (by simp only [SCAN_END, TABLE_SCAN_START] at hhi ⊢; omega) hfirst

theorem tableScan_none (mem : Mem) (table0 : Nat)
    (hnone : ∀ b, TABLE_SCAN_START < b → b ≤ SCAN_END → signature mem b = false) :
    tableScan mem table0 = (SCAN_END, []) :=
  tableScanLoop_none mem _ _ _ (by decide) (by decide) hnone

theorem freqScan_found (mem : Mem) (a : Nat) (hlo : SCAN_START < a) (hhi : a ≤ SCAN_END)
    (hacc : accepts hex_1188mhz mem a = true)
    (hfirst : ∀ b, SCAN_START < b → b < a → accepts hex_1188mhz mem b = false) :
    freqScan mem = (memcpy4 mem a hex_hugemhz, [Event.printk (Msg.epicPwn a)]) :=
  freqScanLoop_found mem a hacc hhi _ _ hlo
    (by simp only [SCAN_END, SCAN_START] at hhi ⊢; omega) hfirst

theorem voltageScan_overwrites (mem : Mem) (hnp : NoShortMatch mem SCAN_START) (a : Nat)
    (hlo : SCAN_START < a) (hhi : a ≤ SCAN_END) (hocc : occursAt hex_1250mv mem a)
    (i : Nat) (hi : i < 4) : (voltageScan mem).1 (a + i) = hex_1450mv i :=
  (voltageScanLoop_spec _ _ mem (by decide) hnp).1 a hlo hhi hocc i hi

/-- The calibration part of the log of a completed run. -/
theorem overclock_init_calibrations {σ : Type} (io : RegBackend σ) (fuel l v : Nat)
    (s s' : State σ) (hrun : overclock_init io fuel l v s = some s') :
    scpllInitCalls s'.hw.log = scpllInitCalls s.hw.log ++ [scplls.CPU0, scplls.CPU1] ∧
    writes s'.hw.log = writes s.hw.log ++
      (calibrationWrites scplls.CPU0 ++ calibrationWrites scplls.CPU1) ∧
    (Event.printk Msg.scanningVoltages :: scanPhaseEvents l v s.mem s.table) <:+ s'.hw.log := by
  obtain ⟨h0, h1, hc0, hc1, _, hlog, _⟩ := overclock_init_some io fuel l v s s' hrun
  have hq := quiet_lists _ (scanPhaseEvents_quiet l v s.mem s.table)
  have c0 := scpll_init_calls_eq io fuel _ _ _ hc0
  have c1 := scpll_init_calls_eq io fuel _ _ _ hc1
  have w0 := scpll_init_writes_eq io fuel _ _ _ hc0
  have w1 := scpll_init_writes_eq io fuel _ _ _ hc1
  refine ⟨?_, ?_, ?_⟩
  · unfold scpllInitCalls at c0 c1 hq ⊢
    rw [hlog, List.filterMap_append, hq.2.2, c1]
    simp only [Hw.printk, List.filterMap_append] at c0 ⊢
    rw [c0]
    simp [Event.scpllInitCall]
  · unfold writes at w0 w1 hq ⊢
    rw [hlog, List.filter_append, hq.2.1, w1]
    simp only [Hw.printk, List.filter_append] at w0 ⊢
    rw [w0]
    simp [Event.isWritel]
  · exact ⟨h1.log, hlog.symm⟩

/-! ## The claims -/

/-- C1, counterexample: in `sigMem` the table scan locates the table at
`0xc071b004`, whose record 17 has `acpuclk_khz = 0`.  With the divisor `0x1C`
(within 8..37) the computed frequency is 1512000, but the guard of the patch
fails and `table[17].acpuclk_khz` is still 0 afterwards: the value is not
stored in entry 17. -/
theorem entry17_not_stored_when_guard_fails :
    (tableScan sigMem 0).1 = 0xc071b004 ∧
    acpuclk_khz sigMem 0xc071b004 17 = 0 ∧
    (8 ≤ 0x1C ∧ 0x1C ≤ 37) ∧
    oc_khz 0x1C = 1512000 ∧
    acpuclk_khz (tablePatch 0x1C 1250000 0xc071b004 sigMem) 0xc071b004 17 = 0 := by
  decide

/-- C1, amended: for every divisor `D` with `8 ≤ D ≤ 37` the expression
`scpll_l_val*2*27*1000`, computed in 32-bit unsigned arithmetic, equals
`D * 54000` without wrap-around.  The patch block stores that value in
`table[17].acpuclk_khz` whenever `table[17].acpuclk_khz` was 1188000 before
(for any memory and table address), and every completed run of
`overclock_init` stores it in slot 16 of the cpufreq frequency tables of both
CPUs.  `D = 0x1C` gives 1512000 and `D = 0x25` gives 1998000. -/
theorem oc_khz_stored (D : Nat) (h8 : 8 ≤ D) (h37 : D ≤ 37)
    (vdd_uv table : Nat) (mem : Mem) (hguard : acpuclk_khz mem table 17 = 1188000)
    {σ : Type} (io : RegBackend σ) (fuel : Nat) (s s' : State σ)
    (hrun : overclock_init io fuel D vdd_uv s = some s') :
    oc_khz D = D * 54000 ∧
    acpuclk_khz (tablePatch D vdd_uv table mem) table 17 = D * 54000 ∧
    s'.freq_table_cpu0 16 = D * 54000 ∧
    s'.freq_table_cpu1 16 = D * 54000 ∧
    oc_khz 0x1C = 1512000 ∧ oc_khz 0x25 = 1998000 := by
  have hoc : oc_khz D = D * 54000 := oc_khz_no_wrap D (by omega)
  obtain ⟨_, _, _, _, _, _, _, _, hf0, hf1, _⟩ := overclock_init_some io fuel D vdd_uv s s' hrun
  refine ⟨hoc, ?_, ?_, ?_, by decide, by decide⟩
  · rw [tablePatch_of_guard _ _ _ _ hguard, patchStores_khz17, hoc]
  · rw [hf0, ← hoc]
    simp [registerTable, Function.update]
  · rw [hf1, ← hoc]
    simp [registerTable, Function.update]

/-- C1, witness: the default divisor `0x1C`, the stock-like table of `tableMem`
at `0xc071b004`, and a completed run on the simulated backend. -/
theorem oc_khz_stored_default :
    (8 ≤ 0x1C ∧ 0x1C ≤ 37) ∧
    acpuclk_khz tableMem 0xc071b004 17 = 1188000 ∧
    overclock_init simDev 10 0x1C 1250000 (simState tableMem) = some (simRun tableMem) ∧
    (oc_khz 0x1C = 0x1C * 54000 ∧
     acpuclk_khz (tablePatch 0x1C 1250000 0xc071b004 tableMem) 0xc071b004 17 = 0x1C * 54000 ∧
     (simRun tableMem).freq_table_cpu0 16 = 0x1C * 54000 ∧
     (simRun tableMem).freq_table_cpu1 16 = 0x1C * 54000 ∧
     oc_khz 0x1C = 1512000 ∧ oc_khz 0x25 = 1998000) :=
  ⟨by decide, by decide, simRun_eq tableMem,
    oc_khz_stored 0x1C (by decide) (by decide) 1250000 0xc071b004 tableMem (by decide)
      simDev 10 (simState tableMem) (simRun tableMem) (simRun_eq tableMem)⟩

/-- C2, the code at the failing input: `shortMem` holds `00 71 cf 00` at
`0xc0000010`, which matches `hex_1188mhz` (`00 71 cf 46`) in its first three
bytes only, and the full pattern at `0xc0000020` and nowhere else.  The
1188 MHz scan accepts `0xc0000010`: it prints that address and copies
`hex_hugemhz` there, although the fourth byte differs from the pattern. -/
theorem freqScan_accepts_three_byte_match :
    shortMem 0xc0000013 ≠ hex_1188mhz 3 ∧
    ¬ occursAt hex_1188mhz shortMem 0xc0000010 ∧
    (∀ a, occursAt hex_1188mhz shortMem a ↔ a = 0xc0000020) ∧
    accepts hex_1188mhz shortMem 0xc0000010 = true ∧
    freqScan shortMem
      = (memcpy4 shortMem 0xc0000010 hex_hugemhz,
          [Event.printk (Msg.epicPwn 0xc0000010)]) := by
  refine ⟨by decide, by decide, ?_, by decide, ?_⟩
  · intro a
    constructor
    · intro h
      rcases shortMem_headAt a h.headAt with rfl | rfl
      · exact absurd h (by decide)
      · rfl
    · rintro rfl
      decide
  · refine freqScan_found shortMem 0xc0000010 (by decide) (by decide) (by decide) ?_
    intro b _ hb
    rw [accepts_eq_false_iff]
    intro hpre
    rcases shortMem_headAt b hpre with rfl | rfl <;> omega

/-- C3, counterexample: `twoMem` holds the 1250 mV pattern at `0xc0000010` and
at `0xc0000020`; after the voltage scan the later occurrence has been
overwritten too (its first byte is `0x10`, no longer `0xd0`). -/
theorem voltageScan_overwrites_later_occurrence :
    occursAt hex_1250mv twoMem 0xc0000010 ∧
    occursAt hex_1250mv twoMem 0xc0000020 ∧
    twoMem 0xc0000020 = 0xd0 ∧
    (voltageScan twoMem).1 0xc0000020 = 0x10 := by
  refine ⟨by decide, by decide, by decide, ?_⟩
  have h := voltageScan_overwrites twoMem twoMem_noShortMatch 0xc0000020
    (by decide) (by decide) (by decide) 0 (by decide)
  rw [Nat.add_zero] at h
  rw [h]
  decide

/-- C3, amended: for every memory content in which no address of the scanned
range (`0xc0000001 .. 0xc1000000`) matches the 1250 mV pattern in its first
three bytes only, the voltage scan overwrites every occurrence of the pattern
in the scanned range, the first and the later ones alike, with `hex_1450mv`:
the scan does not stop at the first match. -/
theorem voltageScan_overwrites_every_occurrence (mem : Mem)
    (hnp : NoShortMatch mem SCAN_START) (a : Nat) (hlo : SCAN_START < a) (hhi : a ≤ SCAN_END)
    (hocc : occursAt hex_1250mv mem a) (i : Nat) (hi : i < 4) :
    (voltageScan mem).1 (a + i) = hex_1450mv i :=
  voltageScan_overwrites mem hnp a hlo hhi hocc i hi

/-- C3, witness: the second occurrence in `twoMem`, last byte. -/
theorem voltageScan_overwrites_every_occurrence_twoMem :
    NoShortMatch twoMem SCAN_START ∧ SCAN_START < 0xc0000020 ∧ 0xc0000020 ≤ SCAN_END ∧
    occursAt hex_1250mv twoMem 0xc0000020 ∧ 3 < 4 ∧
    (voltageScan twoMem).1 (0xc0000020 + 3) = hex_1450mv 3 :=
  ⟨twoMem_noShortMatch, by decide, by decide, by decide, by decide,
    voltageScan_overwrites_every_occurrence twoMem twoMem_noShortMatch 0xc0000020
      (by decide) (by decide) (by decide) 3 (by decide)⟩

/-- Away from the address `scan` starts from, a unique table is found: for
every memory content in which exactly one address `a` among
`0xc071b001 .. 0xc1000000` starts three records whose `acpuclk_khz` members
are 192000, 310500 and 384000, the table scan ends with `table = a`, whatever
the local `table` held before. -/
theorem tableScan_finds_unique_table (mem : Mem) (a table0 : Nat)
    (hlo : TABLE_SCAN_START < a) (hhi : a ≤ SCAN_END) (hstart : isTableStart mem a)
    (huniq : ∀ b, TABLE_SCAN_START < b → b ≤ SCAN_END → isTableStart mem b → b = a) :
    (tableScan mem table0).1 = a := by
  rw [tableScan_found mem a table0 hlo hhi ((signature_iff mem a).2 hstart)]
  intro b hb1 hb2
  rw [signature_eq_false_iff]
  intro hb
  have := huniq b hb1 (by omega) hb
  omega

/-- C6: for every table whose record 17 has `acpuclk_khz = 1188000`, and for
every divisor `scpll_l_val` and voltage `vdd_uv` (both `uint`, so below
`2^32`), after the table patch record 17 has
`acpuclk_khz = scpll_l_val * 54000 mod 2^32`, `l_val = scpll_l_val` and
`vdd_sc = vdd_uv`. -/
theorem tablePatch_sets_entry17 (mem : Mem) (table scpll_l_val vdd_uv : Nat)
    (hguard : acpuclk_khz mem table 17 = 1188000)
    (hl : scpll_l_val < 2 ^ 32) (hv : vdd_uv < 2 ^ 32) :
    acpuclk_khz (tablePatch scpll_l_val vdd_uv table mem) table 17
      = scpll_l_val * 54000 % 2 ^ 32 ∧
    l_val (tablePatch scpll_l_val vdd_uv table mem) table 17 = scpll_l_val ∧
    vdd_sc (tablePatch scpll_l_val vdd_uv table mem) table 17 = vdd_uv := by
  rw [tablePatch_of_guard _ _ _ _ hguard, patchStores_khz17, patchStores_l_val17,
    patchStores_vdd_sc17, oc_khz_eq_mod, Nat.mod_eq_of_lt hl, Nat.mod_eq_of_lt hv]
  exact ⟨rfl, rfl, rfl⟩

/-- C6, witness: the table of `tableMem` with the default module parameters. -/
theorem tablePatch_sets_entry17_default :
    acpuclk_khz tableMem 0xc071b004 17 = 1188000 ∧ 0x1C < 2 ^ 32 ∧ 1250000 < 2 ^ 32 ∧
    (acpuclk_khz (tablePatch 0x1C 1250000 0xc071b004 tableMem) 0xc071b004 17
        = 0x1C * 54000 % 2 ^ 32 ∧
     l_val (tablePatch 0x1C 1250000 0xc071b004 tableMem) 0xc071b004 17 = 0x1C ∧
     vdd_sc (tablePatch 0x1C 1250000 0xc071b004 tableMem) 0xc071b004 17 = 1250000) :=
  ⟨by decide, by decide, by decide,
    tablePatch_sets_entry17 tableMem 0xc071b004 0x1C 1250000 (by decide) (by decide)
      (by decide)⟩

/-- C7, counterexample: the table of `bareMem` passes the pre-patch check
(`table[17].acpuclk_khz = 1188000`) while `table[17].l_val = 0` and
`table[17].vdd_sc = 0`; after the patch record 16 has `l_val = 0x16` and
`vdd_sc = 1187500`, not the values record 17 held. -/
theorem entry16_not_copied_from_entry17 :
    acpuclk_khz bareMem 0xc071b004 17 = 1188000 ∧
    l_val bareMem 0xc071b004 17 = 0 ∧
    vdd_sc bareMem 0xc071b004 17 = 0 ∧
    l_val (tablePatch 0x1C 1250000 0xc071b004 bareMem) 0xc071b004 16 = 0x16 ∧
    vdd_sc (tablePatch 0x1C 1250000 0xc071b004 bareMem) 0xc071b004 16 = 1187500 := by
  refine ⟨by decide, by rfl, by rfl, ?_, ?_⟩
  · rw [tablePatch_of_guard _ _ _ _ (by decide), patchStores_l_val16]
  · rw [tablePatch_of_guard _ _ _ _ (by decide), patchStores_vdd_sc16]

/-- C7, amended: for every table that passes the pre-patch check, after the
table patch record 16 has `acpuclk_khz = 1188000`, which is the frequency
record 17 held before the patch, and has the fixed values `l_val = 0x16` and
`vdd_sc = 1187500`, whatever divisor and voltage record 17 held. -/
theorem tablePatch_sets_entry16 (mem : Mem) (table scpll_l_val vdd_uv : Nat)
    (hguard : acpuclk_khz mem table 17 = 1188000) :
    acpuclk_khz (tablePatch scpll_l_val vdd_uv table mem) table 16
      = acpuclk_khz mem table 17 ∧
    acpuclk_khz (tablePatch scpll_l_val vdd_uv table mem) table 16 = 1188000 ∧
    l_val (tablePatch scpll_l_val vdd_uv table mem) table 16 = 0x16 ∧
    vdd_sc (tablePatch scpll_l_val vdd_uv table mem) table 16 = 1187500 := by
  rw [tablePatch_of_guard _ _ _ _ hguard, patchStores_khz16, patchStores_l_val16,
    patchStores_vdd_sc16, hguard]
  exact ⟨rfl, rfl, rfl, rfl⟩

/-- C7, witness: the table of `bareMem` with the default module parameters. -/
theorem tablePatch_sets_entry16_bareMem :
    acpuclk_khz bareMem 0xc071b004 17 = 1188000 ∧
    (acpuclk_khz (tablePatch 0x1C 1250000 0xc071b004 bareMem) 0xc071b004 16
        = acpuclk_khz bareMem 0xc071b004 17 ∧
     acpuclk_khz (tablePatch 0x1C 1250000 0xc071b004 bareMem) 0xc071b004 16 = 1188000 ∧
     l_val (tablePatch 0x1C 1250000 0xc071b004 bareMem) 0xc071b004 16 = 0x16 ∧
     vdd_sc (tablePatch 0x1C 1250000 0xc071b004 bareMem) 0xc071b004 16 = 1187500) :=
  ⟨by decide, tablePatch_sets_entry16 bareMem 0xc071b004 0x1C 1250000 (by decide)⟩

/-- C8: for every table state, divisor and voltage, applying the guarded table
patch twice gives the same memory as applying it once, so the second
application changes no field; this covers the divisors with
`scpll_l_val * 54000 = 1188000 (mod 2^32)`, for which the guard passes again. -/
theorem tablePatch_twice (scpll_l_val vdd_uv table : Nat) (mem : Mem) :
    tablePatch scpll_l_val vdd_uv table (tablePatch scpll_l_val vdd_uv table mem)
      = tablePatch scpll_l_val vdd_uv table mem :=
  tablePatch_idem scpll_l_val vdd_uv table mem

/-- C9: for every PLL instance `p` and every register backend, a call of
`scpll_init` whose two polling loops terminate issues exactly seven register
writes, in this order: DEBUG(`0x0`) := 3, LUT slot(`0x5C`) := 0,
DEBUG(`0x0`) := 0, CTL(`0x4`) := 2, CAL(`0x8`) := `0x25080000`,
CTL(`0x4`) := 4, CTL(`0x4`) := 0, all within the block `sc_pll_base p`. -/
theorem scpll_init_seven_writes {σ : Type} (io : RegBackend σ) (fuel : Nat) (p : scplls)
    (h h' : Hw σ) (hrun : scpll_init io fuel p h = some h') :
    writes h'.log = writes h.log ++
      [ Event.writel 3 (sc_pll_base p + 0x0),
        Event.writel 0 (sc_pll_base p + 0x5C),
        Event.writel 0 (sc_pll_base p + 0x0),
        Event.writel 2 (sc_pll_base p + 0x4),
        Event.writel 0x25080000 (sc_pll_base p + 0x8),
        Event.writel 4 (sc_pll_base p + 0x4),
        Event.writel 0 (sc_pll_base p + 0x4) ] :=
  scpll_init_writes_eq io fuel p h h' hrun

/-- C9, witness: `scpll_init(CPU0)` on the simulated backend, whose polling
loops end after three reads each. -/
theorem scpll_init_seven_writes_simDev :
    scpll_init simDev 10 scplls.CPU0 { dev := 0, log := [] } = some simCal ∧
    writes simCal.log = writes [] ++
      [ Event.writel 3 (sc_pll_base scplls.CPU0 + 0x0),
        Event.writel 0 (sc_pll_base scplls.CPU0 + 0x5C),
        Event.writel 0 (sc_pll_base scplls.CPU0 + 0x0),
        Event.writel 2 (sc_pll_base scplls.CPU0 + 0x4),
        Event.writel 0x25080000 (sc_pll_base scplls.CPU0 + 0x8),
        Event.writel 4 (sc_pll_base scplls.CPU0 + 0x4),
        Event.writel 0 (sc_pll_base scplls.CPU0 + 0x4) ] :=
  ⟨rfl, scpll_init_seven_writes simDev 10 scplls.CPU0 { dev := 0, log := [] } simCal rfl⟩

/-- C10, counterexample: in the completed run on the simulated backend the
calls of `scpll_init` are those for CPU0 and CPU1 only, and the register
writes are the fourteen writes of these two calibrations: the L2 instance is
never calibrated. -/
theorem overclock_init_skips_l2 :
    overclock_init simDev 10 0x1C 1250000 (simState endMem) = some (simRun endMem) ∧
    scpllInitCalls (simRun endMem).hw.log = [scplls.CPU0, scplls.CPU1] ∧
    scpllInitCalls (simRun endMem).hw.log ≠ [scplls.CPU0, scplls.CPU1, scplls.L2] ∧
    writes (simRun endMem).hw.log
      = calibrationWrites scplls.CPU0 ++ calibrationWrites scplls.CPU1 := by
  obtain ⟨hc, hw, _⟩ :=
    overclock_init_calibrations simDev 10 0x1C 1250000 _ _ (simRun_eq endMem)
  have hc2 : scpllInitCalls (simRun endMem).hw.log = [scplls.CPU0, scplls.CPU1] := hc
  refine ⟨simRun_eq endMem, hc2, ?_, hw⟩
  rw [hc2]
  decide

/-- C10, amended: every completed run of `overclock_init` calls `scpll_init`
exactly twice, once for CPU0 and then once for CPU1 (the L2 instance is not
calibrated); its register writes are the seven writes of the CPU0 calibration
followed by the seven of the CPU1 calibration; and the log ends with the
`SCANNING FOR VOLTAGES` message followed by the events of the scans and
patches, none of which is a register access or a call of `scpll_init`, so both
calibrations precede all scanning and patching. -/
theorem overclock_init_calibrates_cpu0_cpu1 {σ : Type} (io : RegBackend σ)
    (fuel l v : Nat) (s s' : State σ) (hrun : overclock_init io fuel l v s = some s') :
    scpllInitCalls s'.hw.log = scpllInitCalls s.hw.log ++ [scplls.CPU0, scplls.CPU1] ∧
    writes s'.hw.log = writes s.hw.log ++
      (calibrationWrites scplls.CPU0 ++ calibrationWrites scplls.CPU1) ∧
    (Event.printk Msg.scanningVoltages :: scanPhaseEvents l v s.mem s.table)
      <:+ s'.hw.log ∧
    regEvents (Event.printk Msg.scanningVoltages :: scanPhaseEvents l v s.mem s.table) = [] ∧
    scpllInitCalls (Event.printk Msg.scanningVoltages :: scanPhaseEvents l v s.mem s.table)
      = [] := by
  obtain ⟨hc, hw, hsuf⟩ := overclock_init_calibrations io fuel l v s s' hrun
  have hq := quiet_lists _ (scanPhaseEvents_quiet l v s.mem s.table)
  exact ⟨hc, hw, hsuf, hq.1, hq.2.2⟩

/-- C10, witness: the completed run on the simulated backend over `endMem`. -/
theorem overclock_init_calibrates_cpu0_cpu1_simDev :
    overclock_init simDev 10 0x1C 1250000 (simState endMem) = some (simRun endMem) ∧
    (scpllInitCalls (simRun endMem).hw.log
        = scpllInitCalls (simState endMem).hw.log ++ [scplls.CPU0, scplls.CPU1] ∧
     writes (simRun endMem).hw.log = writes (simState endMem).hw.log ++
        (calibrationWrites scplls.CPU0 ++ calibrationWrites scplls.CPU1) ∧
     (Event.printk Msg.scanningVoltages ::
        scanPhaseEvents 0x1C 1250000 (simState endMem).mem (simState endMem).table)
        <:+ (simRun endMem).hw.log ∧
     regEvents (Event.printk Msg.scanningVoltages ::
        scanPhaseEvents 0x1C 1250000 (simState endMem).mem (simState endMem).table) = [] ∧
     scpllInitCalls (Event.printk Msg.scanningVoltages ::
        scanPhaseEvents 0x1C 1250000 (simState endMem).mem (simState endMem).table) = []) :=
  ⟨simRun_eq endMem,
    overclock_init_calibrates_cpu0_cpu1 simDev 10 0x1C 1250000 (simState endMem)
      (simRun endMem) (simRun_eq endMem)⟩

/-! ## Further lemmas on the scans and on runs -/

theorem freqScanLoop_cases :
    ∀ (fuel scan : Nat) (mem : Mem),
      freqScanLoop fuel scan mem = (mem, []) ∨
      ∃ a, scan < a ∧ a ≤ SCAN_END ∧ accepts hex_1188mhz mem a = true ∧
        freqScanLoop fuel scan mem
          = (memcpy4 mem a hex_hugemhz, [Event.printk (Msg.epicPwn a)]) := by
  intro fuel
  induction fuel with
  | zero => intro scan mem; exact Or.inl rfl
  | succ n ih =>
    intro scan mem
    by_cases hlt : scan < SCAN_END
    · by_cases hacc : accepts hex_1188mhz mem (scan + 1) = true
      · refine Or.inr ⟨scan + 1, by omega, by omega, hacc, ?_⟩
        simp [freqScanLoop, hlt, hacc]
      · have hrej : accepts hex_1188mhz mem (scan + 1) = false := by simpa using hacc
        have hstep : freqScanLoop (n + 1) scan mem = freqScanLoop n (scan + 1) mem := by
          simp [freqScanLoop, hlt, hrej]
        rw [hstep]
        rcases ih (scan + 1) mem with h | ⟨a, h1, h2, h3, h4⟩
        · exact Or.inl h
        · exact Or.inr ⟨a, by omega, h2, h3, h4⟩
    · left
      simp [freqScanLoop, hlt]

/-- When the 1188 MHz scan reports the address `a`, it has copied
`hex_hugemhz` to `a` and done nothing else. -/
theorem freqScan_reported (mem : Mem) (a : Nat)
    (h : (freqScan mem).2 = [Event.printk (Msg.epicPwn a)]) :
    freqScan mem = (memcpy4 mem a hex_hugemhz, [Event.printk (Msg.epicPwn a)]) ∧
    SCAN_START < a ∧ a ≤ SCAN_END ∧ accepts hex_1188mhz mem a = true := by
  rcases freqScanLoop_cases (SCAN_END - SCAN_START) SCAN_START mem with h0 | ⟨b, h1, h2, h3, h4⟩
  · have : (freqScan mem).2 = [] := by
      show (freqScanLoop (SCAN_END - SCAN_START) SCAN_START mem).2 = []
      rw [h0]
    rw [this] at h
    cases h
  · have h4' : freqScan mem = (memcpy4 mem b hex_hugemhz, [Event.printk (Msg.epicPwn b)]) := h4
    rw [h4'] at h
    have hb : b = a := by
      simpa using h
    subst hb
    exact ⟨h4', h1, h2, h3⟩

theorem freqScan_none (mem : Mem)
    (hnone : ∀ b, SCAN_START < b → b ≤ SCAN_END → accepts hex_1188mhz mem b = false) :
    freqScan mem = (mem, []) :=
  freqScanLoop_none mem _ _ hnone

theorem voltageScan_none (mem : Mem)
    (hnone : ∀ b, SCAN_START < b → b ≤ SCAN_END → accepts hex_1250mv mem b = false) :
    voltageScan mem = (mem, []) :=
  voltageScanLoop_none mem _ _ hnone

theorem read32_memcpy4_disjoint (mem : Mem) (a b : Nat) (src : Nat → Byte)
    (h : a + 4 ≤ b ∨ b + 4 ≤ a) : read32 (memcpy4 mem a src) b = read32 mem b := by
  unfold read32
  rw [memcpy4_far _ _ _ b (by omega), memcpy4_far _ _ _ (b + 1) (by omega),
    memcpy4_far _ _ _ (b + 2) (by omega), memcpy4_far _ _ _ (b + 3) (by omega)]

theorem simRunWith_eq (l v : Nat) (mem : Mem) :
    overclock_init simDev 10 l v (simState mem) = some (simRunWith l v mem) := by
  apply eq_some_getD
  rw [overclock_init_isSome]
  have hcal : ((scpll_init simDev 10 scplls.CPU0
      ((((Hw.mk 0 []).printk Msg.version).printk Msg.author).printk Msg.recalCpu0)).bind
      (fun h0 => scpll_init simDev 10 scplls.CPU1 (h0.printk Msg.recalCpu1))).isSome
      = true := by decide
  exact hcal

/-- A byte-pattern scan rejects every address when the byte after it never
equals the second pattern byte. -/
theorem accepts_false_of_second (pat : Nat → Byte) (mem : Mem)
    (h : ∀ x, mem x ≠ pat 1) (b : Nat) : accepts pat mem b = false := by
  rw [accepts_eq_false_iff]
  intro hh
  exact h (b + 1) hh.2.1

/-- A byte-pattern scan rejects every address when no byte equals the first
pattern byte. -/
theorem accepts_false_of_first (pat : Nat → Byte) (mem : Mem)
    (h : ∀ x, mem x ≠ pat 0) (b : Nat) : accepts pat mem b = false := by
  rw [accepts_eq_false_iff]
  intro hh
  exact h b hh.1

/-! ## Further facts about the concrete inputs -/

theorem sigMem_no_d0 (x : Nat) : sigMem x ≠ hex_1250mv 0 := by
  simp only [sigMem]
  split_ifs <;> decide

theorem sigMem_no_71 (x : Nat) : sigMem x ≠ hex_1188mhz 1 := by
  simp only [sigMem]
  split_ifs <;> decide

/-- A property of bytes that holds for the byte stored at `x` and for the four
bytes of `v` holds for the byte at `x` after `v` is stored anywhere. -/
theorem write32_byte (P : Byte → Prop) (mem : Mem) (a v x : Nat) (hm : P (mem x))
    (h0 : P (Fin.ofNat v)) (h1 : P (Fin.ofNat (v / 256)))
    (h2 : P (Fin.ofNat (v / 65536))) (h3 : P (Fin.ofNat (v / 16777216))) :
    P (write32 mem a v x) := by
  simp only [write32]
  split_ifs <;> assumption

theorem sigMem_ee (x : Nat) (hx : x ≠ 0xc071b00d) : sigMem x ≠ 0xee := by
  simp only [sigMem]
  split_ifs <;> first | omega | decide

theorem tableMem_no_d0 (x : Nat) : tableMem x ≠ hex_1250mv 0 := by
  unfold tableMem bareMem
  refine write32_byte (fun b => b ≠ hex_1250mv 0) _ _ _ _ ?_ (by decide) (by decide)
    (by decide) (by decide)
  refine write32_byte (fun b => b ≠ hex_1250mv 0) _ _ _ _ ?_ (by decide) (by decide)
    (by decide) (by decide)
  exact write32_byte (fun b => b ≠ hex_1250mv 0) _ _ _ _ (sigMem_no_d0 x) (by decide)
    (by decide) (by decide) (by decide)

theorem tableMem_no_71 (x : Nat) : tableMem x ≠ hex_1188mhz 1 := by
  unfold tableMem bareMem
  refine write32_byte (fun b => b ≠ hex_1188mhz 1) _ _ _ _ ?_ (by decide) (by decide)
    (by decide) (by decide)
  refine write32_byte (fun b => b ≠ hex_1188mhz 1) _ _ _ _ ?_ (by decide) (by decide)
    (by decide) (by decide)
  exact write32_byte (fun b => b ≠ hex_1188mhz 1) _ _ _ _ (sigMem_no_71 x) (by decide)
    (by decide) (by decide) (by decide)

theorem tableMem_signature_unique (b : Nat) (h : signature tableMem b = true) :
    b = 0xc071b004 := by
  have hb := signature_byte tableMem b h
  by_contra hne
  have hz : tableMem (b + 9) ≠ 0xee := by
    unfold tableMem bareMem
    refine write32_byte (fun c => c ≠ 0xee) _ _ _ _ ?_ (by decide) (by decide)
      (by decide) (by decide)
    refine write32_byte (fun c => c ≠ 0xee) _ _ _ _ ?_ (by decide) (by decide)
      (by decide) (by decide)
    exact write32_byte (fun c => c ≠ 0xee) _ _ _ _ (sigMem_ee _ (by omega)) (by decide)
      (by decide) (by decide) (by decide)
  exact hz hb

/-- The six stores of the patch keep a property of bytes that holds of the
memory and of the bytes of the six stored words. -/
theorem patchStores_byte (P : Byte → Prop) (l v table : Nat) (mem : Mem) (x : Nat)
    (hm : P (mem x))
    (hk : ∀ w, w = oc_khz l ∨ w = l ∨ w = v ∨ w = 1188000 ∨ w = 0x16 ∨ w = 1187500 →
      P (Fin.ofNat w) ∧ P (Fin.ofNat (w / 256)) ∧ P (Fin.ofNat (w / 65536)) ∧
        P (Fin.ofNat (w / 16777216))) :
    P (patchStores l v table mem x) := by
  unfold patchStores
  have k1 := hk (oc_khz l) (by simp)
  have k2 := hk l (by simp)
  have k3 := hk v (by simp)
  have k4 := hk 1188000 (by simp)
  have k5 := hk 0x16 (by simp)
  have k6 := hk 1187500 (by simp)
  refine write32_byte P _ _ _ _ ?_ k6.1 k6.2.1 k6.2.2.1 k6.2.2.2
  refine write32_byte P _ _ _ _ ?_ k5.1 k5.2.1 k5.2.2.1 k5.2.2.2
  refine write32_byte P _ _ _ _ ?_ k4.1 k4.2.1 k4.2.2.1 k4.2.2.2
  refine write32_byte P _ _ _ _ ?_ k3.1 k3.2.1 k3.2.2.1 k3.2.2.2
  refine write32_byte P _ _ _ _ ?_ k2.1 k2.2.1 k2.2.2.1 k2.2.2.2
  exact write32_byte P _ _ _ _ hm k1.1 k1.2.1 k1.2.2.1 k1.2.2.2

theorem tableMem_patched_no_71 (x : Nat) :
    patchStores 0x1C 1250000 0xc071b004 tableMem x ≠ hex_1188mhz 1 := by
  refine patchStores_byte (fun b => b ≠ hex_1188mhz 1) _ _ _ _ _ (tableMem_no_71 x) ?_
  intro w hw
  rcases hw with rfl | rfl | rfl | rfl | rfl | rfl <;> decide

theorem endMem_no_71 (x : Nat) : endMem x ≠ hex_1188mhz 1 := by
  simp only [endMem]
  split_ifs <;> decide

theorem endMem_patched_no_71 (x : Nat) :
    patchStores 7 1250000 SCAN_END endMem x ≠ hex_1188mhz 1 := by
  refine patchStores_byte (fun b => b ≠ hex_1188mhz 1) _ _ _ _ _ (endMem_no_71 x) ?_
  intro w hw
  rcases hw with rfl | rfl | rfl | rfl | rfl | rfl <;> decide

/-- The run on the simulated backend over `sigMem`: the table is located at
`0xc071b004`, the guard fails, and memory is left as it was. -/
theorem simRun_sigMem :
    (simRun sigMem).table = 0xc071b004 ∧ (simRun sigMem).mem = sigMem ∧
    (simRun sigMem).freq_table_cpu0 = registerTable 0x1C (fun _ => 0) ∧
    (simRun sigMem).freq_table_cpu1 = registerTable 0x1C (fun _ => 0) := by
  obtain ⟨_, _, _, _, _, _, htable, hmem, hf0, hf1, _⟩ :=
    overclock_init_some simDev 10 0x1C 1250000 _ _ (simRun_eq sigMem)
  have hv : voltageScan sigMem = (sigMem, []) :=
    voltageScan_none sigMem (fun b _ _ => accepts_false_of_first _ _ sigMem_no_d0 b)
  have ht : tableScan sigMem 0 = (0xc071b004, [Event.printk (Msg.epicPwn 0xc071b004)]) :=
    tableScan_found sigMem 0xc071b004 0 (by decide) (by decide) (by decide)
      (fun b _ hb => by
        cases hs : signature sigMem b with
        | false => rfl
        | true => have := sigMem_signature_unique b hs; omega)
  have hp : tablePatch 0x1C 1250000 0xc071b004 sigMem = sigMem :=
    tablePatch_of_not_guard _ _ _ _ (by decide)
  have hf : freqScan sigMem = (sigMem, []) :=
    freqScan_none sigMem (fun b _ _ => accepts_false_of_second _ _ sigMem_no_71 b)
  have hs : (simState sigMem).mem = sigMem := rfl
  have hs2 : (simState sigMem).table = 0 := rfl
  rw [hs, hs2, hv, ht] at htable hmem
  refine ⟨htable, ?_, hf0, hf1⟩
  rw [hmem]
  show (freqScan (tablePatch 0x1C 1250000 0xc071b004 sigMem)).1 = sigMem
  rw [hp, hf]

/-- The run on the simulated backend over `tableMem`: the table is located at
`0xc071b004`, the guard passes, and the final memory is the patched one. -/
theorem simRun_tableMem :
    voltageScan tableMem = (tableMem, []) ∧
    (simRun tableMem).table = 0xc071b004 ∧
    freqScan (patchStores 0x1C 1250000 0xc071b004 tableMem)
      = (patchStores 0x1C 1250000 0xc071b004 tableMem, []) ∧
    (simRun tableMem).mem = patchStores 0x1C 1250000 0xc071b004 tableMem := by
  obtain ⟨_, _, _, _, _, _, htable, hmem, _⟩ :=
    overclock_init_some simDev 10 0x1C 1250000 _ _ (simRun_eq tableMem)
  have hv : voltageScan tableMem = (tableMem, []) :=
    voltageScan_none tableMem (fun b _ _ => accepts_false_of_first _ _ tableMem_no_d0 b)
  have ht : tableScan tableMem 0 = (0xc071b004, [Event.printk (Msg.epicPwn 0xc071b004)]) :=
    tableScan_found tableMem 0xc071b004 0 (by decide) (by decide) (by decide)
      (fun b _ hb => by
        cases hs : signature tableMem b with
        | false => rfl
        | true => have := tableMem_signature_unique b hs; omega)
  have hp : tablePatch 0x1C 1250000 0xc071b004 tableMem
      = patchStores 0x1C 1250000 0xc071b004 tableMem :=
    tablePatch_of_guard _ _ _ _ (by decide)
  have hf : freqScan (patchStores 0x1C 1250000 0xc071b004 tableMem)
      = (patchStores 0x1C 1250000 0xc071b004 tableMem, []) :=
    freqScan_none _ (fun b _ _ => accepts_false_of_second _ _ tableMem_patched_no_71 b)
  have hs : (simState tableMem).mem = tableMem := rfl
  have hs2 : (simState tableMem).table = 0 := rfl
  rw [hs, hs2, hv, ht] at htable hmem
  refine ⟨hv, htable, hf, ?_⟩
  rw [hmem]
  show (freqScan (tablePatch 0x1C 1250000 0xc071b004 tableMem)).1 = _
  rw [hp, hf]

/-- The run on the simulated backend over `endMem` with the divisor 7: no
table is found, the patch goes through `0xc1000000`, and the final memory is
the patched one. -/
theorem simRunWith_endMem :
    (simRunWith 7 1250000 endMem).mem = patchStores 7 1250000 SCAN_END endMem := by
  obtain ⟨_, _, _, _, _, _, _, hmem, _⟩ :=
    overclock_init_some simDev 10 7 1250000 _ _ (simRunWith_eq 7 1250000 endMem)
  have ht : tableScan endMem 0 = (SCAN_END, []) :=
    tableScan_none endMem 0 (fun b _ _ => endMem_no_signature b)
  have hp : tablePatch 7 1250000 SCAN_END endMem = patchStores 7 1250000 SCAN_END endMem :=
    tablePatch_of_guard _ _ _ _ (by decide)
  have hf : freqScan (patchStores 7 1250000 SCAN_END endMem)
      = (patchStores 7 1250000 SCAN_END endMem, []) :=
    freqScan_none _ (fun b _ _ => accepts_false_of_second _ _ endMem_patched_no_71 b)
  have hs : (simState endMem).mem = endMem := rfl
  have hs2 : (simState endMem).table = 0 := rfl
  rw [hs, hs2, voltageScan_endMem, ht] at hmem
  rw [hmem]
  show (freqScan (tablePatch 7 1250000 SCAN_END endMem)).1 = _
  rw [hp, hf]

/-! ## The claims, continued -/

/-- C11, counterexample: with the divisor `0x07`, below the calibrated range,
`overclock_init` on the simulated backend over `endMem` runs to completion: it
issues the fourteen register writes of the two calibrations, stores 378000 in
slot 16 of the cpufreq table, and patches memory (the byte at `0xc10002f4`
changes from `0xa0` to `0x90`).  Nothing is rejected. -/
theorem overclock_init_accepts_divisor_7 :
    ¬ (0x08 ≤ 0x07 ∧ 0x07 ≤ 0x25) ∧
    overclock_init simDev 10 0x07 1250000 (simState endMem)
      = some (simRunWith 0x07 1250000 endMem) ∧
    writes (simRunWith 0x07 1250000 endMem).hw.log
      = calibrationWrites scplls.CPU0 ++ calibrationWrites scplls.CPU1 ∧
    (simRunWith 0x07 1250000 endMem).freq_table_cpu0 16 = 378000 ∧
    endMem 0xc10002f4 = 0xa0 ∧
    (simRunWith 0x07 1250000 endMem).mem 0xc10002f4 = 0x90 := by
  have hrun := simRunWith_eq 0x07 1250000 endMem
  obtain ⟨_, hw, _⟩ := overclock_init_calibrations simDev 10 0x07 1250000 _ _ hrun
  obtain ⟨_, _, _, _, _, _, _, _, hf0, _⟩ := overclock_init_some simDev 10 0x07 1250000 _ _ hrun
  refine ⟨by decide, hrun, hw, ?_, by decide, ?_⟩
  · rw [hf0]
    decide
  · rw [simRunWith_endMem]
    decide

/-- C11, amended: `overclock_init` does not validate `scpll_l_val`.  For every
divisor `l`, inside or outside `0x08 .. 0x25`, a completed run performs both
calibrations (its register writes are the seven of CPU0 followed by the seven
of CPU1), applies the scans and the guarded patch with `l`, and stores
`l * 54000 mod 2^32` in slot 16 of both cpufreq tables; and with any other
divisor `l'` the run completes as well. -/
theorem overclock_init_no_validation {σ : Type} (io : RegBackend σ)
    (fuel l v l' : Nat) (s s' : State σ) (hrun : overclock_init io fuel l v s = some s') :
    (overclock_init io fuel l' v s).isSome = true ∧
    writes s'.hw.log = writes s.hw.log ++
      (calibrationWrites scplls.CPU0 ++ calibrationWrites scplls.CPU1) ∧
    s'.mem = (freqScan (tablePatch l v s'.table (voltageScan s.mem).1)).1 ∧
    s'.freq_table_cpu0 16 = l * 54000 % 2 ^ 32 ∧
    s'.freq_table_cpu1 16 = l * 54000 % 2 ^ 32 := by
  obtain ⟨_, hw, _⟩ := overclock_init_calibrations io fuel l v s s' hrun
  obtain ⟨_, _, _, _, _, _, htable, hmem, hf0, hf1, _⟩ :=
    overclock_init_some io fuel l v s s' hrun
  refine ⟨?_, hw, ?_, ?_, ?_⟩
  · have h1 : (overclock_init io fuel l v s).isSome = true := by rw [hrun]; rfl
    rw [overclock_init_isSome] at h1 ⊢
    exact h1
  · rw [hmem, htable]
  · rw [hf0, ← oc_khz_eq_mod]
    simp [registerTable, Function.update]
  · rw [hf1, ← oc_khz_eq_mod]
    simp [registerTable, Function.update]

/-- C11, witness: the divisor `0x07` on the simulated backend over `endMem`,
compared with the default divisor `0x1C`. -/
theorem overclock_init_no_validation_divisor_7 :
    overclock_init simDev 10 0x07 1250000 (simState endMem)
      = some (simRunWith 0x07 1250000 endMem) ∧
    ((overclock_init simDev 10 0x1C 1250000 (simState endMem)).isSome = true ∧
     writes (simRunWith 0x07 1250000 endMem).hw.log = writes (simState endMem).hw.log ++
       (calibrationWrites scplls.CPU0 ++ calibrationWrites scplls.CPU1) ∧
     (simRunWith 0x07 1250000 endMem).mem
       = (freqScan (tablePatch 0x07 1250000 (simRunWith 0x07 1250000 endMem).table
           (voltageScan (simState endMem).mem).1)).1 ∧
     (simRunWith 0x07 1250000 endMem).freq_table_cpu0 16 = 0x07 * 54000 % 2 ^ 32 ∧
     (simRunWith 0x07 1250000 endMem).freq_table_cpu1 16 = 0x07 * 54000 % 2 ^ 32) :=
  ⟨simRunWith_eq 0x07 1250000 endMem,
    overclock_init_no_validation simDev 10 0x07 1250000 0x1C (simState endMem)
      (simRunWith 0x07 1250000 endMem) (simRunWith_eq 0x07 1250000 endMem)⟩

/-- C13: for every memory content in which the 1188 MHz scan reports a match
at address `a`, the memory after the scan holds `00 5e d0 b2` in the four
bytes `a .. a+3`, and every byte `x` outside them is unchanged. -/
theorem freqScan_patch_frame (mem : Mem) (a x : Nat)
    (hfound : (freqScan mem).2 = [Event.printk (Msg.epicPwn a)])
    (hx : x < a ∨ a + 4 ≤ x) :
    (freqScan mem).1 a = 0x00 ∧ (freqScan mem).1 (a + 1) = 0x5e ∧
    (freqScan mem).1 (a + 2) = 0xd0 ∧ (freqScan mem).1 (a + 3) = 0xb2 ∧
    (freqScan mem).1 x = mem x := by
  rw [(freqScan_reported mem a hfound).1]
  refine ⟨memcpy4_at mem a hex_hugemhz 0 (by omega), memcpy4_at mem a hex_hugemhz 1 (by omega),
    memcpy4_at mem a hex_hugemhz 2 (by omega), memcpy4_at mem a hex_hugemhz 3 (by omega),
    memcpy4_far mem a hex_hugemhz x hx⟩

/-- C13, witness: `hitMem`, whose pattern at `0xc0000020` the scan reports;
the byte after the pattern is unchanged. -/
theorem freqScan_patch_frame_hitMem :
    (freqScan hitMem).2 = [Event.printk (Msg.epicPwn 0xc0000020)] ∧
    (0xc0000024 < 0xc0000020 ∨ 0xc0000020 + 4 ≤ 0xc0000024) ∧
    ((freqScan hitMem).1 0xc0000020 = 0x00 ∧ (freqScan hitMem).1 (0xc0000020 + 1) = 0x5e ∧
     (freqScan hitMem).1 (0xc0000020 + 2) = 0xd0 ∧
     (freqScan hitMem).1 (0xc0000020 + 3) = 0xb2 ∧
     (freqScan hitMem).1 0xc0000024 = hitMem 0xc0000024) :=
  ⟨by decide, by decide,
    freqScan_patch_frame hitMem 0xc0000020 0xc0000024 (by decide) (by decide)⟩

/-! ## Polling with a known number of reads -/

theorem pollEvents_length {σ : Type} (io : RegBackend σ) (addr : Nat) :
    ∀ (n : Nat) (d : σ), (pollEvents io addr n d).length = n := by
  intro n
  induction n with
  | zero => intro d; rfl
  | succ k ih => intro d; simp [pollEvents, ih]

theorem pollEvents_reads {σ : Type} (io : RegBackend σ) (addr : Nat) :
    ∀ (n : Nat) (d : σ), ∀ e ∈ pollEvents io addr n d, ∃ v, e = Event.readl addr v := by
  intro n
  induction n with
  | zero => intro d e he; simp [pollEvents] at he
  | succ k ih =>
    intro d e he
    simp only [pollEvents, List.mem_cons] at he
    rcases he with rfl | he
    · exact ⟨_, rfl⟩
    · exact ih _ e he

/-- The first polling loop, when the register reads zero exactly `N` times
before it reads non-zero: `N + 1` reads, given a bound above `N`. -/
theorem waitCalStart_run {σ : Type} (io : RegBackend σ) (addr : Nat) :
    ∀ (N fuel : Nat) (h : Hw σ), N < fuel →
      (∀ i, i < N → readValue io addr i h.dev = 0) →
      readValue io addr N h.dev ≠ 0 →
      waitCalStart io addr fuel h
        = some { dev := afterReads io addr (N + 1) h.dev
                 log := h.log ++ pollEvents io addr (N + 1) h.dev } := by
  intro N
  induction N with
  | zero =>
    intro fuel h hf _ h1
    obtain ⟨k, rfl⟩ : ∃ k, fuel = k + 1 := ⟨fuel - 1, by omega⟩
    have h1' : (io.readl h.dev addr).1 ≠ 0 := h1
    simp [waitCalStart, h1', afterReads, pollEvents]
  | succ n ih =>
    intro fuel h hf h0 h1
    obtain ⟨k, rfl⟩ : ∃ k, fuel = k + 1 := ⟨fuel - 1, by omega⟩
    have hz : (io.readl h.dev addr).1 = 0 := h0 0 (by omega)
    have hstep : waitCalStart io addr (k + 1) h = waitCalStart io addr k
        { dev := (io.readl h.dev addr).2
          log := h.log ++ [Event.readl addr (io.readl h.dev addr).1] } := by
      simp only [waitCalStart]
      rw [if_pos hz]
    rw [hstep, ih k { dev := (io.readl h.dev addr).2
                      log := h.log ++ [Event.readl addr (io.readl h.dev addr).1] }
      (by omega) (fun i hi => h0 (i + 1) (by omega)) h1]
    simp [afterReads, pollEvents]

/-- The second polling loop, when bit 1 of the register reads set exactly `M`
times before it reads clear: `M + 1` reads, given a bound above `M`. -/
theorem waitCalDone_run {σ : Type} (io : RegBackend σ) (addr : Nat) :
    ∀ (M fuel : Nat) (h : Hw σ), M < fuel →
      (∀ j, j < M → readValue io addr j h.dev &&& 0x2 ≠ 0) →
      readValue io addr M h.dev &&& 0x2 = 0 →
      waitCalDone io addr fuel h
        = some { dev := afterReads io addr (M + 1) h.dev
                 log := h.log ++ pollEvents io addr (M + 1) h.dev } := by
  intro M
  induction M with
  | zero =>
    intro fuel h hf _ h1
    obtain ⟨k, rfl⟩ : ∃ k, fuel = k + 1 := ⟨fuel - 1, by omega⟩
    have h1' : (io.readl h.dev addr).1 &&& 0x2 = 0 := h1
    simp [waitCalDone, h1', afterReads, pollEvents]
  | succ n ih =>
    intro fuel h hf h0 h1
    obtain ⟨k, rfl⟩ : ∃ k, fuel = k + 1 := ⟨fuel - 1, by omega⟩
    have hz : (io.readl h.dev addr).1 &&& 0x2 ≠ 0 := h0 0 (by omega)
    have hstep : waitCalDone io addr (k + 1) h = waitCalDone io addr k
        { dev := (io.readl h.dev addr).2
          log := h.log ++ [Event.readl addr (io.readl h.dev addr).1] } := by
      simp only [waitCalDone]
      rw [if_pos hz]
    rw [hstep, ih k { dev := (io.readl h.dev addr).2
                      log := h.log ++ [Event.readl addr (io.readl h.dev addr).1] }
      (by omega) (fun j hj => h0 (j + 1) (by omega)) h1]
    simp [afterReads, pollEvents]

/-- The complete run of `scpll_init` on a backend whose LUT slot reads zero
`N` times and whose status bit reads set `M` times. -/
theorem scpll_init_run {σ : Type} (io : RegBackend σ) (p : scplls) (h : Hw σ)
    (N M fuel : Nat) (hN : N < fuel) (hM : M < fuel)
    (hlut0 : ∀ i, i < N →
      readValue io (sc_pll_base p + SCPLL_LUT_A_HW_MAX) i (devAfterSetup io p h.dev) = 0)
    (hlut1 : readValue io (sc_pll_base p + SCPLL_LUT_A_HW_MAX) N
      (devAfterSetup io p h.dev) ≠ 0)
    (hst0 : ∀ j, j < M →
      readValue io (sc_pll_base p + SCPLL_STATUS_OFFSET) j
        (afterReads io (sc_pll_base p + SCPLL_LUT_A_HW_MAX) (N + 1)
          (devAfterSetup io p h.dev)) &&& 0x2 ≠ 0)
    (hst1 : readValue io (sc_pll_base p + SCPLL_STATUS_OFFSET) M
        (afterReads io (sc_pll_base p + SCPLL_LUT_A_HW_MAX) (N + 1)
          (devAfterSetup io p h.dev)) &&& 0x2 = 0) :
    scpll_init io fuel p h = some
      { dev := io.writel
          (afterReads io (sc_pll_base p + SCPLL_STATUS_OFFSET) (M + 1)
            (afterReads io (sc_pll_base p + SCPLL_LUT_A_HW_MAX) (N + 1)
              (devAfterSetup io p h.dev)))
          SCPLL_POWER_DOWN (sc_pll_base p + SCPLL_CTL_OFFSET)
        log := h.log ++ calibrationHead p ++
          pollEvents io (sc_pll_base p + SCPLL_LUT_A_HW_MAX) (N + 1)
            (devAfterSetup io p h.dev) ++
          [Event.printk (Msg.waitComplete p)] ++
          pollEvents io (sc_pll_base p + SCPLL_STATUS_OFFSET) (M + 1)
            (afterReads io (sc_pll_base p + SCPLL_LUT_A_HW_MAX) (N + 1)
              (devAfterSetup io p h.dev)) ++
          [Event.printk (Msg.disable p),
            Event.writel SCPLL_POWER_DOWN (sc_pll_base p + SCPLL_CTL_OFFSET)] } := by
  simp only [scpll_init]
  rw [waitCalStart_run io _ N fuel _ hN hlut0 hlut1]
  simp only []
  rw [waitCalDone_run io _ M fuel _ hM hst0 hst1]
  simp [scpll_disable, Hw.writel, Hw.printk, calibrationHead, devAfterSetup]

theorem readsAt_pollEvents_same {σ : Type} (io : RegBackend σ) (addr : Nat) (n : Nat) (d : σ) :
    readsAt addr (pollEvents io addr n d) = pollEvents io addr n d := by
  unfold readsAt
  rw [List.filter_eq_self]
  intro e he
  obtain ⟨v, rfl⟩ := pollEvents_reads io addr n d e he
  simp [Event.isReadAt]

theorem readsAt_pollEvents_other {σ : Type} (io : RegBackend σ) (addr other : Nat)
    (hne : addr ≠ other) (n : Nat) (d : σ) :
    readsAt other (pollEvents io addr n d) = [] := by
  unfold readsAt
  rw [List.filter_eq_nil_iff]
  intro e he
  obtain ⟨v, rfl⟩ := pollEvents_reads io addr n d e he
  simp [Event.isReadAt, hne]

theorem writes_pollEvents {σ : Type} (io : RegBackend σ) (addr : Nat) (n : Nat) (d : σ) :
    writes (pollEvents io addr n d) = [] :=
  writes_reads _ addr (pollEvents_reads io addr n d)

theorem writes_calibrationLog {σ : Type} (io : RegBackend σ) (p : scplls) (N M : Nat) (d : σ) :
    writes (calibrationLog io p N M d) = calibrationWrites p := by
  have e1 := writes_pollEvents io (sc_pll_base p + SCPLL_LUT_A_HW_MAX) (N + 1)
    (devAfterSetup io p d)
  have e2 := writes_pollEvents io (sc_pll_base p + SCPLL_STATUS_OFFSET) (M + 1)
    (afterReads io (sc_pll_base p + SCPLL_LUT_A_HW_MAX) (N + 1) (devAfterSetup io p d))
  unfold writes at e1 e2 ⊢
  unfold calibrationLog
  simp only [List.filter_append, e1, e2, List.append_nil]
  rfl

theorem readsAt_calibrationLog {σ : Type} (io : RegBackend σ) (p : scplls) (N M : Nat) (d : σ) :
    readsAt (sc_pll_base p + SCPLL_LUT_A_HW_MAX) (calibrationLog io p N M d)
      = pollEvents io (sc_pll_base p + SCPLL_LUT_A_HW_MAX) (N + 1) (devAfterSetup io p d) ∧
    readsAt (sc_pll_base p + SCPLL_STATUS_OFFSET) (calibrationLog io p N M d)
      = pollEvents io (sc_pll_base p + SCPLL_STATUS_OFFSET) (M + 1)
          (afterReads io (sc_pll_base p + SCPLL_LUT_A_HW_MAX) (N + 1)
            (devAfterSetup io p d)) := by
  have hne : sc_pll_base p + SCPLL_LUT_A_HW_MAX ≠ sc_pll_base p + SCPLL_STATUS_OFFSET := by
    simp [SCPLL_LUT_A_HW_MAX, SCPLL_STATUS_OFFSET, L_VAL_SCPLL_CAL_MAX]
  have a1 := readsAt_pollEvents_same io (sc_pll_base p + SCPLL_LUT_A_HW_MAX) (N + 1)
    (devAfterSetup io p d)
  have a2 := readsAt_pollEvents_other io (sc_pll_base p + SCPLL_STATUS_OFFSET)
    (sc_pll_base p + SCPLL_LUT_A_HW_MAX) (Ne.symm hne) (M + 1)
    (afterReads io (sc_pll_base p + SCPLL_LUT_A_HW_MAX) (N + 1) (devAfterSetup io p d))
  have b1 := readsAt_pollEvents_other io (sc_pll_base p + SCPLL_LUT_A_HW_MAX)
    (sc_pll_base p + SCPLL_STATUS_OFFSET) hne (N + 1) (devAfterSetup io p d)
  have b2 := readsAt_pollEvents_same io (sc_pll_base p + SCPLL_STATUS_OFFSET) (M + 1)
    (afterReads io (sc_pll_base p + SCPLL_LUT_A_HW_MAX) (N + 1) (devAfterSetup io p d))
  unfold readsAt at a1 a2 b1 b2 ⊢
  unfold calibrationLog
  simp only [List.filter_append, a1, a2, b1, b2]
  constructor <;> simp [calibrationHead, Event.isReadAt]

/-- C14: for every register backend on which, after the six setup writes of
`scpll_init(p)`, the LUT slot (offset `0x5C`) reads zero for the first `N`
reads and non-zero at the next one, and bit 1 of the status register (offset
`0x10`) then reads set for the first `M` reads and clear at the next one,
`scpll_init` (with any bound on reads above `N` and `M`) returns, and its
events are: the setup with its six writes, exactly `N + 1` reads of the LUT
slot, then exactly `M + 1` reads of the status register, and only then, as the
last event, the write of `SCPLL_POWER_DOWN` to CTL.  The seven writes are
those of the calibration sequence, so the power-down state is written once, at
the end; the slot polled is the one cleared by the second write. -/
theorem scpll_init_poll_counts {σ : Type} (io : RegBackend σ) (p : scplls) (h : Hw σ)
    (N M fuel : Nat) (hN : N < fuel) (hM : M < fuel)
    (hlut0 : ∀ i, i < N →
      readValue io (sc_pll_base p + 0x5C) i (devAfterSetup io p h.dev) = 0)
    (hlut1 : readValue io (sc_pll_base p + 0x5C) N (devAfterSetup io p h.dev) ≠ 0)
    (hst0 : ∀ j, j < M →
      readValue io (sc_pll_base p + 0x10) j
        (afterReads io (sc_pll_base p + 0x5C) (N + 1) (devAfterSetup io p h.dev))
        &&& 0x2 ≠ 0)
    (hst1 : readValue io (sc_pll_base p + 0x10) M
        (afterReads io (sc_pll_base p + 0x5C) (N + 1) (devAfterSetup io p h.dev))
        &&& 0x2 = 0) :
    scpll_init io fuel p h = some
      { dev := devAfterCalibration io p N M h.dev
        log := h.log ++ calibrationLog io p N M h.dev } ∧
    calibrationLog io p N M h.dev =
      calibrationHead p ++
        pollEvents io (sc_pll_base p + 0x5C) (N + 1) (devAfterSetup io p h.dev) ++
        [Event.printk (Msg.waitComplete p)] ++
        pollEvents io (sc_pll_base p + 0x10) (M + 1)
          (afterReads io (sc_pll_base p + 0x5C) (N + 1) (devAfterSetup io p h.dev)) ++
        [Event.printk (Msg.disable p),
          Event.writel SCPLL_POWER_DOWN (sc_pll_base p + 0x4)] ∧
    (readsAt (sc_pll_base p + 0x5C) (calibrationLog io p N M h.dev)).length = N + 1 ∧
    (readsAt (sc_pll_base p + 0x10) (calibrationLog io p N M h.dev)).length = M + 1 ∧
    writes (calibrationLog io p N M h.dev) = calibrationWrites p ∧
    (writes (calibrationLog io p N M h.dev)).get? 1
      = some (Event.writel 0 (sc_pll_base p + 0x5C)) := by
  have hr := readsAt_calibrationLog io p N M h.dev
  have hw := writes_calibrationLog io p N M h.dev
  have hrun := scpll_init_run io p h N M fuel hN hM hlut0 hlut1 hst0 hst1
  refine ⟨?_, rfl, ?_, ?_, hw, ?_⟩
  · rw [hrun]
    simp [devAfterCalibration, calibrationLog, List.append_assoc]
  · have := hr.1
    rw [show sc_pll_base p + SCPLL_LUT_A_HW_MAX = sc_pll_base p + 0x5C from rfl] at this
    rw [this, pollEvents_length]
  · have := hr.2
    rw [show sc_pll_base p + SCPLL_STATUS_OFFSET = sc_pll_base p + 0x10 from rfl] at this
    rw [this, pollEvents_length]
  · rw [hw]
    rfl

/-- C14, witness: `scpll_init(CPU0)` on the simulated backend, where the LUT
slot reads zero twice and the status bit reads set twice (`N = M = 2`). -/
theorem scpll_init_poll_counts_simDev :
    (2 < 10 ∧ 2 < 10) ∧
    (∀ i, i < 2 → readValue simDev (sc_pll_base scplls.CPU0 + 0x5C) i
      (devAfterSetup simDev scplls.CPU0 (Hw.mk 0 []).dev) = 0) ∧
    readValue simDev (sc_pll_base scplls.CPU0 + 0x5C) 2
      (devAfterSetup simDev scplls.CPU0 (Hw.mk 0 []).dev) ≠ 0 ∧
    (∀ j, j < 2 → readValue simDev (sc_pll_base scplls.CPU0 + 0x10) j
      (afterReads simDev (sc_pll_base scplls.CPU0 + 0x5C) (2 + 1)
        (devAfterSetup simDev scplls.CPU0 (Hw.mk 0 []).dev)) &&& 0x2 ≠ 0) ∧
    readValue simDev (sc_pll_base scplls.CPU0 + 0x10) 2
      (afterReads simDev (sc_pll_base scplls.CPU0 + 0x5C) (2 + 1)
        (devAfterSetup simDev scplls.CPU0 (Hw.mk 0 []).dev)) &&& 0x2 = 0 ∧
    (scpll_init simDev 10 scplls.CPU0 (Hw.mk 0 []) = some
      { dev := devAfterCalibration simDev scplls.CPU0 2 2 (Hw.mk 0 []).dev
        log := (Hw.mk 0 []).log ++ calibrationLog simDev scplls.CPU0 2 2 (Hw.mk 0 []).dev } ∧
     calibrationLog simDev scplls.CPU0 2 2 (Hw.mk 0 []).dev =
      calibrationHead scplls.CPU0 ++
        pollEvents simDev (sc_pll_base scplls.CPU0 + 0x5C) (2 + 1)
          (devAfterSetup simDev scplls.CPU0 (Hw.mk 0 []).dev) ++
        [Event.printk (Msg.waitComplete scplls.CPU0)] ++
        pollEvents simDev (sc_pll_base scplls.CPU0 + 0x10) (2 + 1)
          (afterReads simDev (sc_pll_base scplls.CPU0 + 0x5C) (2 + 1)
            (devAfterSetup simDev scplls.CPU0 (Hw.mk 0 []).dev)) ++
        [Event.printk (Msg.disable scplls.CPU0),
          Event.writel SCPLL_POWER_DOWN (sc_pll_base scplls.CPU0 + 0x4)] ∧
     (readsAt (sc_pll_base scplls.CPU0 + 0x5C)
        (calibrationLog simDev scplls.CPU0 2 2 (Hw.mk 0 []).dev)).length = 2 + 1 ∧
     (readsAt (sc_pll_base scplls.CPU0 + 0x10)
        (calibrationLog simDev scplls.CPU0 2 2 (Hw.mk 0 []).dev)).length = 2 + 1 ∧
     writes (calibrationLog simDev scplls.CPU0 2 2 (Hw.mk 0 []).dev)
        = calibrationWrites scplls.CPU0 ∧
     (writes (calibrationLog simDev scplls.CPU0 2 2 (Hw.mk 0 []).dev)).get? 1
        = some (Event.writel 0 (sc_pll_base scplls.CPU0 + 0x5C))) :=
  ⟨by decide, by decide, by decide, by decide, by decide,
    scpll_init_poll_counts simDev scplls.CPU0 (Hw.mk 0 []) 2 2 10 (by decide) (by decide)
      (by decide) (by decide) (by decide) (by decide)⟩

/-! ## Candidates of the table scan -/

theorem tableCandidates_first (mem : Mem) (fuel scan : Nat) (hlt : scan < SCAN_END) :
    (tableCandidates mem (fuel + 1) scan).head? = some (scan + 1) := by
  simp only [tableCandidates, hlt, if_true]
  split <;> rfl

theorem write32_far (mem : Mem) (a v x : Nat) (h : x < a ∨ a + 4 ≤ x) :
    write32 mem a v x = mem x := by
  simp only [write32]
  rw [if_neg (by omega), if_neg (by omega), if_neg (by omega), if_neg (by omega)]

theorem patchStores_far (l v table : Nat) (mem : Mem) (x : Nat)
    (hx : ¬ patchedByte table x) : patchStores l v table mem x = mem x := by
  unfold patchedByte at hx
  unfold patchStores
  rw [write32_far _ _ _ _ (by omega), write32_far _ _ _ _ (by omega),
    write32_far _ _ _ _ (by omega), write32_far _ _ _ _ (by omega),
    write32_far _ _ _ _ (by omega), write32_far _ _ _ _ (by omega)]

theorem tablePatch_far (l v table : Nat) (mem : Mem) (x : Nat)
    (hx : ¬ patchedByte table x) : tablePatch l v table mem x = mem x := by
  by_cases hg : acpuclk_khz mem table 17 = 1188000
  · rw [tablePatch_of_guard _ _ _ _ hg, patchStores_far _ _ _ _ _ hx]
  · rw [tablePatch_of_not_guard _ _ _ _ hg]

/-- A member of a record other than the six patched ones has none of its
bytes patched. -/
theorem other_member_unpatched (table i off k : Nat) (hoff : off % 4 = 0)
    (hlt : off < SIZEOF_ACPU_SPEED)
    (hother : ¬ ((i = 16 ∨ i = 17) ∧
      (off = OFF_ACPUCLK_KHZ ∨ off = OFF_L_VAL ∨ off = OFF_VDD_SC)))
    (hk : k < 4) : ¬ patchedByte table (fieldAddr table i off + k) := by
  simp only [patchedByte, fieldAddr, SIZEOF_ACPU_SPEED, OFF_ACPUCLK_KHZ, OFF_L_VAL,
    OFF_VDD_SC] at *
  omega

/-- C16: for every table state, divisor and voltage, the table patch changes
no byte outside the `acpuclk_khz`, `l_val` and `vdd_sc` members of records 16
and 17.  Hence every member (at a 4-byte offset `off` below the record size
44: `use_for_scaling[0]`, `use_for_scaling[1]`, `acpuclk_khz`, `pll`,
`acpuclk_src_sel`, `acpuclk_src_div`, `core_src_sel`, `l_val`, `l2_level`,
`vdd_sc`, `avsdscr_setting`) of every record `i` keeps its value, unless it is
one of those six; nothing is stored outside records 16 and 17, so no record is
added or removed. -/
theorem tablePatch_frame (scpll_l_val vdd_uv table : Nat) (mem : Mem) (i off x : Nat)
    (hoff : off % 4 = 0) (hlt : off < SIZEOF_ACPU_SPEED)
    (hother : ¬ ((i = 16 ∨ i = 17) ∧
      (off = OFF_ACPUCLK_KHZ ∨ off = OFF_L_VAL ∨ off = OFF_VDD_SC)))
    (hx : ¬ patchedByte table x) :
    read32 (tablePatch scpll_l_val vdd_uv table mem) (fieldAddr table i off)
      = read32 mem (fieldAddr table i off) ∧
    tablePatch scpll_l_val vdd_uv table mem x = mem x := by
  refine ⟨?_, tablePatch_far _ _ _ _ _ hx⟩
  have h0 := other_member_unpatched table i off 0 hoff hlt hother (by omega)
  have h1 := other_member_unpatched table i off 1 hoff hlt hother (by omega)
  have h2 := other_member_unpatched table i off 2 hoff hlt hother (by omega)
  have h3 := other_member_unpatched table i off 3 hoff hlt hother (by omega)
  unfold read32
  rw [tablePatch_far _ _ _ _ (fieldAddr table i off) h0,
    tablePatch_far _ _ _ _ _ h1, tablePatch_far _ _ _ _ _ h2, tablePatch_far _ _ _ _ _ h3]

/-- C16, witness: the patch of `tableMem` with the default parameters, where
the guard passes: the `pll` member (offset 12) of record 17 and the byte just
before record 16 are unchanged. -/
theorem tablePatch_frame_tableMem :
    12 % 4 = 0 ∧ 12 < SIZEOF_ACPU_SPEED ∧
    ¬ ((17 = 16 ∨ 17 = 17) ∧ (12 = OFF_ACPUCLK_KHZ ∨ 12 = OFF_L_VAL ∨ 12 = OFF_VDD_SC)) ∧
    ¬ patchedByte 0xc071b004 0xc071b2c3 ∧
    acpuclk_khz tableMem 0xc071b004 17 = 1188000 ∧
    (read32 (tablePatch 0x1C 1250000 0xc071b004 tableMem) (fieldAddr 0xc071b004 17 12)
        = read32 tableMem (fieldAddr 0xc071b004 17 12) ∧
     tablePatch 0x1C 1250000 0xc071b004 tableMem 0xc071b2c3 = tableMem 0xc071b2c3) :=
  ⟨by decide, by decide, by decide, by decide, by decide,
    tablePatch_frame 0x1C 1250000 0xc071b004 tableMem 17 12 0xc071b2c3 (by decide)
      (by decide) (by decide) (by decide)⟩

/-- C17: for every table whose record 17 does not have
`acpuclk_khz = 1188000`, the table patch step leaves memory exactly as it was:
no member of any record changes. -/
theorem tablePatch_skipped (scpll_l_val vdd_uv table : Nat) (mem : Mem)
    (hguard : acpuclk_khz mem table 17 ≠ 1188000) :
    tablePatch scpll_l_val vdd_uv table mem = mem :=
  tablePatch_of_not_guard scpll_l_val vdd_uv table mem hguard

/-- C17, witness: the table located in `sigMem`, whose record 17 is zero. -/
theorem tablePatch_skipped_sigMem :
    acpuclk_khz sigMem 0xc071b004 17 ≠ 1188000 ∧
    tablePatch 0x1C 1250000 0xc071b004 sigMem = sigMem :=
  ⟨by decide, tablePatch_skipped 0x1C 1250000 0xc071b004 sigMem (by decide)⟩

/-- C18: read as little-endian 32-bit words, `hex_1250mv` is 1250000
(`0x1312d0`), `hex_1450mv` is 1450000 (`0x162010`), `hex_1188mhz` is
1188000000 (`0x46cf7100`) and `hex_hugemhz` is 3000000000 (`0xb2d05e00`); the
voltage scan replaces the first by the second and the 1188 MHz scan the third
by the fourth, and each replacement value is strictly greater than the value
it replaces. -/
theorem hex_arrays_encode :
    read32 hex_1250mv 0 = 1250000 ∧ (1250000 : Nat) = 0x1312d0 ∧
    read32 hex_1450mv 0 = 1450000 ∧ (1450000 : Nat) = 0x162010 ∧
    read32 hex_1188mhz 0 = 1188000000 ∧ (1188000000 : Nat) = 0x46cf7100 ∧
    read32 hex_hugemhz 0 = 3000000000 ∧ (3000000000 : Nat) = 0xb2d05e00 ∧
    read32 hex_1250mv 0 < read32 hex_1450mv 0 ∧
    read32 hex_1188mhz 0 < read32 hex_hugemhz 0 := by
  decide

/-! ## The range of the byte-pattern scans -/

theorem startMem_headAt (b : Nat) (h : headAt hex_1188mhz startMem b) : b = 0xc0000000 := by
  have h0 := h.1
  by_contra hne
  have hz : startMem b ≠ hex_1188mhz 0 := by
    simp only [startMem]
    split_ifs <;> first | omega | decide
  exact hz h0

theorem pastEndMem_headAt (b : Nat) (h : headAt hex_1188mhz pastEndMem b) :
    b = 0xc1000000 := by
  have h0 := h.1
  by_contra hne
  have hz : pastEndMem b ≠ hex_1188mhz 0 := by
    simp only [pastEndMem]
    split_ifs <;> first | omega | decide
  exact hz h0

theorem startVMem_headAt (b : Nat) (h : headAt hex_1250mv startVMem b) :
    b = 0xc0000000 := by
  have h0 := h.1
  by_contra hne
  have hz : startVMem b ≠ hex_1250mv 0 := by
    simp only [startVMem]
    split_ifs <;> first | omega | decide
  exact hz h0

theorem pastEndVMem_headAt (b : Nat) (h : headAt hex_1250mv pastEndVMem b) :
    b = 0xc1000000 := by
  have h0 := h.1
  by_contra hne
  have hz : pastEndVMem b ≠ hex_1250mv 0 := by
    simp only [pastEndVMem]
    split_ifs <;> first | omega | decide
  exact hz h0

theorem straddleMem_headAt (b : Nat) (h : headAt hex_1188mhz straddleMem b) :
    b = 0xc0ffffff := by
  have h0 := h.1
  by_contra hne
  have hz : straddleMem b ≠ hex_1188mhz 0 := by
    simp only [straddleMem]
    split_ifs <;> first | omega | decide
  exact hz h0

/-- C19, counterexample.  `straddleMem` and `cutMem` agree on every byte below
`0xc1000000`, yet the 1188 MHz scan patches `straddleMem` at `0xc0ffffff` and
leaves `cutMem` alone: from a candidate inside the range it reads the bytes at
`0xc1000000 .. 0xc1000002`.  Moreover `startMem` holds the pattern at
`0xc0000000`, the first address of the range, and the scan finds nothing
there, while in `pastEndMem`, which agrees with `ffMem` below `0xc1000000`,
the scan patches the address `0xc1000000` itself.  The voltage scan behaves
the same way on `startVMem` and `pastEndVMem`. -/
theorem byte_scans_read_past_end :
    (∀ x, x < 0xc1000000 → straddleMem x = cutMem x) ∧
    freqScan cutMem = (cutMem, []) ∧
    freqScan straddleMem
      = (memcpy4 straddleMem 0xc0ffffff hex_hugemhz,
          [Event.printk (Msg.epicPwn 0xc0ffffff)]) ∧
    occursAt hex_1188mhz startMem 0xc0000000 ∧
    freqScan startMem = (startMem, []) ∧
    (∀ x, x < 0xc1000000 → pastEndMem x = ffMem x) ∧
    freqScan ffMem = (ffMem, []) ∧
    freqScan pastEndMem
      = (memcpy4 pastEndMem 0xc1000000 hex_hugemhz,
          [Event.printk (Msg.epicPwn 0xc1000000)]) ∧
    occursAt hex_1250mv startVMem 0xc0000000 ∧
    voltageScan startVMem = (startVMem, []) ∧
    pastEndVMem 0xc1000000 = 0xd0 ∧
    (voltageScan pastEndVMem).1 0xc1000000 = 0x10 := by
  refine ⟨?_, ?_, ?_, by decide, ?_, ?_, ?_, ?_, by decide, ?_, by decide, ?_⟩
  · intro x hx
    simp only [straddleMem, cutMem]
    by_cases h : x = 0xc0ffffff
    · simp [h]
    · rw [if_neg h, if_neg (by omega), if_neg (by omega), if_neg (by omega), if_neg h]
  · refine freqScan_none cutMem (fun b _ _ => ?_)
    exact accepts_false_of_second _ _ (fun x => by
      simp only [cutMem]
      split_ifs <;> decide) b
  · refine freqScan_found straddleMem 0xc0ffffff (by decide) (by decide) (by decide) ?_
    intro b _ hb
    rw [accepts_eq_false_iff]
    intro hh
    have := straddleMem_headAt b hh
    omega
  · refine freqScan_none startMem (fun b hb _ => ?_)
    rw [accepts_eq_false_iff]
    intro hh
    have := startMem_headAt b hh
    simp only [SCAN_START] at hb
    omega
  · intro x hx
    simp only [pastEndMem, ffMem]
    rw [if_neg (by omega), if_neg (by omega), if_neg (by omega), if_neg (by omega)]
  · exact freqScan_none ffMem (fun b _ _ =>
      accepts_false_of_first _ _ (fun x => by simp only [ffMem]; decide) b)
  · refine freqScan_found pastEndMem 0xc1000000 (by decide) (by decide) (by decide) ?_
    intro b _ hb
    rw [accepts_eq_false_iff]
    intro hh
    have := pastEndMem_headAt b hh
    omega
  · refine voltageScan_none startVMem (fun b hb _ => ?_)
    rw [accepts_eq_false_iff]
    intro hh
    have := startVMem_headAt b hh
    simp only [SCAN_START] at hb
    omega
  · have hnp : NoShortMatch pastEndVMem SCAN_START := by
      intro s _ _ hpre
      rw [pastEndVMem_headAt s hpre]
      decide
    have h := voltageScan_overwrites pastEndVMem hnp 0xc1000000 (by decide) (by decide)
      (by decide) 0 (by decide)
    rw [Nat.add_zero] at h
    rw [h]
    decide

/-- C19, amended: each byte-pattern scan examines every address strictly
between `0xc0000000` and `0xc1000000` as a candidate start address, in
ascending order.  For the 1188 MHz scan: the first such address `a` at which
the first three pattern bytes occur, when it carries the full pattern, is the
one reported and patched.  For the voltage scan (on memories without
three-byte-only matches): every such address `c` carrying the pattern is
patched.  The bytes compared at a candidate are the four bytes from it on,
whether or not they lie below `0xc1000000`: for the last candidates they lie
at or beyond the end address. -/
theorem byte_scans_cover_interior (mem : Mem) (a : Nat) (hlo : SCAN_START < a)
    (hhi : a < SCAN_END) (hocc : occursAt hex_1188mhz mem a)
    (hfirst : ∀ b, SCAN_START < b → b < a → ¬ headAt hex_1188mhz mem b)
    (vmem : Mem) (c : Nat) (hvlo : SCAN_START < c) (hvhi : c < SCAN_END)
    (hnp : NoShortMatch vmem SCAN_START) (hvocc : occursAt hex_1250mv vmem c)
    (i : Nat) (hi : i < 4) :
    freqScan mem = (memcpy4 mem a hex_hugemhz, [Event.printk (Msg.epicPwn a)]) ∧
    (voltageScan vmem).1 (c + i) = hex_1450mv i := by
  refine ⟨?_, voltageScan_overwrites vmem hnp c hvlo (by omega) hvocc i hi⟩
  exact freqScan_found mem a hlo (by omega) ((accepts_iff _ _ _).2 hocc.headAt)
    (fun b hb1 hb2 => (accepts_eq_false_iff _ _ _).2 (hfirst b hb1 hb2))

/-- C19, witness: the pattern of `straddleMem` at `0xc0ffffff`, the last
address below the end, whose last three bytes lie beyond the end address, and
the second occurrence in `twoMem`. -/
theorem byte_scans_cover_interior_straddle :
    SCAN_START < 0xc0ffffff ∧ 0xc0ffffff < SCAN_END ∧
    occursAt hex_1188mhz straddleMem 0xc0ffffff ∧
    (∀ b, SCAN_START < b → b < 0xc0ffffff → ¬ headAt hex_1188mhz straddleMem b) ∧
    SCAN_START < 0xc0000020 ∧ 0xc0000020 < SCAN_END ∧
    NoShortMatch twoMem SCAN_START ∧ occursAt hex_1250mv twoMem 0xc0000020 ∧ 1 < 4 ∧
    (freqScan straddleMem
        = (memcpy4 straddleMem 0xc0ffffff hex_hugemhz,
            [Event.printk (Msg.epicPwn 0xc0ffffff)]) ∧
     (voltageScan twoMem).1 (0xc0000020 + 1) = hex_1450mv 1) :=
  have hfirst : ∀ b, SCAN_START < b → b < 0xc0ffffff →
      ¬ headAt hex_1188mhz straddleMem b := by
    intro b _ hb hh
    have := straddleMem_headAt b hh
    omega
  ⟨by decide, by decide, by decide, hfirst, by decide, by decide, twoMem_noShortMatch,
    by decide, by decide,
    byte_scans_cover_interior straddleMem 0xc0ffffff (by decide) (by decide) (by decide)
      hfirst twoMem 0xc0000020 (by decide) (by decide) twoMem_noShortMatch (by decide) 1
      (by decide)⟩

/-! ## `scpll_init` stays within its register block -/

theorem waitCalStart_inv {σ : Type} (io : RegBackend σ) (addr : Nat) (Inv : σ → Prop)
    (hr : ∀ d, Inv d → Inv (io.readl d addr).2) :
    ∀ (fuel : Nat) (h h' : Hw σ), waitCalStart io addr fuel h = some h' →
      Inv h.dev → Inv h'.dev := by
  intro fuel
  induction fuel with
  | zero => intro h h' hrun; simp [waitCalStart] at hrun
  | succ n ih =>
    intro h h' hrun hinv
    simp only [waitCalStart] at hrun
    split at hrun
    · exact ih _ _ hrun (hr _ hinv)
    · cases hrun
      exact hr _ hinv

theorem waitCalDone_inv {σ : Type} (io : RegBackend σ) (addr : Nat) (Inv : σ → Prop)
    (hr : ∀ d, Inv d → Inv (io.readl d addr).2) :
    ∀ (fuel : Nat) (h h' : Hw σ), waitCalDone io addr fuel h = some h' →
      Inv h.dev → Inv h'.dev := by
  intro fuel
  induction fuel with
  | zero => intro h h' hrun; simp [waitCalDone] at hrun
  | succ n ih =>
    intro h h' hrun hinv
    simp only [waitCalDone] at hrun
    split at hrun
    · exact ih _ _ hrun (hr _ hinv)
    · cases hrun
      exact hr _ hinv

/-- A property of the device that every access within the block of instance
`p` preserves is preserved by `scpll_init(p)`. -/
theorem scpll_init_inv {σ : Type} (io : RegBackend σ) (fuel : Nat) (p : scplls)
    (Inv : σ → Prop)
    (hw : ∀ d val off, off < 0x100 → Inv d → Inv (io.writel d val (sc_pll_base p + off)))
    (hr : ∀ d off, off < 0x100 → Inv d → Inv (io.readl d (sc_pll_base p + off)).2)
    (h h' : Hw σ) (hrun : scpll_init io fuel p h = some h') (hinv : Inv h.dev) :
    Inv h'.dev := by
  simp only [scpll_init] at hrun
  split at hrun
  · cases hrun
  · rename_i h1 hw1
    split at hrun
    · cases hrun
    · rename_i h2 hw2
      cases hrun
      have i1 := waitCalStart_inv io _ Inv (fun d => hr d SCPLL_LUT_A_HW_MAX (by decide))
        fuel _ _ hw1
        (hw _ _ SCPLL_CTL_OFFSET (by decide) (hw _ _ SCPLL_CAL_OFFSET (by decide)
          (hw _ _ SCPLL_CTL_OFFSET (by decide) (hw _ _ SCPLL_DEBUG_OFFSET (by decide)
            (hw _ _ SCPLL_LUT_A_HW_MAX (by decide)
              (hw _ _ SCPLL_DEBUG_OFFSET (by decide) hinv))))))
      have i2 := waitCalDone_inv io _ Inv (fun d => hr d SCPLL_STATUS_OFFSET (by decide))
        fuel _ _ hw2 i1
      exact hw _ _ SCPLL_CTL_OFFSET (by decide) i2

theorem block_ne (p q : scplls) (hq : q ≠ p) (off off' : Nat) (h : off < 0x100)
    (h' : off' < 0x100) :
    (sc_pll_base q + off) / 0x100 ≠ (sc_pll_base p + off') / 0x100 := by
  cases p <;> cases q <;> simp [sc_pll_base, MSM_SCPLL_BASE] at hq ⊢ <;> omega

theorem fileCal_eq : scpll_init fileDev 10 scplls.CPU0 fileInit = some fileCal := by
  apply eq_some_getD
  decide

theorem fileDev_local_write (d : Nat → Nat) (v a x : Nat) (h : x / 0x100 ≠ a / 0x100) :
    (fileDev.writel d v a) x = d x := by
  simp only [fileDev]
  rw [if_neg (by rintro rfl; exact h rfl), if_neg (by omega)]

/-- C20: for every PLL instance `p` and every register backend, each register
write issued by a completed `scpll_init(p)` goes to one of the four addresses
`sc_pll_base[p] + {0x0, 0x4, 0x8, 0x5C}`.  The blocks of CPU0, CPU1 and L2 lie
`0x100` apart, so no such write addresses a register (offset below `0x100`) of
another instance `q`; and on a backend whose accesses change the register
contents `regs` only within the `0x100` block of the address accessed, the
registers of `q` hold after the call what they held before. -/
theorem scpll_init_writes_own_block {σ : Type} (io : RegBackend σ) (fuel : Nat)
    (p q : scplls) (h h' : Hw σ) (hrun : scpll_init io fuel p h = some h')
    (val addr off : Nat) (hwr : Event.writel val addr ∈ h'.log)
    (hnew : Event.writel val addr ∉ h.log) (hq : q ≠ p) (hoff : off < 0x100)
    (regs : σ → Nat → Nat)
    (hlocw : ∀ d v a x, x / 0x100 ≠ a / 0x100 → regs (io.writel d v a) x = regs d x)
    (hlocr : ∀ d a x, x / 0x100 ≠ a / 0x100 → regs (io.readl d a).2 x = regs d x) :
    (addr = sc_pll_base p + 0x0 ∨ addr = sc_pll_base p + 0x4 ∨
      addr = sc_pll_base p + 0x8 ∨ addr = sc_pll_base p + 0x5C) ∧
    addr ≠ sc_pll_base q + off ∧
    sc_pll_base scplls.CPU1 = sc_pll_base scplls.CPU0 + 0x100 ∧
    sc_pll_base scplls.L2 = sc_pll_base scplls.CPU1 + 0x100 ∧
    regs h'.dev (sc_pll_base q + off) = regs h.dev (sc_pll_base q + off) := by
  have hws := scpll_init_writes_eq io fuel p h h' hrun
  have hin : Event.writel val addr ∈ writes h'.log := by
    unfold writes
    rw [List.mem_filter]
    exact ⟨hwr, rfl⟩
  rw [hws, List.mem_append] at hin
  have hcw : Event.writel val addr ∈ calibrationWrites p := by
    rcases hin with hold | hcw
    · unfold writes at hold
      rw [List.mem_filter] at hold
      exact absurd hold.1 hnew
    · exact hcw
  have haddr : addr = sc_pll_base p + 0x0 ∨ addr = sc_pll_base p + 0x4 ∨
      addr = sc_pll_base p + 0x8 ∨ addr = sc_pll_base p + 0x5C := by
    simp only [calibrationWrites, List.mem_cons, List.mem_singleton, Event.writel.injEq,
      List.not_mem_nil, or_false] at hcw
    rcases hcw with h1 | h1 | h1 | h1 | h1 | h1 | h1
    · exact Or.inl h1.2
    · exact Or.inr (Or.inr (Or.inr h1.2))
    · exact Or.inl h1.2
    · exact Or.inr (Or.inl h1.2)
    · exact Or.inr (Or.inr (Or.inl h1.2))
    · exact Or.inr (Or.inl h1.2)
    · exact Or.inr (Or.inl h1.2)
  refine ⟨haddr, ?_, by decide, by decide, ?_⟩
  · intro heq
    have hb : ∀ o, o < 0x100 → (sc_pll_base q + off) / 0x100 ≠ (sc_pll_base p + o) / 0x100 :=
      fun o ho => block_ne p q hq off o hoff ho
    rcases haddr with h1 | h1 | h1 | h1
    · exact hb 0x0 (by decide) (by rw [← heq, h1])
    · exact hb 0x4 (by decide) (by rw [← heq, h1])
    · exact hb 0x8 (by decide) (by rw [← heq, h1])
    · exact hb 0x5C (by decide) (by rw [← heq, h1])
  · exact scpll_init_inv io fuel p
      (fun d => regs d (sc_pll_base q + off) = regs h.dev (sc_pll_base q + off))
      (fun d v o ho hd => (hlocw d v _ _ (block_ne p q hq off o hoff ho)).trans hd)
      (fun d o ho hd => (hlocr d _ _ (block_ne p q hq off o hoff ho)).trans hd)
      h h' hrun rfl

/-- C20, witness: `scpll_init(CPU0)` on the register file `fileDev`; the
unlock write goes to `sc_pll_base[CPU0] + 0x0`, and the LUT slot of L2 is
untouched. -/
theorem scpll_init_writes_own_block_fileDev :
    scpll_init fileDev 10 scplls.CPU0 fileInit = some fileCal ∧
    Event.writel 3 0xFA018200 ∈ fileCal.log ∧
    Event.writel 3 0xFA018200 ∉ fileInit.log ∧
    scplls.L2 ≠ scplls.CPU0 ∧ 0x5C < 0x100 ∧
    (∀ d v a x, x / 0x100 ≠ a / 0x100 → fileRegs (fileDev.writel d v a) x = fileRegs d x) ∧
    (∀ d a x, x / 0x100 ≠ a / 0x100 → fileRegs (fileDev.readl d a).2 x = fileRegs d x) ∧
    ((0xFA018200 = sc_pll_base scplls.CPU0 + 0x0 ∨ 0xFA018200 = sc_pll_base scplls.CPU0 + 0x4 ∨
        0xFA018200 = sc_pll_base scplls.CPU0 + 0x8 ∨
        0xFA018200 = sc_pll_base scplls.CPU0 + 0x5C) ∧
     0xFA018200 ≠ sc_pll_base scplls.L2 + 0x5C ∧
     sc_pll_base scplls.CPU1 = sc_pll_base scplls.CPU0 + 0x100 ∧
     sc_pll_base scplls.L2 = sc_pll_base scplls.CPU1 + 0x100 ∧
     fileRegs fileCal.dev (sc_pll_base scplls.L2 + 0x5C)
       = fileRegs fileInit.dev (sc_pll_base scplls.L2 + 0x5C)) :=
  have hw : Event.writel 3 0xFA018200 ∈ fileCal.log := by decide
  have hn : Event.writel 3 0xFA018200 ∉ fileInit.log := by decide
  have hlw : ∀ d v a x, x / 0x100 ≠ a / 0x100 →
      fileRegs (fileDev.writel d v a) x = fileRegs d x :=
    fun d v a x h => fileDev_local_write d v a x h
  have hlr : ∀ d a x, x / 0x100 ≠ a / 0x100 →
      fileRegs (fileDev.readl d a).2 x = fileRegs d x :=
    fun _ _ _ _ => rfl
  ⟨fileCal_eq, hw, hn, by decide, by decide, hlw, hlr,
    scpll_init_writes_own_block fileDev 10 scplls.CPU0 scplls.L2
      fileInit fileCal fileCal_eq 3 0xFA018200 0x5C hw hn (by decide)
      (by decide) fileRegs hlw hlr⟩

/-! ## The first address of the table scan -/

theorem firstMem_signature_unique (b : Nat) (h : signature firstMem b = true) :
    b = 0xc071b000 := by
  have hb := signature_byte firstMem b h
  by_contra hne
  have hz : firstMem (b + 9) ≠ 0xee := by
    simp only [firstMem]
    split_ifs <;> first | omega | decide
  exact hz hb

/-- C4, the code at the failing input: in `firstMem` exactly one address
starts three records whose `acpuclk_khz` members are 192000, 310500 and
384000, namely `0xc071b000`, the first address of the range
`0xc071b000 .. 0xc0ffffff` named by `scan = 0xc071b000` and
`while(scan < 0xc1000000)`.  Because `scan++` precedes the test, that address
is never examined: the first candidate is `0xc071b001`, the scan prints no
match and ends with `table = 0xc1000000`, not `0xc071b000`. -/
theorem tableScan_misses_first_address :
    TABLE_SCAN_START = 0xc071b000 ∧
    isTableStart firstMem 0xc071b000 ∧
    (∀ b, isTableStart firstMem b → b = 0xc071b000) ∧
    (tableCandidates firstMem (SCAN_END - TABLE_SCAN_START) TABLE_SCAN_START).head?
      = some 0xc071b001 ∧
    tableScan firstMem 0 = (0xc1000000, []) ∧
    (tableScan firstMem 0).1 ≠ 0xc071b000 := by
  have hscan : tableScan firstMem 0 = (0xc1000000, []) :=
    tableScan_none firstMem 0 (fun b hb _ => by
      cases hs : signature firstMem b with
      | false => rfl
      | true =>
        have := firstMem_signature_unique b hs
        simp only [TABLE_SCAN_START] at hb
        omega)
  refine ⟨rfl, by decide, ?_, ?_, hscan, ?_⟩
  · intro b hb
    exact firstMem_signature_unique b ((signature_iff firstMem b).2 hb)
  · have hfuel : SCAN_END - TABLE_SCAN_START = 9326591 + 1 := by decide
    rw [hfuel]
    exact tableCandidates_first firstMem 9326591 TABLE_SCAN_START (by decide)
  · rw [hscan]
    decide

/-! ## The cpufreq objects in the scanned memory -/

theorem oc_khz_lt (l : Nat) : oc_khz l < 2 ^ 32 := by
  rw [oc_khz_eq_mod]
  exact Nat.mod_lt _ (by decide)

theorem apart_symm {a b : Nat} (h : apart a b) : apart b a := Or.symm h

/-- The stores to the cpufreq objects keep a property of bytes that holds of
the memory and of the bytes of the stored words. -/
theorem cpufreqStores_byte (P : Byte → Prop) (l : Nat) (A : CpufreqAddrs) (mem : Mem)
    (x : Nat) (hm : P (mem x))
    (hk : ∀ w, w = oc_khz l ∨ w = 1188000 ∨ w = 192000 ∨ w = 384000 →
      P (Fin.ofNat w) ∧ P (Fin.ofNat (w / 256)) ∧ P (Fin.ofNat (w / 65536)) ∧
        P (Fin.ofNat (w / 16777216))) :
    P (cpufreqStores l A mem x) := by
  unfold cpufreqStores
  have k1 := hk (oc_khz l) (by simp)
  have k2 := hk 1188000 (by simp)
  have k3 := hk 192000 (by simp)
  have k4 := hk 384000 (by simp)
  refine write32_byte P _ _ _ _ ?_ k2.1 k2.2.1 k2.2.2.1 k2.2.2.2
  refine write32_byte P _ _ _ _ ?_ k4.1 k4.2.1 k4.2.2.1 k4.2.2.2
  refine write32_byte P _ _ _ _ ?_ k1.1 k1.2.1 k1.2.2.1 k1.2.2.2
  refine write32_byte P _ _ _ _ ?_ k3.1 k3.2.1 k3.2.2.1 k3.2.2.2
  refine write32_byte P _ _ _ _ ?_ k2.1 k2.2.1 k2.2.2.1 k2.2.2.2
  refine write32_byte P _ _ _ _ ?_ k2.1 k2.2.1 k2.2.2.1 k2.2.2.2
  refine write32_byte P _ _ _ _ ?_ k1.1 k1.2.1 k1.2.2.1 k1.2.2.2
  exact write32_byte P _ _ _ _ hm k1.1 k1.2.1 k1.2.2.1 k1.2.2.2

/-- A byte outside the eight stored words is left alone by the stores to the
cpufreq objects. -/
theorem cpufreqStores_far (l : Nat) (A : CpufreqAddrs) (mem : Mem) (x : Nat)
    (h : ∀ s ∈ [A.ft0_16, A.ft1_16, A.ft0_15, A.ft1_15, A.cpuinfo_min_freq,
      A.cpuinfo_max_freq, A.min, A.max], x < s ∨ s + 4 ≤ x) :
    cpufreqStores l A mem x = mem x := by
  unfold cpufreqStores
  rw [write32_far _ _ _ _ (h _ (by simp)), write32_far _ _ _ _ (h _ (by simp)),
    write32_far _ _ _ _ (h _ (by simp)), write32_far _ _ _ _ (h _ (by simp)),
    write32_far _ _ _ _ (h _ (by simp)), write32_far _ _ _ _ (h _ (by simp)),
    write32_far _ _ _ _ (h _ (by simp)), write32_far _ _ _ _ (h _ (by simp))]

/-- Under the layout condition the stores to the cpufreq objects leave
`oc_khz` in both slots 16 and 1188000 in both slots 15, and do not change the
`acpuclk_khz` members of records 16 and 17. -/
theorem cpufreqStores_slots (l : Nat) (A : CpufreqAddrs) (mem : Mem) (table : Nat)
    (h : A.clear table) :
    read32 (cpufreqStores l A mem) A.ft0_16 = oc_khz l ∧
    read32 (cpufreqStores l A mem) A.ft1_16 = oc_khz l ∧
    read32 (cpufreqStores l A mem) A.ft0_15 = 1188000 ∧
    read32 (cpufreqStores l A mem) A.ft1_15 = 1188000 ∧
    acpuclk_khz (cpufreqStores l A mem) table 16 = acpuclk_khz mem table 16 ∧
    acpuclk_khz (cpufreqStores l A mem) table 17 = acpuclk_khz mem table 17 := by
  obtain ⟨hE, hS, h16, h15, hP⟩ := h
  have hoc : oc_khz l % 2 ^ 32 = oc_khz l := Nat.mod_eq_of_lt (oc_khz_lt l)
  have hp : ∀ p ∈ [A.cpuinfo_min_freq, A.cpuinfo_max_freq, A.min, A.max],
      ∀ w ∈ comparedWords A table, ∀ (m : Mem) (val : Nat),
        read32 (write32 m p val) w = read32 m w := fun p hp w hw m val =>
    read32_write32_disjoint m p w val (hP p hp w hw)
  have hpol : ∀ w ∈ comparedWords A table, ∀ m : Mem,
      read32 (write32 (write32 (write32 (write32 m A.cpuinfo_min_freq 192000)
        A.cpuinfo_max_freq (oc_khz l)) A.min 384000) A.max 1188000) w = read32 m w := by
    intro w hw m
    rw [hp A.max (by simp) w hw, hp A.min (by simp) w hw,
      hp A.cpuinfo_max_freq (by simp) w hw, hp A.cpuinfo_min_freq (by simp) w hw]
  simp only [cpufreqStores, acpuclk_khz]
  refine ⟨?_, ?_, ?_, ?_, ?_, ?_⟩
  · rw [hpol _ (by simp [comparedWords]),
      read32_write32_disjoint _ _ _ _ (apart_symm (hS _ (by simp) _ (by simp))),
      read32_write32_disjoint _ _ _ _ (apart_symm (hS _ (by simp) _ (by simp)))]
    rcases h16 with e | e
    · rw [← e, read32_write32_same, hoc]
    · rw [read32_write32_disjoint _ _ _ _ (apart_symm e), read32_write32_same, hoc]
  · rw [hpol _ (by simp [comparedWords]),
      read32_write32_disjoint _ _ _ _ (apart_symm (hS _ (by simp) _ (by simp))),
      read32_write32_disjoint _ _ _ _ (apart_symm (hS _ (by simp) _ (by simp))),
      read32_write32_same, hoc]
  · rw [hpol _ (by simp [comparedWords])]
    rcases h15 with e | e
    · rw [← e, read32_write32_same]
      decide
    · rw [read32_write32_disjoint _ _ _ _ (apart_symm e), read32_write32_same]
      decide
  · rw [hpol _ (by simp [comparedWords]), read32_write32_same]
    decide
  · rw [hpol _ (by simp [comparedWords]),
      read32_write32_disjoint _ _ _ _ (hE _ (by simp) _ (by simp)),
      read32_write32_disjoint _ _ _ _ (hE _ (by simp) _ (by simp)),
      read32_write32_disjoint _ _ _ _ (hE _ (by simp) _ (by simp)),
      read32_write32_disjoint _ _ _ _ (hE _ (by simp) _ (by simp))]
  · rw [hpol _ (by simp [comparedWords]),
      read32_write32_disjoint _ _ _ _ (hE _ (by simp) _ (by simp)),
      read32_write32_disjoint _ _ _ _ (hE _ (by simp) _ (by simp)),
      read32_write32_disjoint _ _ _ _ (hE _ (by simp) _ (by simp)),
      read32_write32_disjoint _ _ _ _ (hE _ (by simp) _ (by simp))]

/-- The local `table` of `overclock_init_mem` is the result of the table scan
on the memory left by the voltage scan, and the final memory is the result of
the last scan on `memBeforeLastScan`. -/
theorem overclock_init_mem_eq (l v : Nat) (A : CpufreqAddrs) (table0 : Nat) (mem : Mem) :
    overclock_init_mem l v A table0 mem
      = ((tableScan (voltageScan mem).1 table0).1,
          (freqScan (memBeforeLastScan l v A table0 mem)).1) := rfl

/-- A completed run of `overclock_init` ends with the same `table` as
`overclock_init_mem` started from the same memory and the same `table`. -/
theorem overclock_init_mem_table {σ : Type} (io : RegBackend σ) (fuel l v : Nat)
    (A : CpufreqAddrs) (s s' : State σ) (hrun : overclock_init io fuel l v s = some s') :
    s'.table = (overclock_init_mem l v A s.table s.mem).1 := by
  obtain ⟨_, _, _, _, _, _, htable, _⟩ := overclock_init_some io fuel l v s s' hrun
  rw [htable]
  rfl

theorem sigMem_stored_no_71 (x : Nat) :
    cpufreqStores 0x1C simAddrs sigMem x ≠ hex_1188mhz 1 := by
  refine cpufreqStores_byte (fun b => b ≠ hex_1188mhz 1) _ _ _ _ (sigMem_no_71 x) ?_
  intro w hw
  rcases hw with rfl | rfl | rfl | rfl <;> decide

/-- The run of `overclock_init_mem` over `sigMem` with the default parameters
and the cpufreq objects at `simAddrs`: the table is located at `0xc071b004`,
nothing is patched, and the final memory is `sigMem` after the stores to the
cpufreq objects. -/
theorem overclock_init_mem_sigMem :
    overclock_init_mem 0x1C 1250000 simAddrs 0 sigMem
      = (0xc071b004, cpufreqStores 0x1C simAddrs sigMem) := by
  have hv : voltageScan sigMem = (sigMem, []) :=
    voltageScan_none sigMem (fun b _ _ => accepts_false_of_first _ _ sigMem_no_d0 b)
  have ht : tableScan sigMem 0 = (0xc071b004, [Event.printk (Msg.epicPwn 0xc071b004)]) :=
    tableScan_found sigMem 0xc071b004 0 (by decide) (by decide) (by decide)
      (fun b _ hb => by
        cases hs : signature sigMem b with
        | false => rfl
        | true =>
          have := sigMem_signature_unique b hs
          omega)
  have hp : tablePatch 0x1C 1250000 0xc071b004 sigMem = sigMem :=
    tablePatch_of_not_guard _ _ _ _ (by decide)
  have hf : freqScan (cpufreqStores 0x1C simAddrs sigMem)
      = (cpufreqStores 0x1C simAddrs sigMem, []) :=
    freqScan_none _ (fun b _ _ => accepts_false_of_second _ _ sigMem_stored_no_71 b)
  rw [overclock_init_mem_eq]
  unfold memBeforeLastScan
  rw [hv, ht]
  show (0xc071b004, (freqScan (cpufreqStores 0x1C simAddrs
    (tablePatch 0x1C 1250000 0xc071b004 sigMem))).1) = _
  rw [hp, hf]

/-- C12, counterexample: `overclock_init_mem` over `sigMem` with the default
parameters and the cpufreq objects at `simAddrs`, which overlap neither one
another nor the table.  The table is located at `0xc071b004`, its record 17
has `acpuclk_khz = 0`, so the guard fails and the table is not patched, while
slot 16 of the cpufreq table of each CPU is set to 1512000 and slot 15 to
1188000: in the final memory the slots differ from
`table[17].acpuclk_khz = 0` and `table[16].acpuclk_khz = 0`. -/
theorem policy_slots_differ_when_guard_fails :
    simAddrs.clear 0xc071b004 ∧
    (overclock_init_mem 0x1C 1250000 simAddrs 0 sigMem).1 = 0xc071b004 ∧
    acpuclk_khz (overclock_init_mem 0x1C 1250000 simAddrs 0 sigMem).2 0xc071b004 17 = 0 ∧
    acpuclk_khz (overclock_init_mem 0x1C 1250000 simAddrs 0 sigMem).2 0xc071b004 16 = 0 ∧
    read32 (overclock_init_mem 0x1C 1250000 simAddrs 0 sigMem).2 simAddrs.ft0_16
      = 1512000 ∧
    read32 (overclock_init_mem 0x1C 1250000 simAddrs 0 sigMem).2 simAddrs.ft1_16
      = 1512000 ∧
    read32 (overclock_init_mem 0x1C 1250000 simAddrs 0 sigMem).2 simAddrs.ft0_15
      = 1188000 ∧
    read32 (overclock_init_mem 0x1C 1250000 simAddrs 0 sigMem).2 simAddrs.ft1_15
      = 1188000 := by
  rw [overclock_init_mem_sigMem]
  decide

/-- C12, amended: for every initial memory, every pair of parameters and
every placement of the cpufreq objects in the memory such that (1) the
located table passes the pre-patch check (`table[17].acpuclk_khz = 1188000`
in the memory left by the voltage scan), (2) the words of slots 15 and 16 of
the two cpufreq tables overlap neither the `acpuclk_khz` members of records
16 and 17 nor, unless they coincide, one another, and none of the four stores
to the policy overlaps any of these six words, and (3) the four bytes that
the final 1188 MHz scan patches, if it reports a match, overlap none of the
six words: in the final memory slot 16 of each CPU's cpufreq table equals
`table[17].acpuclk_khz` and slot 15 equals `table[16].acpuclk_khz`. -/
theorem policy_slots_consistent (l v : Nat) (A : CpufreqAddrs) (table0 : Nat) (mem : Mem)
    (hguard : acpuclk_khz (voltageScan mem).1 (overclock_init_mem l v A table0 mem).1 17
      = 1188000)
    (hclear : A.clear (overclock_init_mem l v A table0 mem).1)
    (hscan : ∀ a, (freqScan (memBeforeLastScan l v A table0 mem)).2
        = [Event.printk (Msg.epicPwn a)] →
      ∀ w ∈ comparedWords A (overclock_init_mem l v A table0 mem).1, apart a w) :
    read32 (overclock_init_mem l v A table0 mem).2 A.ft0_16
      = acpuclk_khz (overclock_init_mem l v A table0 mem).2
          (overclock_init_mem l v A table0 mem).1 17 ∧
    read32 (overclock_init_mem l v A table0 mem).2 A.ft1_16
      = acpuclk_khz (overclock_init_mem l v A table0 mem).2
          (overclock_init_mem l v A table0 mem).1 17 ∧
    read32 (overclock_init_mem l v A table0 mem).2 A.ft0_15
      = acpuclk_khz (overclock_init_mem l v A table0 mem).2
          (overclock_init_mem l v A table0 mem).1 16 ∧
    read32 (overclock_init_mem l v A table0 mem).2 A.ft1_15
      = acpuclk_khz (overclock_init_mem l v A table0 mem).2
          (overclock_init_mem l v A table0 mem).1 16 := by
  rw [overclock_init_mem_eq] at hguard hclear hscan ⊢
  simp only at hguard hclear hscan ⊢
  generalize htab : (tableScan (voltageScan mem).1 table0).1 = table at hguard hclear hscan
  have hmb : memBeforeLastScan l v A table0 mem
      = cpufreqStores l A (patchStores l v table (voltageScan mem).1) := by
    unfold memBeforeLastScan
    rw [htab, tablePatch_of_guard _ _ _ _ hguard]
  rw [hmb] at hscan ⊢
  obtain ⟨s0, s1, t0, t1, e16, e17⟩ :=
    cpufreqStores_slots l A (patchStores l v table (voltageScan mem).1) table hclear
  rw [patchStores_khz16] at e16
  rw [patchStores_khz17] at e17
  rcases freqScanLoop_cases (SCAN_END - SCAN_START) SCAN_START
      (cpufreqStores l A (patchStores l v table (voltageScan mem).1)) with
    h0 | ⟨a, _, _, _, h4⟩
  · have h0' : freqScan (cpufreqStores l A (patchStores l v table (voltageScan mem).1))
        = (cpufreqStores l A (patchStores l v table (voltageScan mem).1), []) := h0
    rw [h0']
    simp only
    rw [s0, s1, t0, t1, e16, e17]
    exact ⟨rfl, rfl, rfl, rfl⟩
  · have h4' : freqScan (cpufreqStores l A (patchStores l v table (voltageScan mem).1))
        = (memcpy4 (cpufreqStores l A (patchStores l v table (voltageScan mem).1)) a
            hex_hugemhz, [Event.printk (Msg.epicPwn a)]) := h4
    have hd := hscan a (by rw [h4'])
    rw [h4']
    simp only [acpuclk_khz] at e16 e17 ⊢
    rw [read32_memcpy4_disjoint _ _ _ _ (hd _ (by simp [comparedWords])),
      read32_memcpy4_disjoint _ _ _ _ (hd _ (by simp [comparedWords])),
      read32_memcpy4_disjoint _ _ _ _ (hd _ (by simp [comparedWords])),
      read32_memcpy4_disjoint _ _ _ _ (hd _ (by simp [comparedWords])),
      read32_memcpy4_disjoint _ _ _ _ (hd _ (by simp [comparedWords])),
      read32_memcpy4_disjoint _ _ _ _ (hd _ (by simp [comparedWords])),
      s0, s1, t0, t1, e16, e17]
    exact ⟨rfl, rfl, rfl, rfl⟩

theorem pairMem_no_d0 (x : Nat) : pairMem x ≠ hex_1250mv 0 := by
  unfold pairMem
  exact write32_byte (fun b => b ≠ hex_1250mv 0) _ _ _ _ (tableMem_no_d0 x) (by decide)
    (by decide) (by decide) (by decide)

theorem pairMem_signature_unique (b : Nat) (h : signature pairMem b = true) :
    b = 0xc071b004 := by
  have hb := signature_byte pairMem b h
  by_contra hne
  have hz : pairMem (b + 9) ≠ 0xee := by
    unfold pairMem tableMem bareMem
    refine write32_byte (fun c => c ≠ 0xee) _ _ _ _ ?_ (by decide) (by decide)
      (by decide) (by decide)
    refine write32_byte (fun c => c ≠ 0xee) _ _ _ _ ?_ (by decide) (by decide)
      (by decide) (by decide)
    refine write32_byte (fun c => c ≠ 0xee) _ _ _ _ ?_ (by decide) (by decide)
      (by decide) (by decide)
    exact write32_byte (fun c => c ≠ 0xee) _ _ _ _ (sigMem_ee _ (by omega)) (by decide)
      (by decide) (by decide) (by decide)
  exact hz hb

/-- In `pairMem`, after the table patch and the stores to the cpufreq objects
at `simAddrs`, the byte `0x71` occurs at `0xc0000021` only. -/
theorem pairMem_stored_71 (x : Nat)
    (h : cpufreqStores 0x1C simAddrs (patchStores 0x1C 1250000 0xc071b004 pairMem) x
      = hex_1188mhz 1) : x = 0xc0000021 := by
  revert h
  refine cpufreqStores_byte (fun c => c = hex_1188mhz 1 → x = 0xc0000021) _ _ _ _ ?_ ?_
  · refine patchStores_byte (fun c => c = hex_1188mhz 1 → x = 0xc0000021) _ _ _ _ _ ?_ ?_
    · unfold pairMem
      simp only [write32]
      split_ifs with h0 h1 h2 h3
      · intro h
        exact absurd h (by decide)
      · intro _
        exact h1
      · intro h
        exact absurd h (by decide)
      · intro h
        exact absurd h (by decide)
      · intro h
        exact absurd h (tableMem_no_71 x)
    · intro w hw
      rcases hw with rfl | rfl | rfl | rfl | rfl | rfl <;>
        exact ⟨fun h => absurd h (by decide), fun h => absurd h (by decide),
          fun h => absurd h (by decide), fun h => absurd h (by decide)⟩
  · intro w hw
    rcases hw with rfl | rfl | rfl | rfl <;>
      exact ⟨fun h => absurd h (by decide), fun h => absurd h (by decide),
        fun h => absurd h (by decide), fun h => absurd h (by decide)⟩

/-- The run of `overclock_init_mem` over `pairMem` with the default parameters
and the cpufreq objects at `simAddrs`: the voltage scan finds nothing, the
table is located at `0xc071b004` and patched, and the last scan reports the
pattern at `0xc0000020`. -/
theorem overclock_init_mem_pairMem :
    voltageScan pairMem = (pairMem, []) ∧
    (overclock_init_mem 0x1C 1250000 simAddrs 0 pairMem).1 = 0xc071b004 ∧
    memBeforeLastScan 0x1C 1250000 simAddrs 0 pairMem
      = cpufreqStores 0x1C simAddrs (patchStores 0x1C 1250000 0xc071b004 pairMem) ∧
    (freqScan (memBeforeLastScan 0x1C 1250000 simAddrs 0 pairMem)).2
      = [Event.printk (Msg.epicPwn 0xc0000020)] := by
  have hv : voltageScan pairMem = (pairMem, []) :=
    voltageScan_none pairMem (fun b _ _ => accepts_false_of_first _ _ pairMem_no_d0 b)
  have ht : tableScan pairMem 0 = (0xc071b004, [Event.printk (Msg.epicPwn 0xc071b004)]) :=
    tableScan_found pairMem 0xc071b004 0 (by decide) (by decide) (by decide)
      (fun b _ hb => by
        cases hs : signature pairMem b with
        | false => rfl
        | true =>
          have := pairMem_signature_unique b hs
          omega)
  have hT : (overclock_init_mem 0x1C 1250000 simAddrs 0 pairMem).1 = 0xc071b004 := by
    rw [overclock_init_mem_eq, hv, ht]
  have hmb : memBeforeLastScan 0x1C 1250000 simAddrs 0 pairMem
      = cpufreqStores 0x1C simAddrs (patchStores 0x1C 1250000 0xc071b004 pairMem) := by
    unfold memBeforeLastScan
    rw [hv, ht]
    show cpufreqStores 0x1C simAddrs (tablePatch 0x1C 1250000 0xc071b004 pairMem) = _
    rw [tablePatch_of_guard _ _ _ _ (by decide)]
  refine ⟨hv, hT, hmb, ?_⟩
  rw [hmb, freqScan_found _ 0xc0000020 (by decide) (by decide) (by decide)
    (fun b _ hb => by
      rw [accepts_eq_false_iff]
      intro hh
      have := pairMem_stored_71 (b + 1) hh.2.1
      omega)]

/-- C12, witness: `overclock_init_mem` over `pairMem` with the default
parameters and the cpufreq objects at `simAddrs`.  The guard passes, the
layout condition holds, and the last scan does report a match, at
`0xc0000020`, whose four bytes overlap none of the six compared words. -/
theorem policy_slots_consistent_pairMem :
    acpuclk_khz (voltageScan pairMem).1
      (overclock_init_mem 0x1C 1250000 simAddrs 0 pairMem).1 17 = 1188000 ∧
    simAddrs.clear (overclock_init_mem 0x1C 1250000 simAddrs 0 pairMem).1 ∧
    (freqScan (memBeforeLastScan 0x1C 1250000 simAddrs 0 pairMem)).2
      = [Event.printk (Msg.epicPwn 0xc0000020)] ∧
    (∀ w ∈ comparedWords simAddrs (overclock_init_mem 0x1C 1250000 simAddrs 0 pairMem).1,
      apart 0xc0000020 w) ∧
    (read32 (overclock_init_mem 0x1C 1250000 simAddrs 0 pairMem).2 simAddrs.ft0_16
      = acpuclk_khz (overclock_init_mem 0x1C 1250000 simAddrs 0 pairMem).2
          (overclock_init_mem 0x1C 1250000 simAddrs 0 pairMem).1 17 ∧
    read32 (overclock_init_mem 0x1C 1250000 simAddrs 0 pairMem).2 simAddrs.ft1_16
      = acpuclk_khz (overclock_init_mem 0x1C 1250000 simAddrs 0 pairMem).2
          (overclock_init_mem 0x1C 1250000 simAddrs 0 pairMem).1 17 ∧
    read32 (overclock_init_mem 0x1C 1250000 simAddrs 0 pairMem).2 simAddrs.ft0_15
      = acpuclk_khz (overclock_init_mem 0x1C 1250000 simAddrs 0 pairMem).2
          (overclock_init_mem 0x1C 1250000 simAddrs 0 pairMem).1 16 ∧
    read32 (overclock_init_mem 0x1C 1250000 simAddrs 0 pairMem).2 simAddrs.ft1_15
      = acpuclk_khz (overclock_init_mem 0x1C 1250000 simAddrs 0 pairMem).2
          (overclock_init_mem 0x1C 1250000 simAddrs 0 pairMem).1 16) :=
  have hguard : acpuclk_khz (voltageScan pairMem).1
      (overclock_init_mem 0x1C 1250000 simAddrs 0 pairMem).1 17 = 1188000 := by
    rw [overclock_init_mem_pairMem.1, overclock_init_mem_pairMem.2.1]
    decide
  have hclear : simAddrs.clear (overclock_init_mem 0x1C 1250000 simAddrs 0 pairMem).1 := by
    rw [overclock_init_mem_pairMem.2.1]
    decide
  have hw : ∀ w ∈ comparedWords simAddrs
      (overclock_init_mem 0x1C 1250000 simAddrs 0 pairMem).1, apart 0xc0000020 w := by
    rw [overclock_init_mem_pairMem.2.1]
    decide
  ⟨hguard, hclear, overclock_init_mem_pairMem.2.2.2, hw,
    policy_slots_consistent 0x1C 1250000 simAddrs 0 pairMem hguard hclear (by
      intro a ha
      rw [overclock_init_mem_pairMem.2.2.2] at ha
      cases ha
      exact hw)⟩

theorem tableMem_tableScan :
    tableScan tableMem 0 = (0xc071b004, [Event.printk (Msg.epicPwn 0xc071b004)]) :=
  tableScan_found tableMem 0xc071b004 0 (by decide) (by decide) (by decide)
    (fun b _ hb => by
      cases hs : signature tableMem b with
      | false => rfl
      | true =>
        have := tableMem_signature_unique b hs
        omega)

/-- In `tableMem`, after the table patch with `scpll_l_val = 22000` and the
stores to the cpufreq objects at `lowAddrs`, no byte up to `0xc0000020` is
`0x71`. -/
theorem lowAddrs_stored_no_71 (x : Nat) (hx : x ≤ 0xc0000020) :
    cpufreqStores 22000 lowAddrs (patchStores 22000 1250000 0xc071b004 tableMem) x
      ≠ hex_1188mhz 1 := by
  rcases Nat.lt_or_ge x 0xc0000020 with h | h
  · rw [cpufreqStores_far _ _ _ _ (by
        intro s hs
        simp only [lowAddrs, simAddrs, List.mem_cons, List.mem_singleton,
          List.not_mem_nil, or_false] at hs
        omega),
      patchStores_far _ _ _ _ _ (by
        simp only [patchedByte, fieldAddr, SIZEOF_ACPU_SPEED, OFF_ACPUCLK_KHZ, OFF_L_VAL,
          OFF_VDD_SC]
        omega)]
    exact tableMem_no_71 x
  · have hx' : x = 0xc0000020 := by omega
    rw [hx']
    decide

/-- The scan condition of the consistency property cannot be dropped: run
`overclock_init_mem` over `tableMem` with `scpll_l_val = 22000`, for which
`oc_khz` is 1188000000 (bytes `00 71 cf 46`), and with slot 16 of the cpufreq
table of CPU 0 at `0xc0000020`.  The guard passes and the layout condition
holds; slot 16 and `table[17].acpuclk_khz` both receive 1188000000; the last
scan meets the slot first, rewrites it to 3000000000 and stops, so that in
the final memory slot 16 of CPU 0 is 3000000000 while
`table[17].acpuclk_khz` is 1188000000. -/
theorem last_scan_overwrites_slot :
    oc_khz 22000 = 1188000000 ∧
    (overclock_init_mem 22000 1250000 lowAddrs 0 tableMem).1 = 0xc071b004 ∧
    acpuclk_khz (voltageScan tableMem).1 0xc071b004 17 = 1188000 ∧
    lowAddrs.clear 0xc071b004 ∧
    (freqScan (memBeforeLastScan 22000 1250000 lowAddrs 0 tableMem)).2
      = [Event.printk (Msg.epicPwn lowAddrs.ft0_16)] ∧
    read32 (overclock_init_mem 22000 1250000 lowAddrs 0 tableMem).2 lowAddrs.ft0_16
      = 3000000000 ∧
    acpuclk_khz (overclock_init_mem 22000 1250000 lowAddrs 0 tableMem).2 0xc071b004 17
      = 1188000000 := by
  have hv : voltageScan tableMem = (tableMem, []) := simRun_tableMem.1
  have hmb : memBeforeLastScan 22000 1250000 lowAddrs 0 tableMem
      = cpufreqStores 22000 lowAddrs (patchStores 22000 1250000 0xc071b004 tableMem) := by
    unfold memBeforeLastScan
    rw [hv, tableMem_tableScan]
    show cpufreqStores 22000 lowAddrs (tablePatch 22000 1250000 0xc071b004 tableMem) = _
    rw [tablePatch_of_guard _ _ _ _ (by decide)]
  have hf : freqScan (cpufreqStores 22000 lowAddrs
        (patchStores 22000 1250000 0xc071b004 tableMem))
      = (memcpy4 (cpufreqStores 22000 lowAddrs
          (patchStores 22000 1250000 0xc071b004 tableMem)) 0xc0000020 hex_hugemhz,
          [Event.printk (Msg.epicPwn 0xc0000020)]) :=
    freqScan_found _ 0xc0000020 (by decide) (by decide) (by decide)
      (fun b _ hb => by
        rw [accepts_eq_false_iff]
        intro hh
        exact lowAddrs_stored_no_71 (b + 1) (by omega) hh.2.1)
  rw [overclock_init_mem_eq, hmb, hv, tableMem_tableScan, hf]
  refine ⟨by decide, rfl, by decide, by decide, rfl, ?_, ?_⟩
  · decide
  · decide

end Oc8x60
